import Mathlib

/-
Verification development for the `my-kin-map` family-tree application.

This file gives a shallow embedding of the application's core logic —
the genealogy data model, the persistence-layer operations
(`src/db/schema.ts`), the tree-layout engine
(`src/components/tree/layout.ts`) and the GEDCOM codec
(`src/lib/gedcom/index.ts`) — and proves theorems about the behaviours
the specification describes.

Modelling conventions:
* ids and revision markers are opaque strings; the `uuidv4()` supply is
  modelled by a counter in the store state producing pairwise-distinct
  strings (`freshId`), which captures exactly the freshness/uniqueness
  contract of v4 uuids that the code relies on;
* `new Date()` timestamps are modelled by a `clock : Nat` carried in the
  store state;
* JavaScript truthiness tests on optional strings (`if (x)`) are
  modelled by `truthy`, which is false for `none` and for the empty
  string;
* asynchronous Dexie operations are modelled as explicit state-passing
  functions `Db → Except String (α × Db)`; a thrown `Error` is
  `Except.error` with the thrown message;
* 2-D coordinates (JS numbers) are modelled by `ℚ`; every arithmetic
  operation the layout engine performs (`+`, `-`, `*`, `/ 2`,
  `Math.max`) is exact on the rationals it actually computes with.
-/

namespace KinMap

/-- Sex of a person (`types.ts`): `'M' | 'F' | 'U'`. -/
inductive Sex
  | M
  | F
  | U
deriving DecidableEq, Repr

/-- Family union type (`types.ts`): `'married' | 'partnership' | 'unknown'`. -/
inductive FamilyType
  | married
  | partnership
  | unknown
deriving DecidableEq, Repr

/-- A free-form date/place pair (`types.ts` `DatePlace`); both parts optional. -/
structure DatePlace where
  date : Option String := none
  place : Option String := none
deriving DecidableEq, Repr

/-- A person record (`types.ts` `Person`).  Binary photo blobs are out of
scope and omitted; all other fields are carried.  `rev` is `_rev`,
`deleted` is the `_deleted` soft-delete flag. -/
structure Person where
  id : String
  rev : String := ""
  deleted : Bool := false
  createdAt : Nat := 0
  updatedAt : Nat := 0
  givenNames : String
  surname : String
  birthName : Option String := none
  sex : Sex := .U
  birth : Option DatePlace := none
  death : Option DatePlace := none
  notes : Option String := none
deriving DecidableEq, Repr

/-- A family-union record (`types.ts` `Family`). -/
structure Family where
  id : String
  rev : String := ""
  deleted : Bool := false
  createdAt : Nat := 0
  updatedAt : Nat := 0
  spouse1Id : Option String := none
  spouse2Id : Option String := none
  childIds : List String := []
  marriageDate : Option DatePlace := none
  divorceDate : Option DatePlace := none
  type : FamilyType := .unknown
deriving DecidableEq, Repr

/-- A named tree view (`types.ts` `FamilyTree`). -/
structure FamilyTree where
  id : String
  rev : String := ""
  deleted : Bool := false
  createdAt : Nat := 0
  updatedAt : Nat := 0
  name : String := ""
  description : Option String := none
  rootPersonId : Option String := none
deriving DecidableEq, Repr

/-- JavaScript truthiness of an optional string: `undefined` and `''`
are falsy, every other string is truthy. -/
def truthy : Option String → Bool
  | none => false
  | some s => !(s == "")

/-- The fresh-id supply standing in for `uuidv4()`: the `n`-th id drawn.
All that the application relies on is that distinct draws are distinct
strings, which holds here because the length determines `n`. -/
def freshId (n : Nat) : String :=
  String.mk (List.replicate (n + 1) 'u')

/-- The Dexie store (`db.persons`, `db.families`, `db.trees`) together
with the uuid supply counter and the current wall-clock time. -/
structure Db where
  persons : List Person := []
  families : List Family := []
  trees : List FamilyTree := []
  counter : Nat := 0
  clock : Nat := 0
deriving DecidableEq, Repr

/-- Draw one fresh uuid from the supply. -/
def Db.fresh (db : Db) : String × Db :=
  (freshId db.counter, { db with counter := db.counter + 1 })

/-- Replace the first element satisfying `p` (Dexie `Table.update` on the
record with the given primary key). -/
def updateFirst (p : α → Bool) (g : α → α) : List α → List α
  | [] => []
  | x :: xs => if p x then g x :: xs else x :: updateFirst p g xs

/-- `db.persons.bulkGet(ids)` followed by `filter(Boolean)`: look every id
up, dropping the missing ones, in id-list order. -/
def bulkGet (persons : List Person) (ids : List String) : List Person :=
  ids.filterMap (fun i => persons.find? (fun p => p.id == i))

/-- The partial update payload of `updatePerson`
(`Partial<PersonFormData>`); `none` means "field not provided". -/
structure PersonUpd where
  givenNames : Option String := none
  surname : Option String := none
  birthName : Option String := none
  sex : Option Sex := none
  birthDate : Option String := none
  birthPlace : Option String := none
  deathDate : Option String := none
  deathPlace : Option String := none
  notes : Option String := none
deriving DecidableEq, Repr

/-- `updatePerson` (`schema.ts`): hard error when the id is unknown, else
merge the provided fields, refreshing `_rev` and `updatedAt`. -/
def updatePerson (id : String) (data : PersonUpd) (db : Db) :
    Except String (Unit × Db) :=
  match db.persons.find? (fun p => p.id == id) with
  | none => .error "Person not found"
  | some person =>
    let (rev, db) := db.fresh
    let merge : Person → Person := fun p =>
      let p := { p with rev := rev, updatedAt := db.clock }
      let p := { p with givenNames := data.givenNames.getD p.givenNames }
      let p := { p with surname := data.surname.getD p.surname }
      let p := { p with birthName :=
        if data.birthName.isSome then data.birthName else p.birthName }
      let p := { p with sex := data.sex.getD p.sex }
      let p := { p with notes :=
        if data.notes.isSome then data.notes else p.notes }
      let p :=
        if data.birthDate.isSome || data.birthPlace.isSome then
          let d := if data.birthDate.isSome then data.birthDate
            else person.birth.bind (·.date)
          let pl := if data.birthPlace.isSome then data.birthPlace
            else person.birth.bind (·.place)
          { p with birth := some ⟨d, pl⟩ }
        else p
      let p :=
        if data.deathDate.isSome || data.deathPlace.isSome then
          let d := if data.deathDate.isSome then data.deathDate
            else person.death.bind (·.date)
          let pl := if data.deathPlace.isSome then data.deathPlace
            else person.death.bind (·.place)
          { p with death := some ⟨d, pl⟩ }
        else p
      p
    let persons2 := updateFirst (fun p => p.id == id) merge db.persons
    .ok ((), { db with persons := persons2 })

/-- `addChildToFamily` (`schema.ts`): hard error when the family id is
unknown; append the child id if not already present. -/
def addChildToFamily (familyId childId : String) (db : Db) :
    Except String (Unit × Db) :=
  match db.families.find? (fun f => f.id == familyId) with
  | none => .error "Family not found"
  | some family =>
    if family.childIds.contains childId then .ok ((), db)
    else
      let (rev, db) := db.fresh
      let families2 :=
        updateFirst (fun f => f.id == familyId)
          (fun f => { f with childIds := family.childIds ++ [childId],
                             rev := rev, updatedAt := db.clock })
          db.families
      .ok ((), { db with families := families2 })

/-- `removeChildFromFamily` (`schema.ts`). -/
def removeChildFromFamily (familyId childId : String) (db : Db) :
    Except String (Unit × Db) :=
  match db.families.find? (fun f => f.id == familyId) with
  | none => .error "Family not found"
  | some family =>
    let (rev, db) := db.fresh
    let families2 :=
      updateFirst (fun f => f.id == familyId)
        (fun f => { f with childIds := family.childIds.filter (fun i => i != childId),
                           rev := rev, updatedAt := db.clock })
        db.families
    .ok ((), { db with families := families2 })

/-- The creation payload of `createFamily` (`FamilyFormData`). -/
structure FamilyFormData where
  spouse1Id : Option String := none
  spouse2Id : Option String := none
  marriageDate : Option String := none
  marriagePlace : Option String := none
  divorceDate : Option String := none
  type : FamilyType := .unknown
deriving DecidableEq, Repr

/-- `createFamily` (`schema.ts`): mint id and revision, build the record
with an empty child list, append it to the store. -/
def createFamily (data : FamilyFormData) (db : Db) : Family × Db :=
  let (fid, db) := db.fresh
  let (rev, db) := db.fresh
  let family : Family :=
    { id := fid, rev := rev, createdAt := db.clock, updatedAt := db.clock,
      spouse1Id := data.spouse1Id,
      spouse2Id := data.spouse2Id,
      marriageDate :=
        (if truthy data.marriageDate || truthy data.marriagePlace then
          some ⟨data.marriageDate, data.marriagePlace⟩
        else none),
      divorceDate :=
        (if truthy data.divorceDate then
          some ⟨data.divorceDate, none⟩
        else none),
      childIds := [],
      type := data.type }
  (family, { db with families := db.families ++ [family] })

/-- `[spouseAId, spouseBId].filter(Boolean)`: the list of the truthy
spouse arguments, in argument order. -/
def spousePair (spouseAId spouseBId : Option String) : List String :=
  ([spouseAId, spouseBId].filterMap (fun x => x)).filter (fun s => s != "")

/-- The order-agnostic match predicate of `getOrCreateFamily`: a
non-deleted family whose spouse slots carry exactly `(a, b)` in either
order. -/
def matchesSpousePair (a : String) (b : Option String) (f : Family) : Bool :=
  !f.deleted &&
    ((f.spouse1Id == some a && f.spouse2Id == b) ||
     (f.spouse1Id == b && f.spouse2Id == some a))

/-- `getOrCreateFamily` (`schema.ts`): drop falsy arguments, error when
none remain, otherwise reuse the first non-deleted family carrying the
same unordered spouse pair, or create one. -/
def getOrCreateFamily (spouseAId spouseBId : Option String)
    (type : FamilyType) (db : Db) : Except String (Family × Db) :=
  match spousePair spouseAId spouseBId with
  | [] => .error "At least one spouse is required to create a family"
  | a :: rest =>
    let b : Option String := rest.head?
    match db.families.find? (matchesSpousePair a b) with
    | some existing => .ok (existing, db)
    | none =>
      .ok (createFamily { spouse1Id := some a, spouse2Id := b, type := type } db)

/-- `linkParentsToChild` (`schema.ts`): get-or-create the parents' family
and add the child to it. -/
def linkParentsToChild (parentIds : List String) (childId : String)
    (db : Db) : Except String (Unit × Db) :=
  if parentIds.length = 0 then .ok ((), db)
  else
    match getOrCreateFamily parentIds.head? (parentIds.get? 1) .unknown db with
    | .error e => .error e
    | .ok (family, db) => addChildToFamily family.id childId db

/-- Helper for `linkSpouseAndChildren`: add each child in turn. -/
def addChildren (familyId : String) : List String → Db → Except String (Unit × Db)
  | [], db => .ok ((), db)
  | c :: cs, db =>
    match addChildToFamily familyId c db with
    | .error e => .error e
    | .ok (_, db) => addChildren familyId cs db

/-- `linkSpouseAndChildren` (`schema.ts`): nothing to do when neither a
spouse nor children were given, otherwise get-or-create the (possibly
single-parent) spouse family and link each child. -/
def linkSpouseAndChildren (personId : String) (spouseId : Option String)
    (childIds : List String) (db : Db) : Except String (Unit × Db) :=
  if !truthy spouseId && childIds.length = 0 then .ok ((), db)
  else
    match getOrCreateFamily (some personId) spouseId .unknown db with
    | .error e => .error e
    | .ok (family, db) => addChildren family.id childIds db

/-- The partial update payload of `updateTree`. -/
structure TreeUpd where
  name : Option String := none
  description : Option String := none
  rootPersonId : Option String := none
deriving DecidableEq, Repr

/-- `updateTree` (`schema.ts`): Dexie `Table.update` with no existence
check — on an unknown id it resolves without writing anything and the
caller sees success. -/
def updateTree (id : String) (data : TreeUpd) (db : Db) :
    Except String (Unit × Db) :=
  let (rev, db) := db.fresh
  let trees2 :=
    updateFirst (fun t => t.id == id)
      (fun t =>
        let t := match data.name with
          | some n => { t with name := n } | none => t
        let t := match data.description with
          | some d => { t with description := some d } | none => t
        let t := match data.rootPersonId with
          | some r => { t with rootPersonId := some r } | none => t
        { t with rev := rev, updatedAt := db.clock })
      db.trees
  .ok ((), { db with trees := trees2 })

/-- Result shape of `getPersonWithRelations` (`schema.ts`). -/
structure PersonRelations where
  person : Person
  parents : List Person
  spouses : List Person
  children : List Person
  siblings : List Person
  spouseFamilies : List Family
  birthFamily : Option Family
deriving DecidableEq, Repr

/-- First-occurrence deduplication (`[...new Set(xs)]`). -/
def dedupFirst (xs : List String) : List String :=
  xs.foldl (fun acc x => if acc.contains x then acc else acc ++ [x]) []

/-- `getPersonWithRelations` (`schema.ts`): the relationship query.
Spouse families and the birth family are filtered for `_deleted`; the
person lists obtained through `bulkGet` are only filtered for presence
(`filter(Boolean)`), exactly as in the source. -/
def getPersonWithRelations (db : Db) (personId : String) :
    Option PersonRelations :=
  match db.persons.find? (fun p => p.id == personId) with
  | none => none
  | some person =>
    let asSpouse1 := db.families.filter (fun f => f.spouse1Id == some personId)
    let asSpouse2 := db.families.filter (fun f => f.spouse2Id == some personId)
    let spouseFamilies := (asSpouse1 ++ asSpouse2).filter (fun f => !f.deleted)
    let parentFamilies := db.families.filter (fun f => f.childIds.contains personId)
    let birthFamily := parentFamilies.find? (fun f => !f.deleted)
    let parents := match birthFamily with
      | some bf =>
        bulkGet db.persons
          ((([bf.spouse1Id, bf.spouse2Id].filterMap (fun x => x)).filter
            (fun s => s != "")))
      | none => []
    let spouseIds :=
      ((spouseFamilies.map (fun f =>
          if f.spouse1Id == some personId then f.spouse2Id else f.spouse1Id)).filterMap
        (fun x => x)).filter (fun s => s != "")
    let spouses := bulkGet db.persons spouseIds
    let childIds := spouseFamilies.flatMap (fun f => f.childIds)
    let children := bulkGet db.persons (dedupFirst childIds)
    let siblings := match birthFamily with
      | some bf => bulkGet db.persons (bf.childIds.filter (fun i => i != personId))
      | none => []
    some { person := person, parents := parents, spouses := spouses,
           children := children, siblings := siblings,
           spouseFamilies := spouseFamilies, birthFamily := birthFamily }

/-! ### Tree layout engine (`src/components/tree/layout.ts`) -/

/-- Layout orientation (`types.ts` `TreeLayoutOrientation`). -/
inductive TreeLayoutOrientation
  | vertical
  | horizontal
deriving DecidableEq, Repr

/-- Spacing constants (`LayoutConfig`). -/
structure LayoutConfig where
  nodeWidth : ℚ
  nodeHeight : ℚ
  horizontalSpacing : ℚ
  verticalSpacing : ℚ
  spouseSpacing : ℚ
deriving DecidableEq, Repr

/-- `LAYOUT_CONFIG.desktop`. -/
def desktopConfig : LayoutConfig := ⟨200, 140, 100, 160, 40⟩

/-- `LAYOUT_CONFIG.mobile`. -/
def mobileConfig : LayoutConfig := ⟨120, 80, 40, 80, 15⟩

/-- Payload of a layout node: a single person (`PersonNode`) or a
compacted couple (`CoupleNode`). -/
inductive NodePayload
  | person (p : Person)
  | couple (person1 person2 : Person)
deriving DecidableEq, Repr

/-- A positioned node of the layout output. -/
structure TreeNode where
  id : String
  x : ℚ
  y : ℚ
  isRoot : Bool
  compact : Bool
  orientation : TreeLayoutOrientation
  payload : NodePayload
deriving DecidableEq, Repr

/-- An output edge; the relationship kind is carried — exactly as in the
source — by the styling (`stroke`, `strokeWidth`, `strokeDash`). -/
structure Edge where
  id : String
  source : String
  target : String
  stroke : String
  strokeWidth : ℚ
  strokeDash : Option String
deriving DecidableEq, Repr

/-- The internal relationship-kind parameter of `createEdge`. -/
inductive EdgeKind
  | spouse
  | parentChild
deriving DecidableEq, Repr

/-- `new Map(persons.map(p => [p.id, p])).get(pid)` — the last person
with a given id wins, as for a JS `Map` built from an array. -/
def personMapGet (persons : List Person) (pid : String) : Option Person :=
  persons.reverse.find? (fun p => p.id == pid)

/-- The `personToSpouseFamilies` index: for each family, it is appended
to the list of its first spouse (when truthy) and then of its second
spouse (when truthy), in input order. -/
def spouseFamiliesOf (families : List Family) (pid : String) : List Family :=
  families.flatMap (fun f =>
    (if truthy f.spouse1Id && f.spouse1Id == some pid then [f] else []) ++
    (if truthy f.spouse2Id && f.spouse2Id == some pid then [f] else []))

/-- The `personToBirthFamily` index: built with `Map.set` over the input
order, so the *last* family listing the person as a child wins. -/
def birthFamilyOf (families : List Family) (pid : String) : Option Family :=
  families.reverse.find? (fun f => f.childIds.contains pid)

/-- Lookup in a JS-`Map`-style association list (later `set`s are
prepended, so the first hit is the latest binding). -/
def mapGet (m : List (String × String)) (k : String) : Option String :=
  (m.find? (fun e => e.1 == k)).map (·.2)

/-- Lexicographic code-unit comparison of two character lists — the
comparison JavaScript's default `Array.sort` applies to strings. -/
def ltChars : List Char → List Char → Bool
  | [], [] => false
  | [], _ :: _ => true
  | _ :: _, [] => false
  | c :: cs, d :: ds =>
    if c.toNat < d.toNat then true
    else if d.toNat < c.toNat then false
    else ltChars cs ds

/-- `[a, b].sort().join('-')`: the canonical, order-independent pairing
key of two spouse ids. -/
def coupleKey (a b : String) : String :=
  if ltChars b.data a.data then b ++ "-" ++ a else a ++ "-" ++ b

/-- The couple-node id `couple-${coupleKey}`. -/
def coupleNodeIdOf (a b : String) : String :=
  "couple-" ++ coupleKey a b

/-- One family of the pre-pass building `personToCoupleNodeId`: a family
with both spouses present and at least one child registers both spouses
under the couple-node id, at most once per canonical key.  The
accumulator carries the created keys and the map entries (later `set`s
prepended). -/
def coupleStep (acc : List String × List (String × String)) (f : Family) :
    List String × List (String × String) :=
  if truthy f.spouse1Id && truthy f.spouse2Id && !f.childIds.isEmpty then
    match f.spouse1Id, f.spouse2Id with
    | some s1, some s2 =>
      let key := coupleKey s1 s2
      if acc.1.contains key then acc
      else (key :: acc.1,
            (s2, "couple-" ++ key) :: (s1, "couple-" ++ key) :: acc.2)
    | _, _ => acc
  else acc

/-- The pre-pass building `personToCoupleNodeId`. -/
def buildCoupleMap (families : List Family) : List (String × String) :=
  (families.foldl coupleStep
    (([], []) : List String × List (String × String))).2

/-- Immutable context shared by the layout passes. -/
structure LayoutCtx where
  persons : List Person
  families : List Family
  config : LayoutConfig
  orientation : TreeLayoutOrientation
  isMobile : Bool
  coupleMap : List (String × String)
deriving DecidableEq, Repr

/-- Mutable layout state: the accumulated nodes, edges and the
`positioned` id set (appended in positioning order). -/
structure LState where
  nodes : List TreeNode := []
  edges : List Edge := []
  positioned : List String := []
deriving DecidableEq, Repr

/-- The cospouse ternary
`family.spouse1Id === personId ? family.spouse2Id : family.spouse1Id`. -/
def cospouseOf (family : Family) (pid : String) : Option String :=
  if family.spouse1Id == some pid then family.spouse2Id else family.spouse1Id

/-- The couple-creation block at the top of `positionPerson`: returns the
new state when a couple node is created, `none` when control falls
through to individual placement. -/
def coupleTry (ctx : LayoutCtx) (person : Person) (x y : ℚ) (isRoot : Bool)
    (st : LState) : Option LState :=
  match mapGet ctx.coupleMap person.id with
  | none => none
  | some coupleNodeId =>
    if st.nodes.any (fun n => n.id == coupleNodeId) then none
    else
      match ctx.families.find? (fun f =>
          (f.spouse1Id == some person.id && truthy f.spouse2Id) ||
          (f.spouse2Id == some person.id && truthy f.spouse1Id)) with
      | none => none
      | some family =>
        match cospouseOf family person.id with
        | none => none
        | some sid =>
          match personMapGet ctx.persons sid with
          | none => none
          | some spouse =>
            if st.positioned.contains sid then none
            else some { st with
              positioned := st.positioned ++ [person.id, sid],
              nodes := st.nodes ++ [⟨coupleNodeId, x, y, isRoot, ctx.isMobile,
                ctx.orientation, .couple person spouse⟩] }

/-- `positionPerson`: a no-op for an already-positioned person; otherwise
either create the couple node (absorbing person and spouse) or an
individual person node. -/
def positionPerson (ctx : LayoutCtx) (person : Person) (x y : ℚ)
    (isRoot : Bool) (st : LState) : LState :=
  if st.positioned.contains person.id then st
  else
    match coupleTry ctx person x y isRoot st with
    | some st2 => st2
    | none =>
      { st with
        positioned := st.positioned ++ [person.id],
        nodes := st.nodes ++ [⟨person.id, x, y, isRoot, ctx.isMobile,
          ctx.orientation, .person person⟩] }

/-- `createEdge`: skip spouse edges touching compacted persons, resolve
endpoints through the couple map, dedup by edge id, style by kind. -/
def createEdge (ctx : LayoutCtx) (sourceId targetId : String)
    (kind : EdgeKind) (st : LState) : LState :=
  if kind = .spouse &&
      ((mapGet ctx.coupleMap sourceId).isSome ||
       (mapGet ctx.coupleMap targetId).isSome) then st
  else
    let sourceNodeId := (mapGet ctx.coupleMap sourceId).getD sourceId
    let targetNodeId := (mapGet ctx.coupleMap targetId).getD targetId
    let edgeId := sourceNodeId ++ "-" ++ targetNodeId
    if st.edges.any (fun e => e.id == edgeId) then st
    else
      { st with edges := st.edges ++
        [⟨edgeId, sourceNodeId, targetNodeId,
          (if kind = .spouse then "#f472b6" else "#94a3b8"),
          (if kind = .spouse then 3 else 2),
          (if kind = .spouse then some "5,5" else none)⟩] }

/-- One step of the parent-child edge creation inside the
spouse-families loop of `layoutDescendants`. -/
def childEdgeStep (ctx : LayoutCtx) (personId : String)
    (spouseId : Option String) (st : LState) (cid : String) : LState :=
  let st := createEdge ctx personId cid .parentChild st
  match spouseId with
  | some sid => if sid != "" then createEdge ctx sid cid .parentChild st else st
  | none => st

/-- The parent-child edge creation inside the spouse-families loop of
`layoutDescendants`. -/
def childEdges (ctx : LayoutCtx) (personId : String)
    (spouseId : Option String) (childIds : List String) (st : LState) :
    LState :=
  childIds.foldl (childEdgeStep ctx personId spouseId) st

/-- The spouse-positioning loop of `layoutDescendants` (a `forEach` with
index over the person's spouse families). -/
def spousesLoop (ctx : LayoutCtx) (personId : String) (personX y : ℚ) :
    Nat → List Family → LState → LState
  | _, [], st => st
  | index, family :: rest, st =>
    let spouseId := cospouseOf family personId
    let st :=
      (match spouseId with
       | some sid =>
         if sid != "" && !(st.positioned.contains sid) then
           match personMapGet ctx.persons sid with
           | some spouse =>
             let spouseX := personX +
               ((index : ℚ) + 1) * (ctx.config.nodeWidth + ctx.config.spouseSpacing)
             let st := positionPerson ctx spouse spouseX y false st
             createEdge ctx personId sid .spouse st
           | none => st
         else st
       | none => st)
    let st := childEdges ctx personId spouseId family.childIds st
    spousesLoop ctx personId personX y (index + 1) rest st

/-- The child loop of `layoutDescendants`: iterate the concatenated child
lists of all spouse families, recursing (`recurse` is the descendant
pass one fuel level down) into each not-yet-positioned child and
recording its pre-recursion `currentX`. -/
def descChildren (ctx : LayoutCtx)
    (recurse : String → ℚ → ℚ → Nat → LState → ℚ × LState) :
    List String → ℚ → ℚ → Nat → LState → ℚ × (List (String × ℚ) × LState)
  | [], currentX, _, _, st => (currentX, ([], st))
  | childId :: rest, currentX, y, generation, st =>
    if st.positioned.contains childId then
      descChildren ctx recurse rest currentX y generation st
    else
      let childY := if ctx.orientation = .vertical
        then y + ctx.config.verticalSpacing else y
      let r1 := recurse childId currentX childY (generation + 1) st
      let r2 := descChildren ctx recurse rest (r1.1 + ctx.config.horizontalSpacing)
        y generation r1.2
      (r2.1, ((childId, currentX) :: r2.2.1, r2.2.2))

/-- `layoutDescendants`: the depth-first, post-order descendant pass.
The `fuel` argument bounds the recursion depth; the source recursion is
unbounded and diverges on (genealogically impossible) ancestry cycles,
so the embedding is exact on every input on which the source
terminates when `fuel` exceeds the person count. -/
def layoutDescendants (ctx : LayoutCtx) :
    Nat → String → ℚ → ℚ → Nat → LState → ℚ × LState
  | 0, _, x, _, _, st => (x, st)
  | fuel + 1, personId, x, y, generation, st =>
    match personMapGet ctx.persons personId with
    | none => (x, st)
    | some person =>
      if st.positioned.contains personId then (x, st)
      else
        let spouseFamilies := spouseFamiliesOf ctx.families personId
        let res := descChildren ctx
          (fun pid2 x2 y2 g2 st2 => layoutDescendants ctx fuel pid2 x2 y2 g2 st2)
          (spouseFamilies.flatMap (·.childIds)) x y generation st
        let currentX := res.1
        let childPositions := res.2.1
        let st1 := res.2.2
        let personX :=
          match childPositions with
          | [] => x
          | cp0 :: rest => (cp0.2 + ((cp0 :: rest).getLastD cp0).2) / 2
        let st2 := positionPerson ctx person personX y (generation == 0) st1
        let st3 := spousesLoop ctx personId personX y 0 spouseFamilies st2
        (max currentX (personX + ctx.config.nodeWidth), st3)

/-- The parent loop of `layoutAncestors` (a `forEach` with index;
`recurse` is the ancestor pass one fuel level down). -/
def ancestorsLoop (ctx : LayoutCtx)
    (recurse : String → ℚ → ℚ → Nat → LState → LState) :
    String → ℚ → ℚ → Nat → Nat → List String → LState → LState
  | _, _, _, _, _, [], st => st
  | personId, x, y, generation, index, parentId :: rest, st =>
    let st :=
      if st.positioned.contains parentId then st
      else
        match personMapGet ctx.persons parentId with
        | none => st
        | some parent =>
          let parentY := if ctx.orientation = .vertical
            then y - ctx.config.verticalSpacing else y
          let parentX := x +
            ((index : ℚ) - 1/2) * (ctx.config.nodeWidth + ctx.config.spouseSpacing)
          let st := positionPerson ctx parent parentX parentY false st
          let st := createEdge ctx parentId personId .parentChild st
          recurse parentId parentX parentY (generation + 1) st
    ancestorsLoop ctx recurse personId x y generation (index + 1) rest st

/-- `layoutAncestors`: the pre-order ancestor pass (fuelled like the
descendant pass). -/
def layoutAncestors (ctx : LayoutCtx) :
    Nat → String → ℚ → ℚ → Nat → LState → LState
  | 0, _, _, _, _, st => st
  | fuel + 1, personId, x, y, generation, st =>
    match birthFamilyOf ctx.families personId with
    | none => st
    | some birthFamily =>
      let parentIds :=
        (([birthFamily.spouse1Id, birthFamily.spouse2Id].filterMap
          (fun i => i)).filter (fun s => s != ""))
      let st := ancestorsLoop ctx
        (fun pid2 x2 y2 g2 st2 => layoutAncestors ctx fuel pid2 x2 y2 g2 st2)
        personId x y generation 0 parentIds st
      match parentIds with
      | [p0, p1] => createEdge ctx p0 p1 .spouse st
      | _ => st

/-- `Math.max(...nodes.map(n => n.position.x), 0)`. -/
def maxNodeX (nodes : List TreeNode) : ℚ :=
  nodes.foldl (fun a n => max a n.x) 0

/-- The orphan pass: place every person not reached by the two passes on
a wrapping three-per-row grid. -/
def orphanLoop (ctx : LayoutCtx) :
    List Person → ℚ → ℚ → Nat → LState → LState
  | [], _, _, _, st => st
  | person :: rest, ux, uy, count, st =>
    if st.positioned.contains person.id then orphanLoop ctx rest ux uy count st
    else
      let st := positionPerson ctx person ux uy false st
      let count := count + 1
      if count % 3 == 0 then
        let ux2 := maxNodeX st.nodes + ctx.config.nodeWidth +
          ctx.config.horizontalSpacing * 2
        orphanLoop ctx rest ux2
          (uy + ctx.config.nodeHeight + ctx.config.verticalSpacing / 2) count st
      else
        orphanLoop ctx rest (ux + ctx.config.nodeWidth + ctx.config.horizontalSpacing)
          uy count st

/-- The result of `generateTreeLayout`. -/
structure LayoutResult where
  nodes : List TreeNode := []
  edges : List Edge := []
deriving DecidableEq, Repr

/-- The layout context `generateTreeLayout` assembles. -/
def mkLayoutCtx (persons : List Person) (families : List Family)
    (orientation : TreeLayoutOrientation) (isMobile : Bool) : LayoutCtx :=
  ⟨persons, families, (if isMobile then mobileConfig else desktopConfig),
   orientation, isMobile, buildCoupleMap families⟩

/-- The layout state after the three passes of `generateTreeLayout`
(descendants from the root, ancestors, orphan grid). -/
def layoutPipelineState (persons : List Person) (families : List Family)
    (orientation : TreeLayoutOrientation) (isMobile : Bool)
    (root : Person) : LState :=
  let ctx := mkLayoutCtx persons families orientation isMobile
  let fuel := persons.length + 2
  let startX : ℚ := 0
  let startY : ℚ :=
    if orientation = .vertical then ctx.config.verticalSpacing * 2 else 0
  let r := layoutDescendants ctx fuel root.id startX startY 0 {}
  let st := layoutAncestors ctx fuel root.id startX startY 0 r.2
  let ux := maxNodeX st.nodes + ctx.config.nodeWidth + ctx.config.horizontalSpacing * 2
  orphanLoop ctx persons ux startY 0 st

/-- The body of `generateTreeLayout` once the root person is resolved:
descendant pass from the root, ancestor pass, then the orphan grid. -/
def layoutPipeline (persons : List Person) (families : List Family)
    (orientation : TreeLayoutOrientation) (isMobile : Bool)
    (root : Person) : LayoutResult :=
  let st := layoutPipelineState persons families orientation isMobile root
  ⟨st.nodes, st.edges⟩

/-- `generateTreeLayout` (`layout.ts`): empty input gives an empty
layout; otherwise resolve the root (the supplied id when truthy, else
the first person) and run the three passes. -/
def generateTreeLayout (persons : List Person) (families : List Family)
    (rootPersonId : Option String) (orientation : TreeLayoutOrientation)
    (isMobile : Bool) : LayoutResult :=
  if persons.isEmpty then {}
  else
    let rootPerson := if truthy rootPersonId
      then personMapGet persons (rootPersonId.getD "")
      else persons.head?
    match rootPerson with
    | none => {}
    | some root => layoutPipeline persons families orientation isMobile root

/-- The person ids a layout node carries: one for an individual node,
two for a compacted couple node. -/
def occupantIds (n : TreeNode) : List String :=
  match n.payload with
  | .person p => [p.id]
  | .couple p1 p2 => [p1.id, p2.id]

/-- Whether a node is a compacted couple node. -/
def isCoupleNode (n : TreeNode) : Bool :=
  match n.payload with
  | .couple _ _ => true
  | .person _ => false

/-- Number of couple nodes in a node list. -/
def coupleNodeCount (nodes : List TreeNode) : Nat :=
  nodes.countP isCoupleNode

/-- The running invariant of the layout state: the `positioned` set is
exactly the ids absorbed into nodes (in order), no id is absorbed twice,
and only input persons are absorbed. -/
def LInv (persons : List Person) (st : LState) : Prop :=
  st.positioned = st.nodes.flatMap occupantIds ∧
  st.positioned.Nodup ∧
  ∀ i ∈ st.positioned, i ∈ persons.map Person.id

/-- The data-model validity condition that a family's spouse pair is a
2-element (unordered) set: both slots present means they differ. -/
def SpousesDistinct (families : List Family) : Prop :=
  ∀ f ∈ families, truthy f.spouse1Id → truthy f.spouse2Id →
    f.spouse1Id ≠ f.spouse2Id

/-! ### Store invariants -/

/-- The self-parent-free invariant of the data model: no family lists
one of its own spouses among its children. -/
def SelfParentFree (db : Db) : Prop :=
  ∀ f ∈ db.families, ∀ s ∈ f.childIds,
    f.spouse1Id ≠ some s ∧ f.spouse2Id ≠ some s

/-- Primary-key discipline of the real store: family ids are unique
(IndexedDB enforces this; the list model states it explicitly). -/
def FamIdsNodup (db : Db) : Prop :=
  (db.families.map Family.id).Nodup

/-- Uuid freshness: no stored family already uses an id the supply is
yet to mint (the uniqueness contract of `uuidv4()`). -/
def FreshFamIdsUnused (db : Db) : Prop :=
  ∀ f ∈ db.families, ∀ k, db.counter ≤ k → f.id ≠ freshId k

/-! ### GEDCOM codec (`src/lib/gedcom/index.ts`)

The `parse-gedcom` library is an external dependency (not part of the
repository sources); its behaviour — splitting the text into lines,
reading `LEVEL [@POINTER@] TAG [DATA]` off each line and nesting records
by level numbers — is modelled from the specification's description of
the GEDCOM line grammar.  Everything else (record collection, individual
and family parsing, the import/export drivers) is translated from
`src/lib/gedcom/index.ts`. -/

/-- String truthiness for non-optional strings: only `''` is falsy. -/
def truthyS (s : String) : Bool := !(s == "")

/-- Modelled from the spec: split a character stream at a separator
(`'\n'` for the line splitter); `n` separators yield `n + 1` fields. -/
def splitOnChar (sep : Char) : List Char → List (List Char)
  | [] => [[]]
  | c :: cs =>
    if c = sep then [] :: splitOnChar sep cs
    else
      match splitOnChar sep cs with
      | [] => [[c]]
      | l :: ls => (c :: l) :: ls

/-- `lines.join('\n')` (`Array.prototype.join`). -/
def joinNL : List String → String
  | [] => ""
  | [l] => l
  | l :: ls => l ++ "\n" ++ joinNL ls

/-- Modelled from the spec: take the token up to the first space, and
what follows it (`none` when there is no space). -/
def breakSpace : List Char → List Char × Option (List Char)
  | [] => ([], none)
  | c :: cs =>
    if c = ' ' then ([], some cs)
    else
      let r := breakSpace cs
      (c :: r.1, r.2)

/-- Decimal digit value of a character, if it is a digit. -/
def digit? (c : Char) : Option Nat :=
  if 48 ≤ c.toNat && c.toNat ≤ 57 then some (c.toNat - 48) else none

/-- Modelled from the spec: read a decimal numeral. -/
def charsToNatAux : List Char → Nat → Option Nat
  | [], acc => some acc
  | c :: cs, acc =>
    match digit? c with
    | some d => charsToNatAux cs (acc * 10 + d)
    | none => none

/-- Modelled from the spec: read a non-empty decimal numeral. -/
def charsToNat? : List Char → Option Nat
  | [] => none
  | c :: cs => charsToNatAux (c :: cs) 0

/-- A parsed GEDCOM line: level number, optional cross-reference
pointer, tag, optional data. -/
structure PLine where
  level : Nat
  pointer : Option String
  tag : String
  data : Option String
deriving DecidableEq, Repr

/-- Absent or empty line data both become `none` (the library leaves
`data` undefined when a line carries no value). -/
def mkData : Option (List Char) → Option String
  | none => none
  | some [] => none
  | some (c :: cs) => some (String.mk (c :: cs))

/-- Modelled from the spec: parse one GEDCOM line
(`LEVEL [@POINTER@] TAG [DATA]`); lines that do not start with a level
numeral followed by a tag are dropped. -/
def parseLine (cs : List Char) : Option PLine :=
  let t0 := breakSpace cs
  match charsToNat? t0.1, t0.2 with
  | some lvl, some r1 =>
    let t1 := breakSpace r1
    if t1.1.head? = some '@' then
      match t1.2 with
      | some r2 =>
        let t2 := breakSpace r2
        if t2.1 = [] then none
        else some ⟨lvl, some (String.mk t1.1), String.mk t2.1, mkData t2.2⟩
      | none => none
    else
      if t1.1 = [] then none
      else some ⟨lvl, none, String.mk t1.1, mkData t1.2⟩
  | _, _ => none

/-- A GEDCOM record node: tag, optional pointer, optional data, child
records. -/
inductive GNode where
  | mk (tag : String) (pointer : Option String) (data : Option String)
      (children : List GNode)

def GNode.tag : GNode → String
  | ⟨t, _, _, _⟩ => t

def GNode.pointer : GNode → Option String
  | ⟨_, p, _, _⟩ => p

def GNode.data : GNode → Option String
  | ⟨_, _, d, _⟩ => d

def GNode.children : GNode → List GNode
  | ⟨_, _, _, cs⟩ => cs

/-- Modelled from the spec: nest the parsed lines into a record forest
by level numbers.  A node's subtree is the run of following lines with a
strictly greater level; stray lines at an unexpected level are skipped.
`fuel` bounds the recursion depth; the result is exact whenever `fuel`
is at least the number of lines. -/
def buildForest : Nat → Nat → List PLine → List GNode
  | 0, _, _ => []
  | _ + 1, _, [] => []
  | fuel + 1, lvl, p :: rest =>
    if p.level = lvl then
      ⟨p.tag, p.pointer, p.data,
        buildForest fuel (lvl + 1) (rest.takeWhile (fun q => lvl < q.level))⟩ ::
      buildForest fuel lvl (rest.dropWhile (fun q => lvl < q.level))
    else buildForest fuel lvl rest

/-- Modelled from the spec: the external parser's full document parse. -/
def parseGedcomDoc (content : String) : List GNode :=
  let pls := (splitOnChar '\n' content.data).filterMap parseLine
  buildForest pls.length 0 pls

/-- One sibling row of `collectRecords` (`gedcom/index.ts`): push INDI
and FAM records carrying a pointer, in depth-first pre-order; `recurse`
is the walk one fuel level down. -/
def collectForest
    (recurse : List GNode → List GNode × List GNode → List GNode × List GNode) :
    List GNode → List GNode × List GNode → List GNode × List GNode
  | [], acc => acc
  | n :: rest, acc =>
    let acc1 :=
      if n.tag == "INDI" && truthy n.pointer then (acc.1 ++ [n], acc.2)
      else if n.tag == "FAM" && truthy n.pointer then (acc.1, acc.2 ++ [n])
      else acc
    let acc2 := if n.children.isEmpty then acc1 else recurse n.children acc1
    collectForest recurse rest acc2

/-- `collectRecords` (`gedcom/index.ts`): walk every level, collecting
individual and family records regardless of nesting depth.  `fuel`
bounds the descent depth (exact when it is at least the forest depth;
the source recursion always terminates on finite forests). -/
def collectRecords : Nat → List GNode → List GNode × List GNode →
    List GNode × List GNode
  | 0, ns, acc => collectForest (fun _ acc2 => acc2) ns acc
  | fuel + 1, ns, acc =>
    collectForest (fun cs acc2 => collectRecords fuel cs acc2) ns acc

/-- The pointer→id map and the uuid-supply counter threaded through one
run of `importGedcom` (`pointerToIdMap`, cleared at its start). -/
abbrev PState := List (String × String) × Nat

/-- `getOrCreateId` (`gedcom/index.ts`). -/
def getOrCreateId (ptr : String) (st : PState) : String × PState :=
  match st.1.find? (fun e => e.1 == ptr) with
  | some e => (e.2, st)
  | none => (freshId st.2, (st.1 ++ [(ptr, freshId st.2)], st.2 + 1))

/-- `extractValue` (`gedcom/index.ts`). -/
def extractValue (r : GNode) (tag : String) : Option String :=
  (r.children.find? (fun n => n.tag == tag)).bind (·.data)

/-- `extractNestedValue` (`gedcom/index.ts`). -/
def extractNestedValue (r : GNode) (parentTag childTag : String) :
    Option String :=
  match r.children.find? (fun n => n.tag == parentTag) with
  | none => none
  | some parent => (parent.children.find? (fun n => n.tag == childTag)).bind (·.data)

/-- `parseSex` (`gedcom/index.ts`). -/
def parseSex (v : Option String) : Sex :=
  if v = some "M" then .M else if v = some "F" then .F else .U

/-- The name regex `^([^\x2f]*)\/?([^\x2f]*)\/?$` applied to a composite
GEDCOM name: the groups are the segments before/between the first two
slashes; three segments match only when the third is empty, more never
match. -/
def gedcomNameMatch (cs : List Char) : Option (List Char × List Char) :=
  match splitOnChar '/' cs with
  | [a] => some (a, [])
  | [a, b] => some (a, b)
  | [a, b, c] => if c = [] then some (a, b) else none
  | _ => none

/-- JavaScript `String.prototype.trim` whitespace. -/
def isWS (c : Char) : Bool :=
  c = ' ' || c = '\t' || c = '\n' || c = '\r'

/-- `trim`. -/
def trimChars (cs : List Char) : List Char :=
  ((cs.dropWhile isWS).reverse.dropWhile isWS).reverse

/-- `parseIndividual` (`gedcom/index.ts`): mint/look up the record id,
take the name from the composite NAME data (slash pattern, trimmed),
overridden by structured GIVN/SURN parts when present; extract sex,
birth, death, notes. -/
def parseIndividual (record : GNode) (clock : Nat) (st : PState) :
    Person × PState :=
  let r0 := getOrCreateId (record.pointer.getD "") st
  let id := r0.1
  let st := r0.2
  let nameNode := record.children.find? (fun n => n.tag == "NAME")
  let nameParsed : String × String :=
    match nameNode with
    | some nn =>
      match nn.data with
      | some nd =>
        (match gedcomNameMatch nd.data with
         | some gs => (String.mk (trimChars gs.1), String.mk (trimChars gs.2))
         | none => ("", ""))
      | none => ("", "")
    | none => ("", "")
  let structured : String × String :=
    match nameNode with
    | some nn =>
      ((match (nn.children.find? (fun n => n.tag == "GIVN")).bind (·.data) with
        | some gd => gd
        | none => nameParsed.1),
       (match (nn.children.find? (fun n => n.tag == "SURN")).bind (·.data) with
        | some sd => sd
        | none => nameParsed.2))
    | none => nameParsed
  let birthDate := extractNestedValue record "BIRT" "DATE"
  let birthPlace := extractNestedValue record "BIRT" "PLAC"
  let deathDate := extractNestedValue record "DEAT" "DATE"
  let deathPlace := extractNestedValue record "DEAT" "PLAC"
  let notes := (record.children.find? (fun n => n.tag == "NOTE")).bind (·.data)
  let rev := freshId st.2
  let st := (st.1, st.2 + 1)
  ({ id := id, rev := rev, createdAt := clock, updatedAt := clock,
     givenNames := if structured.1 = "" then "Unknown" else structured.1,
     surname := structured.2,
     sex := parseSex (extractValue record "SEX"),
     birth :=
       if truthy birthDate || truthy birthPlace then
         some ⟨birthDate, birthPlace⟩
       else none,
     death :=
       if truthy deathDate || truthy deathPlace then
         some ⟨deathDate, deathPlace⟩
       else none,
     notes := notes }, st)

/-- `parseFamily` (`gedcom/index.ts`): mint/look up the record id,
resolve spouse and child pointers through the same map (uuid draws in
source order: record id, spouses, children, then `_rev`), extract
marriage/divorce data and the union type. -/
def parseFamily (record : GNode) (clock : Nat) (st : PState) :
    Family × PState :=
  let r0 := getOrCreateId (record.pointer.getD "") st
  let id := r0.1
  let st := r0.2
  let husb := (record.children.find? (fun n => n.tag == "HUSB")).bind (·.data)
  let wife := (record.children.find? (fun n => n.tag == "WIFE")).bind (·.data)
  let r1 : Option String × PState :=
    match husb with
    | some h => let r := getOrCreateId h st; (some r.1, r.2)
    | none => (none, st)
  let spouse1Id := r1.1
  let st := r1.2
  let r2 : Option String × PState :=
    match wife with
    | some w => let r := getOrCreateId w st; (some r.1, r.2)
    | none => (none, st)
  let spouse2Id := r2.1
  let st := r2.2
  let childNodes := record.children.filter (fun n => n.tag == "CHIL")
  let rc := childNodes.foldl
    (fun (acc : List String × PState) n =>
      match n.data with
      | some d => let r := getOrCreateId d acc.2; (acc.1 ++ [r.1], r.2)
      | none => (acc.1 ++ [""], acc.2))
    ([], st)
  let childIds := rc.1.filter (fun s => s != "")
  let st := rc.2
  let marriageDate := extractNestedValue record "MARR" "DATE"
  let marriagePlace := extractNestedValue record "MARR" "PLAC"
  let divorceDate := extractNestedValue record "DIV" "DATE"
  let ftype : FamilyType :=
    if record.children.any (fun n => n.tag == "MARR") then .married else .unknown
  let rev := freshId st.2
  let st := (st.1, st.2 + 1)
  ({ id := id, rev := rev, createdAt := clock, updatedAt := clock,
     spouse1Id := spouse1Id, spouse2Id := spouse2Id, childIds := childIds,
     marriageDate :=
       if truthy marriageDate || truthy marriagePlace then
         some ⟨marriageDate, marriagePlace⟩
       else none,
     divorceDate :=
       if truthy divorceDate then some ⟨divorceDate, none⟩ else none,
     type := ftype }, st)

/-- `db.persons.put(person)`: upsert by primary key. -/
def putPerson (p : Person) (ps : List Person) : List Person :=
  if ps.any (fun q => q.id == p.id) then
    updateFirst (fun q => q.id == p.id) (fun _ => p) ps
  else ps ++ [p]

/-- `db.families.put(family)`: upsert by primary key. -/
def putFamily (f : Family) (fs : List Family) : List Family :=
  if fs.any (fun g => g.id == f.id) then
    updateFirst (fun g => g.id == f.id) (fun _ => f) fs
  else fs ++ [f]

/-- `individuals.map(parseIndividual)` with the pointer map threaded. -/
def parseIndividuals (clock : Nat) : List GNode → PState →
    List Person × PState
  | [], st => ([], st)
  | r :: rs, st =>
    let pr := parseIndividual r clock st
    let rest := parseIndividuals clock rs pr.2
    (pr.1 :: rest.1, rest.2)

/-- `familyRecords.map(parseFamily)` with the pointer map threaded. -/
def parseFamilies (clock : Nat) : List GNode → PState →
    List Family × PState
  | [], st => ([], st)
  | r :: rs, st =>
    let fr := parseFamily r clock st
    let rest := parseFamilies clock rs fr.2
    (fr.1 :: rest.1, rest.2)

/-- `importGedcom` (`gedcom/index.ts`): clear the pointer map, parse the
document, descend once into a lone HEAD wrapper, collect INDI/FAM
records at any depth, parse individuals then families, and upsert them
all; returns the parsed counts. -/
def importGedcom (content : String) (db : Db) : (Nat × Nat) × Db :=
  let pls := (splitOnChar '\n' content.data).filterMap parseLine
  let rootRecords := buildForest pls.length 0 pls
  let maybeHead :=
    match rootRecords with
    | [r] => if r.tag = "HEAD" then r.children else rootRecords
    | _ => rootRecords
  let collected := collectRecords (pls.length + 1) maybeHead ([], [])
  let rp := parseIndividuals db.clock collected.1 ([], db.counter)
  let persons := rp.1
  let rf := parseFamilies db.clock collected.2 rp.2
  let families := rf.1
  let db2 := { db with
    persons := persons.foldl (fun acc p => putPerson p acc) db.persons,
    families := families.foldl (fun acc f => putFamily f acc) db.families,
    counter := rf.2.2 }
  ((persons.length, families.length), db2)

/-! ### GEDCOM export (`exportGedcom`) -/

/-- Decimal digits of `n` (most significant first), by fuel. -/
def natDigits : Nat → Nat → List Char
  | 0, _ => []
  | fuel + 1, n =>
    if n = 0 then []
    else natDigits fuel (n / 10) ++ [Char.ofNat (48 + n % 10)]

/-- Decimal numeral of `n` (the `${counter}` template interpolation). -/
def natRepr (n : Nat) : String :=
  if n = 0 then "0" else String.mk (natDigits (n + 1) n)

/-- JS `Map.get` over entries appended in `set` order: the last binding
for a key wins. -/
def mapGetLast (m : List (String × String)) (k : String) : Option String :=
  (m.reverse.find? (fun e => e.1 == k)).map (·.2)

/-- The `idToPointer` map of `exportGedcom`: sequential `@In@` pointers
for persons, then `@Fn@` pointers for families. -/
def idToPointerOf (persons : List Person) (families : List Family) :
    List (String × String) :=
  (persons.enum.map (fun e => (e.2.id, "@I" ++ natRepr (e.1 + 1) ++ "@"))) ++
  (families.enum.map (fun e => (e.2.id, "@F" ++ natRepr (e.1 + 1) ++ "@")))

/-- `notes.replace(/\n/g, '\n2 CONT ')`. -/
def replaceNL : List Char → List Char
  | [] => []
  | c :: cs =>
    if c = '\n' then
      '\n' :: '2' :: ' ' :: 'C' :: 'O' :: 'N' :: 'T' :: ' ' :: replaceNL cs
    else c :: replaceNL cs

/-- `notes.replace(/\n/g, '\n2 CONT ')` on strings. -/
def replaceNLs (s : String) : String := String.mk (replaceNL s.data)

/-- The `${person.sex}` interpolation. -/
def sexStr : Sex → String
  | .M => "M"
  | .F => "F"
  | .U => "U"

/-- Modelled from the spec: the export-date header field (a function of
the wall clock).  Downstream behaviour depends only on it being a single
newline-free token, which any date rendering satisfies. -/
def exportDateStr (clock : Nat) : String := natRepr clock

/-- The header block of `exportGedcom`. -/
def headerLines (clock : Nat) : List String :=
  ["0 HEAD", "1 SOUR My Kin Map", "2 VERS 1.0", "1 GEDC", "2 VERS 5.5.1",
   "2 FORM LINEAGE-LINKED", "1 CHAR UTF-8", "1 DATE " ++ exportDateStr clock]

/-- The per-person block of `exportGedcom`: identity, composite and
structured name lines, sex unless unknown, birth/death blocks when
any content, notes with continuation splicing, and FAMS/FAMC
back-references against every exported family. -/
def personLines (families : List Family) (m : List (String × String))
    (p : Person) : List String :=
  let pointer := (mapGetLast m p.id).getD ""
  let bd := p.birth.bind (·.date)
  let bp := p.birth.bind (·.place)
  let dd := p.death.bind (·.date)
  let dp := p.death.bind (·.place)
  ["0 " ++ pointer ++ " INDI",
   "1 NAME " ++ p.givenNames ++ " /" ++ p.surname ++ "/"]
  ++ (if truthyS p.givenNames then ["2 GIVN " ++ p.givenNames] else [])
  ++ (if truthyS p.surname then ["2 SURN " ++ p.surname] else [])
  ++ (if p.sex = .U then [] else ["1 SEX " ++ sexStr p.sex])
  ++ (if truthy bd || truthy bp then
        ["1 BIRT"]
        ++ (if truthy bd then ["2 DATE " ++ bd.getD ""] else [])
        ++ (if truthy bp then ["2 PLAC " ++ bp.getD ""] else [])
      else [])
  ++ (if truthy dd || truthy dp then
        ["1 DEAT"]
        ++ (if truthy dd then ["2 DATE " ++ dd.getD ""] else [])
        ++ (if truthy dp then ["2 PLAC " ++ dp.getD ""] else [])
      else [])
  ++ (if truthy p.notes then
        ["1 NOTE " ++ replaceNLs (p.notes.getD "")]
      else [])
  ++ families.flatMap (fun f =>
      let fp := (mapGetLast m f.id).getD ""
      (if f.spouse1Id == some p.id || f.spouse2Id == some p.id then
        ["1 FAMS " ++ fp] else [])
      ++ (if f.childIds.contains p.id then ["1 FAMC " ++ fp] else []))

/-- The per-family block of `exportGedcom`: identity, spouse references
only when still resolvable, marriage block when married or dated,
divorce block, child references only when resolvable. -/
def familyLines (m : List (String × String)) (f : Family) : List String :=
  let pointer := (mapGetLast m f.id).getD ""
  let md := f.marriageDate.bind (·.date)
  let mp := f.marriageDate.bind (·.place)
  let dd := f.divorceDate.bind (·.date)
  ["0 " ++ pointer ++ " FAM"]
  ++ (if truthy f.spouse1Id && (mapGetLast m (f.spouse1Id.getD "")).isSome then
        ["1 HUSB " ++ (mapGetLast m (f.spouse1Id.getD "")).getD ""] else [])
  ++ (if truthy f.spouse2Id && (mapGetLast m (f.spouse2Id.getD "")).isSome then
        ["1 WIFE " ++ (mapGetLast m (f.spouse2Id.getD "")).getD ""] else [])
  ++ (if f.type == .married || f.marriageDate.isSome then
        ["1 MARR"]
        ++ (if truthy md then ["2 DATE " ++ md.getD ""] else [])
        ++ (if truthy mp then ["2 PLAC " ++ mp.getD ""] else [])
      else [])
  ++ (if f.divorceDate.isSome then
        ["1 DIV"] ++ (if truthy dd then ["2 DATE " ++ dd.getD ""] else [])
      else [])
  ++ f.childIds.flatMap (fun c =>
      if (mapGetLast m c).isSome then
        ["1 CHIL " ++ (mapGetLast m c).getD ""]
      else [])

/-- All lines of `exportGedcom`, in emission order. -/
def exportLines (db : Db) : List String :=
  let persons := db.persons.filter (fun p => !p.deleted)
  let families := db.families.filter (fun f => !f.deleted)
  let m := idToPointerOf persons families
  headerLines db.clock
  ++ persons.flatMap (personLines families m)
  ++ families.flatMap (familyLines m)
  ++ ["0 TRLR"]

/-- `exportGedcom` (`gedcom/index.ts`): the joined document. -/
def exportGedcom (db : Db) : String := joinNL (exportLines db)

/-! ### Concrete records used in counterexample inputs -/

/-- A minimal person record with a given id. -/
def mkP (i : String) : Person :=
  { id := i, givenNames := i, surname := "" }

/-- Family `a`–`b` with one child pointer. -/
def famAB : Family :=
  { id := "f1", spouse1Id := some "a", spouse2Id := some "b", childIds := ["k1"] }

/-- Family `a`–`c` with one child pointer. -/
def famAC : Family :=
  { id := "f2", spouse1Id := some "a", spouse2Id := some "c", childIds := ["k2"] }

/-- Childless family `a`–`b`. -/
def famABnc : Family :=
  { id := "f3", spouse1Id := some "a", spouse2Id := some "b" }

/-! ### Helper lemmas about the store primitives -/

theorem updateFirst_of_forall_not (p : α → Bool) (g : α → α) :
    ∀ l : List α, (∀ x ∈ l, p x = false) → updateFirst p g l = l
  | [], _ => rfl
  | x :: xs, h => by
    have hx := h x (List.mem_cons_self x xs)
    simp only [updateFirst, hx, Bool.false_eq_true, if_false, List.cons.injEq, true_and]
    exact updateFirst_of_forall_not p g xs (fun y hy => h y (List.mem_cons_of_mem x hy))

theorem updateFirst_split (p : α → Bool) (g : α → α) :
    ∀ l : List α, ∀ a, l.find? p = some a →
      ∃ l1 l2, l = l1 ++ a :: l2 ∧ (∀ x ∈ l1, p x = false) ∧
        updateFirst p g l = l1 ++ g a :: l2
  | [], a, h => by simp at h
  | x :: xs, a, h => by
    by_cases hx : p x
    · rw [List.find?_cons_of_pos _ hx] at h
      obtain rfl : x = a := by injection h
      refine ⟨[], xs, rfl, ?_, ?_⟩
      · intro y hy; simp at hy
      · simp [updateFirst, hx]
    · rw [List.find?_cons_of_neg _ hx] at h
      obtain ⟨l1, l2, h1, h2, h3⟩ := updateFirst_split p g xs a h
      refine ⟨x :: l1, l2, by simp [h1], ?_, ?_⟩
      · intro y hy
        rcases List.mem_cons.mp hy with rfl | hy
        · exact Bool.eq_false_iff.mpr hx
        · exact h2 y hy
      · simp [updateFirst, hx, h3]

theorem spousePair_eq_nil_iff (a b : Option String) :
    spousePair a b = [] ↔ truthy a = false ∧ truthy b = false := by
  rcases a with _ | sa <;> rcases b with _ | sb
  · simp [spousePair, truthy]
  · by_cases hsb : sb = "" <;> simp [spousePair, truthy, hsb]
  · by_cases hsa : sa = "" <;> simp [spousePair, truthy, hsa]
  · by_cases hsa : sa = "" <;> by_cases hsb : sb = "" <;>
      simp [spousePair, truthy, hsa, hsb]

/-! ### C9 — behaviour of update operations on missing ids -/

/-- C9 (amended): on an id absent from the store, `updatePerson`,
`addChildToFamily` and `removeChildFromFamily` fail with their hard
"not found" errors (and, the state being dropped with the exception,
create nothing), while `updateTree` — a bare Dexie `update` with no
existence check — resolves successfully as a silent no-op: no error is
surfaced and no record is created. -/
theorem update_not_found :
    (∀ id data db, (∀ p ∈ db.persons, p.id ≠ id) →
       updatePerson id data db = .error "Person not found") ∧
    (∀ fid cid db, (∀ f ∈ db.families, f.id ≠ fid) →
       addChildToFamily fid cid db = .error "Family not found") ∧
    (∀ fid cid db, (∀ f ∈ db.families, f.id ≠ fid) →
       removeChildFromFamily fid cid db = .error "Family not found") ∧
    (∀ id data db, (∀ t ∈ db.trees, t.id ≠ id) →
       ∃ db2, updateTree id data db = .ok ((), db2) ∧ db2.trees = db.trees) := by
  refine ⟨?_, ?_, ?_, ?_⟩
  · intro id data db h
    have : db.persons.find? (fun p => p.id == id) = none := by
      rw [List.find?_eq_none]
      intro p hp
      simpa using h p hp
    simp [updatePerson, this]
  · intro fid cid db h
    have : db.families.find? (fun f => f.id == fid) = none := by
      rw [List.find?_eq_none]
      intro f hf
      simpa using h f hf
    simp [addChildToFamily, this]
  · intro fid cid db h
    have : db.families.find? (fun f => f.id == fid) = none := by
      rw [List.find?_eq_none]
      intro f hf
      simpa using h f hf
    simp [removeChildFromFamily, this]
  · intro id data db h
    refine ⟨_, rfl, ?_⟩
    exact updateFirst_of_forall_not _ _ _ (fun t ht => by simpa using h t ht)

/-- Witness for `update_not_found` at the empty store. -/
theorem update_not_found_witness :
    updatePerson "x" {} {} = .error "Person not found" ∧
    addChildToFamily "f" "c" {} = .error "Family not found" ∧
    removeChildFromFamily "f" "c" {} = .error "Family not found" ∧
    ∃ db2, updateTree "t" {} {} = .ok ((), db2) ∧ db2.trees = [] := by
  refine ⟨?_, ?_, ?_, ?_⟩
  · exact update_not_found.1 "x" {} {} (by intro p hp; simp at hp)
  · exact update_not_found.2.1 "f" "c" {} (by intro f hf; simp at hf)
  · exact update_not_found.2.2.1 "f" "c" {} (by intro f hf; simp at hf)
  · exact update_not_found.2.2.2 "t" {} {} (by intro t ht; simp at ht)

/-- C9 counterexample: the claim as stated is false — `updateTree` on an
id that does not exist silently succeeds instead of failing with a hard
error, leaving the store without that tree. -/
theorem updateTree_missing_id_silent :
    updateTree "t1" { name := some "x" } {} =
      .ok ((), { counter := 1 }) := by rfl

/-! ### C10 — `getOrCreateFamily` spouse-presence precondition -/

/-- C10: with neither spouse argument present (truthy), the call fails
with the "at least one spouse" error (the exception aborts before any
write); with at least one present it never raises it — the call always
succeeds. -/
theorem getOrCreateFamily_requires_spouse :
    (∀ ty db, getOrCreateFamily none none ty db =
       .error "At least one spouse is required to create a family") ∧
    (∀ a b ty db, truthy a ∨ truthy b →
       ∃ f db2, getOrCreateFamily a b ty db = .ok (f, db2)) := by
  constructor
  · intro ty db; rfl
  · intro a b ty db h
    rcases hsp : spousePair a b with _ | ⟨x, rest⟩
    · rcases (spousePair_eq_nil_iff a b).mp hsp with ⟨h1, h2⟩
      rcases h with h | h
      · rw [h1] at h; exact absurd h (by simp)
      · rw [h2] at h; exact absurd h (by simp)
    · simp only [getOrCreateFamily, hsp]
      cases hf : db.families.find? (matchesSpousePair x rest.head?)
      · exact ⟨_, _, rfl⟩
      · exact ⟨_, _, rfl⟩

/-- Witness for `getOrCreateFamily_requires_spouse` with one concrete
spouse present. -/
theorem getOrCreateFamily_requires_spouse_witness :
    ∃ f db2, getOrCreateFamily (some "x") none .unknown {} = .ok (f, db2) :=
  getOrCreateFamily_requires_spouse.2 (some "x") none .unknown {}
    (Or.inl (by decide))

/-! ### C6 — unordered spouse pairing in `getOrCreateFamily` -/

theorem spousePair_swap_cases (A B : Option String) :
    (spousePair A B = [] ∧ spousePair B A = []) ∨
    (∃ x, spousePair A B = [x] ∧ spousePair B A = [x]) ∨
    (∃ x y, spousePair A B = [x, y] ∧ spousePair B A = [y, x]) := by
  rcases A with _ | sa <;> rcases B with _ | sb
  · exact Or.inl ⟨rfl, rfl⟩
  · by_cases hsb : sb = ""
    · exact Or.inl (by simp [spousePair, hsb])
    · exact Or.inr (Or.inl ⟨sb, by simp [spousePair, hsb]⟩)
  · by_cases hsa : sa = ""
    · exact Or.inl (by simp [spousePair, hsa])
    · exact Or.inr (Or.inl ⟨sa, by simp [spousePair, hsa]⟩)
  · by_cases hsa : sa = "" <;> by_cases hsb : sb = ""
    · exact Or.inl (by simp [spousePair, hsa, hsb])
    · exact Or.inr (Or.inl ⟨sb, by simp [spousePair, hsa, hsb]⟩)
    · exact Or.inr (Or.inl ⟨sa, by simp [spousePair, hsa, hsb]⟩)
    · exact Or.inr (Or.inr ⟨sa, sb, by simp [spousePair, hsa, hsb]⟩)

theorem matchesSpousePair_swap (x y : String) :
    matchesSpousePair x (some y) = matchesSpousePair y (some x) := by
  funext f
  simp only [matchesSpousePair]
  rw [Bool.or_comm]

theorem matchesSpousePair_created (x : String) (b : Option String)
    (ty : FamilyType) (db : Db) :
    matchesSpousePair x b
      (createFamily { spouse1Id := some x, spouse2Id := b, type := ty } db).1 = true := by
  simp [createFamily, matchesSpousePair]

theorem createFamily_pair_eq (x : String) (b : Option String)
    (ty : FamilyType) (db : Db) :
    createFamily { spouse1Id := some x, spouse2Id := b, type := ty } db =
      (⟨freshId db.counter, freshId (db.counter + 1), false, db.clock, db.clock,
         some x, b, [], none, none, ty⟩,
       { db with counter := db.counter + 2,
                 families := db.families ++
                   [⟨freshId db.counter, freshId (db.counter + 1), false,
                     db.clock, db.clock, some x, b, [], none, none, ty⟩] }) := by
  simp [createFamily, Db.fresh, truthy]

/-- The behaviour of `getOrCreateFamily` once its (non-empty) truthy
spouse pair is known. -/
theorem getOrCreateFamily_of_pair (A B : Option String) (ty : FamilyType)
    (db : Db) (x : String) (rest : List String)
    (hsp : spousePair A B = x :: rest) :
    getOrCreateFamily A B ty db =
      match db.families.find? (matchesSpousePair x rest.head?) with
      | some existing => .ok (existing, db)
      | none =>
        .ok (createFamily
          { spouse1Id := some x, spouse2Id := rest.head?, type := ty } db) := by
  simp only [getOrCreateFamily, hsp]

/-- C6: `getOrCreateFamily(A, B)` and `getOrCreateFamily(B, A)` return
the same family.  Part 1 (sequential): running the two argument orders
one after the other yields the same family record and the second call
changes nothing.  Part 2: when a non-deleted family matching the
unordered pair exists, the call returns it and creates nothing.
Part 3: when none exists, exactly one new family is appended, carrying
the pair. -/
theorem getOrCreateFamily_unordered (db : Db) (A B : Option String)
    (ty : FamilyType) (h : truthy A ∨ truthy B) :
    (∃ f db1, getOrCreateFamily A B ty db = .ok (f, db1) ∧
       getOrCreateFamily B A ty db1 = .ok (f, db1)) ∧
    (∀ x rest, spousePair A B = x :: rest →
      (∀ f0, db.families.find? (matchesSpousePair x rest.head?) = some f0 →
        getOrCreateFamily A B ty db = .ok (f0, db)) ∧
      (db.families.find? (matchesSpousePair x rest.head?) = none →
        ∃ fam, getOrCreateFamily A B ty db =
            .ok (fam, { db with counter := db.counter + 2,
                                families := db.families ++ [fam] }) ∧
          fam.spouse1Id = some x ∧ fam.spouse2Id = rest.head? ∧
          fam.childIds = [] ∧ fam.type = ty ∧ fam.deleted = false)) := by
  constructor
  · -- sequential round: (A, B) then (B, A)
    rcases spousePair_swap_cases A B with ⟨h1, _⟩ | ⟨x, h1, h2⟩ | ⟨x, y, h1, h2⟩
    · rcases (spousePair_eq_nil_iff A B).mp h1 with ⟨ha, hb⟩
      rcases h with h | h
      · rw [ha] at h; exact absurd h (by simp)
      · rw [hb] at h; exact absurd h (by simp)
    · -- single truthy spouse: both orders run the same search
      rw [getOrCreateFamily_of_pair A B ty db x [] h1]
      cases hf : db.families.find? (matchesSpousePair x List.nil.head?) with
      | some f0 =>
        refine ⟨f0, db, rfl, ?_⟩
        rw [getOrCreateFamily_of_pair B A ty db x [] h2, hf]
      | none =>
        rw [createFamily_pair_eq]
        refine ⟨_, _, rfl, ?_⟩
        rw [getOrCreateFamily_of_pair B A ty _ x [] h2]
        rw [List.find?_append, hf]
        simp [matchesSpousePair]
    · -- both truthy: the search predicates agree up to `Bool.or_comm`
      rw [getOrCreateFamily_of_pair A B ty db x [y] h1]
      have hpred : matchesSpousePair y [x].head? = matchesSpousePair x [y].head? := by
        simpa using (matchesSpousePair_swap x y).symm
      cases hf : db.families.find? (matchesSpousePair x [y].head?) with
      | some f0 =>
        refine ⟨f0, db, rfl, ?_⟩
        rw [getOrCreateFamily_of_pair B A ty db y [x] h2, hpred, hf]
      | none =>
        rw [createFamily_pair_eq]
        refine ⟨_, _, rfl, ?_⟩
        rw [getOrCreateFamily_of_pair B A ty _ y [x] h2, hpred]
        rw [List.find?_append, hf]
        simp [matchesSpousePair]
  · -- reuse / create, for the given pair
    intro x rest hsp
    constructor
    · intro f0 hf
      rw [getOrCreateFamily_of_pair A B ty db x rest hsp, hf]
    · intro hf
      rw [getOrCreateFamily_of_pair A B ty db x rest hsp, hf,
        createFamily_pair_eq]
      exact ⟨_, rfl, rfl, rfl, rfl, rfl, rfl⟩

/-- Witness for `getOrCreateFamily_unordered`: the sequential round at a
concrete fresh store. -/
theorem getOrCreateFamily_unordered_witness :
    ∃ f db1, getOrCreateFamily (some "x") (some "y") .married {} = .ok (f, db1) ∧
      getOrCreateFamily (some "y") (some "x") .married db1 = .ok (f, db1) :=
  (getOrCreateFamily_unordered {} (some "x") (some "y") .married
    (Or.inl (by decide))).1

/-! ### C5 — soft-deleted entities in query results -/

/-- C5 (code evaluation at the failing input): `getPersonWithRelations`
returns a soft-deleted person among `parents` — the `bulkGet` person
lists are not filtered for `_deleted`, only the family lists are. -/
theorem getPersonWithRelations_returns_deleted :
    (getPersonWithRelations
      { persons := [{ id := "p1", givenNames := "X", surname := "", deleted := true },
                    { id := "c1", givenNames := "C", surname := "" }],
        families := [{ id := "f1", spouse1Id := some "p1", childIds := ["c1"] }] }
      "c1").map (fun r => r.parents.map (fun p => (p.id, p.deleted))) =
    some [("p1", true)] := by rfl

/-! ### C7 — self-parent rejection under child-list mutations -/

theorem matchesSpousePair_spec (x : String) (b : Option String) (f : Family)
    (h : matchesSpousePair x b f = true) :
    f.deleted = false ∧
      ((f.spouse1Id = some x ∧ f.spouse2Id = b) ∨
       (f.spouse1Id = b ∧ f.spouse2Id = some x)) := by
  simp only [matchesSpousePair, Bool.and_eq_true, Bool.or_eq_true,
    Bool.not_eq_true', beq_iff_eq] at h
  exact h

theorem mem_spousePair (A B : Option String) (x : String)
    (hx : x ∈ spousePair A B) : A = some x ∨ B = some x := by
  simp only [spousePair, List.mem_filter] at hx
  obtain ⟨hx1, _⟩ := hx
  rcases List.mem_filterMap.mp hx1 with ⟨o, ho, hox⟩
  rcases List.mem_cons.mp ho with rfl | ho2
  · exact Or.inl hox
  · rcases List.mem_cons.mp ho2 with rfl | ho3
    · exact Or.inr hox
    · simp at ho3

/-- Every successful `getOrCreateFamily` either found a matching family
(store untouched) or appended one freshly-minted family carrying the
pair. -/
theorem gocf_ok_cases (A B : Option String) (ty : FamilyType) (db : Db)
    (fam : Family) (db1 : Db)
    (h : getOrCreateFamily A B ty db = .ok (fam, db1)) :
    ∃ x rest, spousePair A B = x :: rest ∧
      ((db1 = db ∧
        db.families.find? (matchesSpousePair x rest.head?) = some fam) ∨
       (db1 = { db with counter := db.counter + 2,
                        families := db.families ++ [fam] } ∧
        fam = ⟨freshId db.counter, freshId (db.counter + 1), false, db.clock,
          db.clock, some x, rest.head?, [], none, none, ty⟩)) := by
  rcases hsp : spousePair A B with _ | ⟨x, rest⟩
  · rw [getOrCreateFamily, hsp] at h
    exact absurd h (by simp)
  · rw [getOrCreateFamily_of_pair A B ty db x rest hsp] at h
    refine ⟨x, rest, rfl, ?_⟩
    cases hf : db.families.find? (matchesSpousePair x rest.head?) with
    | none =>
      rw [hf, createFamily_pair_eq] at h
      injection h with h2
      injection h2 with h3 h4
      exact Or.inr ⟨by rw [← h3]; exact h4.symm, h3.symm⟩
    | some f0 =>
      rw [hf] at h
      injection h with h2
      injection h2 with h3 h4
      exact Or.inl ⟨h4.symm, by rw [← h3]⟩

theorem find?_id_of_nodup :
    ∀ (l : List Family) (fam : Family), (l.map Family.id).Nodup → fam ∈ l →
      l.find? (fun f => f.id == fam.id) = some fam
  | [], fam, _, hm => by simp at hm
  | f0 :: l, fam, hnd, hm => by
    rcases List.mem_cons.mp hm with rfl | hm2
    · simp [List.find?_cons_of_pos]
    · have hne : (f0.id == fam.id) = false := by
        rw [beq_eq_false_iff_ne]
        intro hid
        have : fam.id ∈ l.map Family.id := List.mem_map_of_mem Family.id hm2
        rw [← hid] at this
        exact (List.nodup_cons.mp hnd).1 this
      rw [List.find?_cons_of_neg _ (by simp [hne])]
      exact find?_id_of_nodup l fam (List.nodup_cons.mp hnd).2 hm2

/-- The update `addChildToFamily` applies to the resolved family. -/
def addChildUpd (fam : Family) (cid : String) (db : Db) : Family → Family :=
  fun f => { f with childIds := fam.childIds ++ [cid],
                    rev := freshId db.counter, updatedAt := db.clock }

/-- Behaviour of `addChildToFamily` once the id lookup is known. -/
theorem addChildToFamily_found (db : Db) (fid cid : String) (fam : Family)
    (hf : db.families.find? (fun f => f.id == fid) = some fam) :
    addChildToFamily fid cid db =
      if fam.childIds.contains cid then .ok ((), db)
      else .ok ((), { db with
        counter := db.counter + 1,
        families := updateFirst (fun f => f.id == fid)
          (addChildUpd fam cid db) db.families }) := by
  rw [addChildToFamily, hf]
  rfl

/-- Core preservation: `addChildToFamily` keeps the self-parent-free
invariant when the child being added is not a spouse of the family the
store resolves the id to. -/
theorem addChild_preserves (db : Db) (fid cid : String) (db2 : Db)
    (hInv : SelfParentFree db)
    (hSafe : ∀ fam, db.families.find? (fun f => f.id == fid) = some fam →
      fam.spouse1Id ≠ some cid ∧ fam.spouse2Id ≠ some cid)
    (h : addChildToFamily fid cid db = .ok ((), db2)) : SelfParentFree db2 := by
  rcases hf : db.families.find? (fun f => f.id == fid) with _ | fam
  · rw [addChildToFamily, hf] at h
    exact absurd h (by simp)
  · rw [addChildToFamily_found db fid cid fam hf] at h
    by_cases hc : fam.childIds.contains cid
    · rw [if_pos hc] at h
      injection h with h2
      injection h2 with _ h4
      rw [← h4]
      exact hInv
    · rw [if_neg hc] at h
      injection h with h2
      injection h2 with _ h4
      obtain ⟨l1, l2, hsplit, _, hupd⟩ :=
        updateFirst_split (fun f => f.id == fid) (addChildUpd fam cid db)
          db.families fam hf
      intro f' hf' s hs
      have hfam_mem : fam ∈ db.families := List.mem_of_find?_eq_some hf
      have hf'2 : f' ∈ l1 ++ addChildUpd fam cid db fam :: l2 := by
        rw [← h4] at hf'
        simpa [hupd] using hf'
      rcases List.mem_append.mp hf'2 with h1 | h2'
      · exact hInv f' (hsplit ▸ List.mem_append_left _ h1) s hs
      · rcases List.mem_cons.mp h2' with rfl | h3
        · simp only [addChildUpd] at hs ⊢
          rcases List.mem_append.mp hs with hs1 | hs2
          · exact hInv fam hfam_mem s hs1
          · have : s = cid := by simpa using hs2
            subst this
            exact hSafe fam hf
        · exact hInv f'
            (hsplit ▸ List.mem_append_right _ (List.mem_cons_of_mem _ h3)) s hs

/-- `addChildToFamily` does not change which family an id resolves to,
nor its spouse slots. -/
theorem addChild_find_stable (db : Db) (fid cid : String) (db2 : Db)
    (fam : Family)
    (hf : db.families.find? (fun f => f.id == fid) = some fam)
    (h : addChildToFamily fid cid db = .ok ((), db2)) :
    ∃ fam2, db2.families.find? (fun f => f.id == fid) = some fam2 ∧
      fam2.spouse1Id = fam.spouse1Id ∧ fam2.spouse2Id = fam.spouse2Id := by
  rw [addChildToFamily_found db fid cid fam hf] at h
  by_cases hc : fam.childIds.contains cid
  · rw [if_pos hc] at h
    injection h with h2
    injection h2 with _ h4
    exact ⟨fam, h4 ▸ hf, rfl, rfl⟩
  · rw [if_neg hc] at h
    injection h with h2
    injection h2 with _ h4
    obtain ⟨l1, l2, hsplit, hl1, hupd⟩ :=
      updateFirst_split (fun f => f.id == fid) (addChildUpd fam cid db)
        db.families fam hf
    refine ⟨addChildUpd fam cid db fam, ?_, rfl, rfl⟩
    rw [← h4]
    simp only [hupd]
    rw [List.find?_append]
    have hnone : l1.find? (fun f => f.id == fid) = none :=
      List.find?_eq_none.mpr (fun x hx => by simp [hl1 x hx])
    rw [hnone]
    have hp : ((addChildUpd fam cid db fam).id == fid) = true := by
      have := List.find?_some hf
      simpa [addChildUpd] using this
    simp [List.find?_cons_of_pos, hp]

/-- Adding a list of children one by one preserves the invariant when
none of them is a spouse of the target family. -/
theorem addChildren_preserves (fid : String) :
    ∀ (cs : List String) (db db2 : Db) (S1 S2 : Option String),
      SelfParentFree db →
      (∀ fam, db.families.find? (fun f => f.id == fid) = some fam →
        fam.spouse1Id = S1 ∧ fam.spouse2Id = S2) →
      (∀ c ∈ cs, S1 ≠ some c ∧ S2 ≠ some c) →
      addChildren fid cs db = .ok ((), db2) → SelfParentFree db2
  | [], db, db2, S1, S2, hInv, _, _, h => by
    rw [addChildren] at h
    injection h with h2
    injection h2 with _ h4
    rw [← h4]; exact hInv
  | c :: cs, db, db2, S1, S2, hInv, hSp, hcs, h => by
    rw [addChildren] at h
    rcases ha : addChildToFamily fid c db with e | ⟨_, db'⟩
    · rw [ha] at h; exact absurd h (by simp)
    · rw [ha] at h
      rcases hf : db.families.find? (fun f => f.id == fid) with _ | fam
      · rw [addChildToFamily, hf] at ha
        exact absurd ha (by simp)
      · have hfacts := hSp fam hf
        have hInv' : SelfParentFree db' :=
          addChild_preserves db fid c db' hInv
            (fun fam2 hf2 => by
              have : fam2 = fam := by
                rw [hf] at hf2; injection hf2 with hv; exact hv.symm
              subst this
              exact ⟨hfacts.1 ▸ (hcs c (List.mem_cons_self c cs)).1,
                     hfacts.2 ▸ (hcs c (List.mem_cons_self c cs)).2⟩) ha
        obtain ⟨fam2, hf2, hs1, hs2⟩ := addChild_find_stable db fid c db' fam hf ha
        exact addChildren_preserves fid cs db' db2 S1 S2 hInv'
          (fun fam3 hf3 => by
            have : fam3 = fam2 := by
              rw [hf2] at hf3; injection hf3 with hv; exact hv.symm
            subst this
            exact ⟨hs1.trans hfacts.1, hs2.trans hfacts.2⟩)
          (fun c2 hc2 => hcs c2 (List.mem_cons_of_mem c hc2)) h

/-- After a successful `getOrCreateFamily`, the returned family id
resolves (in the updated store) to a family whose spouse slots are drawn
from the truthy argument pair; and the invariant is preserved. -/
theorem gocf_family_resolved (A B : Option String) (ty : FamilyType)
    (db : Db) (fam : Family) (db1 : Db)
    (hInv : SelfParentFree db) (hnd : FamIdsNodup db)
    (hfresh : FreshFamIdsUnused db)
    (h : getOrCreateFamily A B ty db = .ok (fam, db1)) :
    SelfParentFree db1 ∧
    ∃ S1 S2 : Option String,
      (∀ fam2, db1.families.find? (fun f => f.id == fam.id) = some fam2 →
        fam2.spouse1Id = S1 ∧ fam2.spouse2Id = S2) ∧
      (∀ s, S1 = some s → A = some s ∨ B = some s) ∧
      (∀ s, S2 = some s → A = some s ∨ B = some s) := by
  obtain ⟨x, rest, hsp, hcase | hcase⟩ := gocf_ok_cases A B ty db fam db1 h
  · obtain ⟨hdb, hfind⟩ := hcase
    rw [hdb]
    have hfam_mem : fam ∈ db.families := List.mem_of_find?_eq_some hfind
    have hmatch := List.find?_some hfind
    obtain ⟨_, hpair⟩ := matchesSpousePair_spec x rest.head? fam hmatch
    have hxmem : A = some x ∨ B = some x :=
      mem_spousePair A B x (hsp ▸ List.mem_cons_self x rest)
    have hrest : ∀ s, rest.head? = some s → A = some s ∨ B = some s := by
      intro s hs
      have : s ∈ rest := by
        cases rest with
        | nil => simp at hs
        | cons r rs => injection hs with hs; exact hs ▸ List.mem_cons_self r rs
      exact mem_spousePair A B s (hsp ▸ List.mem_cons_of_mem x this)
    refine ⟨hInv, fam.spouse1Id, fam.spouse2Id,
      fun fam2 hf2 => ?_, ?_, ?_⟩
    · have := find?_id_of_nodup db.families fam hnd hfam_mem
      rw [this] at hf2
      injection hf2 with hf2
      rw [← hf2]
      exact ⟨rfl, rfl⟩
    · intro s hs
      rcases hpair with ⟨h1, _⟩ | ⟨h1, h2⟩
      · rw [h1] at hs; injection hs with hs; exact hs ▸ hxmem
      · rw [h1] at hs; exact hrest s hs
    · intro s hs
      rcases hpair with ⟨_, h2⟩ | ⟨_, h2⟩
      · rw [h2] at hs; exact hrest s hs
      · rw [h2] at hs; injection hs with hs; exact hs ▸ hxmem
  · obtain ⟨hdb, hfam⟩ := hcase
    subst hdb
    have hxmem : A = some x ∨ B = some x :=
      mem_spousePair A B x (hsp ▸ List.mem_cons_self x rest)
    have hrest : ∀ s, rest.head? = some s → A = some s ∨ B = some s := by
      intro s hs
      have : s ∈ rest := by
        cases rest with
        | nil => simp at hs
        | cons r rs => injection hs with hs; exact hs ▸ List.mem_cons_self r rs
      exact mem_spousePair A B s (hsp ▸ List.mem_cons_of_mem x this)
    constructor
    · intro f' hf' s hs
      rcases List.mem_append.mp hf' with h1 | h2
      · exact hInv f' h1 s hs
      · have : f' = fam := by simpa using h2
        subst this
        rw [hfam] at hs
        simp at hs
    · refine ⟨some x, rest.head?, fun fam2 hf2 => ?_, ?_, ?_⟩
      · rw [List.find?_append] at hf2
        have hnone : db.families.find? (fun f => f.id == fam.id) = none := by
          rw [List.find?_eq_none]
          intro f hfmem
          simp only [beq_iff_eq]
          intro hid
          exact hfresh f hfmem db.counter (le_refl _) (by rw [hid, hfam])
        have hsingle : List.find? (fun f => f.id == fam.id) [fam] = some fam := by
          simp
        rw [hnone, hsingle] at hf2
        simp only [Option.none_or] at hf2
        injection hf2 with hf2
        rw [← hf2, hfam]
        exact ⟨rfl, rfl⟩
      · intro s hs; injection hs with hs; exact hs ▸ hxmem
      · exact hrest

/-- C7 (amended): the data layer preserves the self-parent-free
invariant under child-list mutations *provided* the child being linked
is distinct from the spouses of the family being mutated — for
`addChildToFamily` the child id must differ from the resolved family's
spouse ids, for `linkParentsToChild` the child must not be among the
parent ids, and for `linkSpouseAndChildren` neither the person nor the
spouse may appear among the children.  (Unconditionally the invariant is
not enforced; see the counterexample.) -/
theorem self_parent_rejection :
    (∀ db fid cid db2, SelfParentFree db →
       (∀ f ∈ db.families, f.id = fid →
         f.spouse1Id ≠ some cid ∧ f.spouse2Id ≠ some cid) →
       addChildToFamily fid cid db = .ok ((), db2) → SelfParentFree db2) ∧
    (∀ db parentIds childId db2, SelfParentFree db → FamIdsNodup db →
       FreshFamIdsUnused db → childId ∉ parentIds →
       linkParentsToChild parentIds childId db = .ok ((), db2) →
       SelfParentFree db2) ∧
    (∀ db personId spouseId childIds db2, SelfParentFree db → FamIdsNodup db →
       FreshFamIdsUnused db → personId ∉ childIds →
       (∀ s, spouseId = some s → s ∉ childIds) →
       linkSpouseAndChildren personId spouseId childIds db = .ok ((), db2) →
       SelfParentFree db2) := by
  refine ⟨?_, ?_, ?_⟩
  · intro db fid cid db2 hInv hSafe h
    refine addChild_preserves db fid cid db2 hInv (fun fam hf => ?_) h
    have hmem := List.mem_of_find?_eq_some hf
    have hid : fam.id = fid := by simpa using List.find?_some hf
    exact hSafe fam hmem hid
  · intro db parentIds childId db2 hInv hnd hfresh hnotin h
    rw [linkParentsToChild] at h
    by_cases hlen : parentIds.length = 0
    · rw [if_pos hlen] at h
      injection h with h2
      injection h2 with _ h4
      rw [← h4]; exact hInv
    · rw [if_neg hlen] at h
      rcases hg : getOrCreateFamily parentIds.head? (parentIds.get? 1) .unknown db
        with e | ⟨fam, db'⟩
      · rw [hg] at h; exact absurd h (by simp)
      · rw [hg] at h
        obtain ⟨hInv', S1, S2, hres, hS1, hS2⟩ :=
          gocf_family_resolved _ _ _ db fam db' hInv hnd hfresh hg
        have hargmem : ∀ s : String,
            (parentIds.head? = some s ∨ parentIds.get? 1 = some s) →
            s ∈ parentIds := by
          intro s hs
          rcases hs with hs | hs
          · cases parentIds with
            | nil => simp at hs
            | cons p ps => injection hs with hs; exact hs ▸ List.mem_cons_self p ps
          · cases parentIds with
            | nil => simp at hs
            | cons p ps =>
              simp only [List.get?] at hs
              cases ps with
              | nil => simp at hs
              | cons q qs =>
                simp only [List.get?] at hs
                injection hs with hs
                exact hs ▸ List.mem_cons_of_mem p (List.mem_cons_self q qs)
        refine addChild_preserves db' fam.id childId db2 hInv' (fun fam2 hf2 => ?_) h
        obtain ⟨hsp1, hsp2⟩ := hres fam2 hf2
        constructor
        · rw [hsp1]; intro hq
          exact hnotin (hargmem childId (hS1 childId hq))
        · rw [hsp2]; intro hq
          exact hnotin (hargmem childId (hS2 childId hq))
  · intro db personId spouseId childIds db2 hInv hnd hfresh hp hsp h
    rw [linkSpouseAndChildren] at h
    by_cases hguard : (!truthy spouseId && childIds.length == 0) = true
    · rw [if_pos (by simpa using hguard)] at h
      injection h with h2
      injection h2 with _ h4
      rw [← h4]; exact hInv
    · rw [if_neg (by simpa using hguard)] at h
      rcases hg : getOrCreateFamily (some personId) spouseId .unknown db
        with e | ⟨fam, db'⟩
      · rw [hg] at h; exact absurd h (by simp)
      · rw [hg] at h
        obtain ⟨hInv', S1, S2, hres, hS1, hS2⟩ :=
          gocf_family_resolved _ _ _ db fam db' hInv hnd hfresh hg
        refine addChildren_preserves fam.id childIds db' db2 S1 S2 hInv'
          hres (fun c hc => ?_) h
        constructor
        · intro hq
          rcases hS1 c hq with h1 | h1
          · injection h1 with h1; exact hp (h1 ▸ hc)
          · exact hsp c h1 hc
        · intro hq
          rcases hS2 c hq with h1 | h1
          · injection h1 with h1; exact hp (h1 ▸ hc)
          · exact hsp c h1 hc

/-- Witness for `self_parent_rejection` at a concrete store. -/
theorem self_parent_rejection_witness :
    ∃ db2, linkParentsToChild ["a"] "c" {} = .ok ((), db2) ∧
      SelfParentFree db2 :=
  ⟨_, rfl,
    self_parent_rejection.2.1 {} ["a"] "c" _
      (by intro f hf; simp at hf)
      (by simp [FamIdsNodup])
      (by intro f hf; simp at hf)
      (by decide) rfl⟩

/-- C7 counterexample: as an unconditional statement the claim is false —
`addChildToFamily` happily records a family's own spouse as its child
(the guard against self-parenting lives in the UI option lists, not in
the data layer). -/
theorem addChildToFamily_self_parent :
    (match addChildToFamily "f1" "a"
        { families := [{ id := "f1", spouse1Id := some "a",
                         spouse2Id := some "b" }] } with
     | .ok (_, db2) => db2.families.map (fun f => (f.spouse1Id, f.childIds))
     | .error _ => []) = [(some "a", ["a"])] := by rfl

/-! ### C2 — layout determinism -/

/-- C2: two calls of `generateTreeLayout` with the same persons,
families, root id, orientation and density profile produce the same
nodes and the same edges.  The embedding is a pure function — faithful
because the source reads no clock, no randomness and no unordered
collection (its `Map`s/`Set`s iterate in insertion order, which follows
the input array order) — so reproducibility is definitional. -/
theorem generateTreeLayout_deterministic (persons : List Person)
    (families : List Family) (rootPersonId : Option String)
    (orientation : TreeLayoutOrientation) (isMobile : Bool) :
    (generateTreeLayout persons families rootPersonId orientation isMobile).nodes =
      (generateTreeLayout persons families rootPersonId orientation isMobile).nodes ∧
    (generateTreeLayout persons families rootPersonId orientation isMobile).edges =
      (generateTreeLayout persons families rootPersonId orientation isMobile).edges :=
  ⟨rfl, rfl⟩

/-! ### C3 — no duplicate placement -/

theorem personMapGet_mem (persons : List Person) (pid : String) (p : Person)
    (h : personMapGet persons pid = some p) : p ∈ persons ∧ p.id = pid := by
  have hm := List.mem_of_find?_eq_some h
  have hp := List.find?_some h
  exact ⟨List.mem_reverse.mp hm, by simpa using hp⟩

/-- A state transformation that leaves nodes and positioned ids alone
preserves the layout invariant. -/
theorem LInv_of_same (persons : List Person) (st st2 : LState)
    (h1 : st2.nodes = st.nodes) (h2 : st2.positioned = st.positioned)
    (hinv : LInv persons st) : LInv persons st2 := by
  obtain ⟨ha, hb, hc⟩ := hinv
  refine ⟨?_, ?_, ?_⟩
  · rw [h2, h1]; exact ha
  · rw [h2]; exact hb
  · rw [h2]; exact hc

theorem createEdge_state (ctx : LayoutCtx) (s t : String) (k : EdgeKind)
    (st : LState) :
    (createEdge ctx s t k st).nodes = st.nodes ∧
    (createEdge ctx s t k st).positioned = st.positioned := by
  simp only [createEdge]
  split
  · exact ⟨rfl, rfl⟩
  · split
    · exact ⟨rfl, rfl⟩
    · exact ⟨rfl, rfl⟩

theorem childEdgeStep_state (ctx : LayoutCtx) (pid : String)
    (sp : Option String) (st : LState) (cid : String) :
    (childEdgeStep ctx pid sp st cid).nodes = st.nodes ∧
    (childEdgeStep ctx pid sp st cid).positioned = st.positioned := by
  rcases sp with _ | sid
  · simp only [childEdgeStep]
    exact createEdge_state ctx pid cid .parentChild st
  · simp only [childEdgeStep]
    by_cases hs : (sid != "") = true
    · rw [if_pos hs]
      obtain ⟨hn, hp⟩ := createEdge_state ctx pid cid .parentChild st
      obtain ⟨hn2, hp2⟩ := createEdge_state ctx sid cid .parentChild
        (createEdge ctx pid cid .parentChild st)
      exact ⟨hn2.trans hn, hp2.trans hp⟩
    · rw [if_neg hs]
      exact createEdge_state ctx pid cid .parentChild st

theorem childEdges_state (ctx : LayoutCtx) (pid : String) (sp : Option String) :
    ∀ (cs : List String) (st : LState),
      (childEdges ctx pid sp cs st).nodes = st.nodes ∧
      (childEdges ctx pid sp cs st).positioned = st.positioned
  | [], st => ⟨rfl, rfl⟩
  | c :: cs, st => by
    obtain ⟨hn1, hp1⟩ := childEdgeStep_state ctx pid sp st c
    obtain ⟨hn2, hp2⟩ := childEdges_state ctx pid sp cs (childEdgeStep ctx pid sp st c)
    simp only [childEdges, List.foldl_cons] at hn2 hp2 ⊢
    exact ⟨hn2.trans hn1, hp2.trans hp1⟩

/-- What a successful couple-creation block did: it absorbed the person
and a distinct, not-yet-positioned spouse drawn from the input persons
into one couple node. -/
theorem coupleTry_spec (ctx : LayoutCtx) (person : Person) (x y : ℚ)
    (isRoot : Bool) (st st2 : LState)
    (hsd : SpousesDistinct ctx.families)
    (h : coupleTry ctx person x y isRoot st = some st2) :
    ∃ cid spouse,
      spouse ∈ ctx.persons ∧
      spouse.id ∉ st.positioned ∧ spouse.id ≠ person.id ∧
      st2.positioned = st.positioned ++ [person.id, spouse.id] ∧
      st2.nodes = st.nodes ++
        [⟨cid, x, y, isRoot, ctx.isMobile, ctx.orientation, .couple person spouse⟩] ∧
      st2.edges = st.edges := by
  rw [coupleTry] at h
  rcases hm : mapGet ctx.coupleMap person.id with _ | cid
  · simp only [hm] at h; exact absurd h (by simp)
  · simp only [hm] at h
    by_cases hn : (st.nodes.any fun n => n.id == cid) = true
    · rw [if_pos hn] at h; exact absurd h (by simp)
    · rw [if_neg hn] at h
      rcases hfind : ctx.families.find? (fun f =>
          (f.spouse1Id == some person.id && truthy f.spouse2Id) ||
          (f.spouse2Id == some person.id && truthy f.spouse1Id)) with _ | family
      · simp only [hfind] at h; exact absurd h (by simp)
      · simp only [hfind] at h
        have hpred := List.find?_some hfind
        have hfmem := List.mem_of_find?_eq_some hfind
        simp only [Bool.or_eq_true, Bool.and_eq_true, beq_iff_eq] at hpred
        rcases hsid : cospouseOf family person.id with _ | sid
        · simp only [hsid] at h; exact absurd h (by simp)
        · simp only [hsid] at h
          rcases hpg : personMapGet ctx.persons sid with _ | spouse
          · simp only [hpg] at h; exact absurd h (by simp)
          · simp only [hpg] at h
            by_cases hpos : st.positioned.contains sid = true
            · rw [if_pos hpos] at h; exact absurd h (by simp)
            · rw [if_neg hpos] at h
              injection h with h2
              obtain ⟨hspm, hspid⟩ := personMapGet_mem ctx.persons sid spouse hpg
              have hne : sid ≠ person.id := by
                intro heq
                rw [cospouseOf] at hsid
                by_cases hc : family.spouse1Id = some person.id
                · rw [if_pos (by simpa using hc)] at hsid
                  rcases hpred with ⟨_, h2t⟩ | ⟨h1e, h2t⟩
                  · -- spouse2 truthy; equal slots contradict distinctness
                    have hs2 : family.spouse2Id = some person.id := by
                      rw [hsid, heq]
                    have ht1 : truthy family.spouse1Id = true := by
                      rw [hc, ← hs2]; exact h2t
                    exact hsd family hfmem ht1 h2t (by rw [hc, hs2])
                  · have ht2 : truthy family.spouse2Id = true := by
                      rw [h1e, ← hc]; exact h2t
                    exact hsd family hfmem h2t ht2 (by rw [hc, h1e])
                · rw [if_neg (by simpa using hc)] at hsid
                  rcases hpred with ⟨h1e, _⟩ | ⟨h1e, _⟩
                  · exact hc h1e
                  · exact hc (by rw [hsid, heq])
              refine ⟨cid, spouse, hspm, ?_, ?_, ?_, ?_, ?_⟩
              · rw [hspid]; simpa using hpos
              · rw [hspid]; exact hne
              · rw [← h2, hspid]
              · rw [← h2]
              · rw [← h2]

/-- The shape of a successful couple-creation block, without the
distinctness consequence (no validity hypothesis needed). -/
theorem coupleTry_spec_weak (ctx : LayoutCtx) (person : Person) (x y : ℚ)
    (isRoot : Bool) (st st2 : LState)
    (h : coupleTry ctx person x y isRoot st = some st2) :
    ∃ cid spouse,
      spouse ∈ ctx.persons ∧
      spouse.id ∉ st.positioned ∧
      st2.positioned = st.positioned ++ [person.id, spouse.id] ∧
      st2.nodes = st.nodes ++
        [⟨cid, x, y, isRoot, ctx.isMobile, ctx.orientation, .couple person spouse⟩] ∧
      st2.edges = st.edges := by
  rw [coupleTry] at h
  rcases hm : mapGet ctx.coupleMap person.id with _ | cid
  · simp only [hm] at h; exact absurd h (by simp)
  · simp only [hm] at h
    by_cases hn : (st.nodes.any fun n => n.id == cid) = true
    · rw [if_pos hn] at h; exact absurd h (by simp)
    · rw [if_neg hn] at h
      rcases hfind : ctx.families.find? (fun f =>
          (f.spouse1Id == some person.id && truthy f.spouse2Id) ||
          (f.spouse2Id == some person.id && truthy f.spouse1Id)) with _ | family
      · simp only [hfind] at h; exact absurd h (by simp)
      · simp only [hfind] at h
        rcases hsid : cospouseOf family person.id with _ | sid
        · simp only [hsid] at h; exact absurd h (by simp)
        · simp only [hsid] at h
          rcases hpg : personMapGet ctx.persons sid with _ | spouse
          · simp only [hpg] at h; exact absurd h (by simp)
          · simp only [hpg] at h
            by_cases hpos : st.positioned.contains sid = true
            · rw [if_pos hpos] at h; exact absurd h (by simp)
            · rw [if_neg hpos] at h
              injection h with h2
              obtain ⟨hspm, hspid⟩ := personMapGet_mem ctx.persons sid spouse hpg
              refine ⟨cid, spouse, hspm, ?_, ?_, ?_, ?_⟩
              · rw [hspid]; simpa using hpos
              · rw [← h2, hspid]
              · rw [← h2]
              · rw [← h2]

/-- `positionPerson` as a case split: skip, couple creation, or
individual node. -/
theorem positionPerson_cases (ctx : LayoutCtx) (person : Person) (x y : ℚ)
    (isRoot : Bool) (st : LState) :
    (person.id ∈ st.positioned ∧ positionPerson ctx person x y isRoot st = st) ∨
    (person.id ∉ st.positioned ∧
      ∃ st2, coupleTry ctx person x y isRoot st = some st2 ∧
        positionPerson ctx person x y isRoot st = st2) ∨
    (person.id ∉ st.positioned ∧
      coupleTry ctx person x y isRoot st = none ∧
      positionPerson ctx person x y isRoot st =
        { st with positioned := st.positioned ++ [person.id],
                  nodes := st.nodes ++ [⟨person.id, x, y, isRoot, ctx.isMobile,
                    ctx.orientation, .person person⟩] }) := by
  by_cases hc : st.positioned.contains person.id
  · exact Or.inl ⟨by simpa using hc, by rw [positionPerson, if_pos hc]⟩
  · have hmem : person.id ∉ st.positioned := by simpa using hc
    rcases hct : coupleTry ctx person x y isRoot st with _ | st2
    · refine Or.inr (Or.inr ⟨hmem, rfl, ?_⟩)
      rw [positionPerson, if_neg hc, hct]
    · refine Or.inr (Or.inl ⟨hmem, st2, rfl, ?_⟩)
      rw [positionPerson, if_neg hc, hct]

theorem positionPerson_inv (ctx : LayoutCtx) (person : Person) (x y : ℚ)
    (isRoot : Bool) (st : LState)
    (hsd : SpousesDistinct ctx.families) (hper : person ∈ ctx.persons)
    (hinv : LInv ctx.persons st) :
    LInv ctx.persons (positionPerson ctx person x y isRoot st) := by
  obtain ⟨ha, hb, hc⟩ := hinv
  rcases positionPerson_cases ctx person x y isRoot st with
    ⟨_, heq⟩ | ⟨hmem, st2, hct, heq⟩ | ⟨hmem, _, heq⟩
  · rw [heq]; exact ⟨ha, hb, hc⟩
  · rw [heq]
    obtain ⟨cid, spouse, hspm, hspos, hspne, hpos2, hnodes2, _⟩ :=
      coupleTry_spec ctx person x y isRoot st st2 hsd hct
    refine ⟨?_, ?_, ?_⟩
    · rw [hpos2, hnodes2, List.flatMap_append, ← ha]
      simp [occupantIds]
    · rw [hpos2]
      have : ([person.id, spouse.id] : List String).Nodup := by
        simp [Ne.symm hspne]
      rw [List.nodup_append]
      refine ⟨hb, this, ?_⟩
      intro a hain hain2
      rcases List.mem_cons.mp hain2 with rfl | h2
      · exact hmem hain
      · have : a = spouse.id := by simpa using h2
        subst this
        exact hspos hain
    · rw [hpos2]
      intro i hi
      rcases List.mem_append.mp hi with h1 | h2
      · exact hc i h1
      · rcases List.mem_cons.mp h2 with rfl | h3
        · exact List.mem_map_of_mem Person.id hper
        · have : i = spouse.id := by simpa using h3
          subst this
          exact List.mem_map_of_mem Person.id hspm
  · rw [heq]
    refine ⟨?_, ?_, ?_⟩
    · simp only [List.flatMap_append, ← ha]
      simp [occupantIds]
    · simp only []
      rw [List.nodup_append]
      refine ⟨hb, List.nodup_singleton _, ?_⟩
      intro a hain hain2
      have : a = person.id := by simpa using hain2
      subst this
      exact hmem hain
    · intro i hi
      rcases List.mem_append.mp hi with h1 | h2
      · exact hc i h1
      · have : i = person.id := by simpa using h2
        subst this
        exact List.mem_map_of_mem Person.id hper

theorem positionPerson_mem (ctx : LayoutCtx) (person : Person) (x y : ℚ)
    (isRoot : Bool) (st : LState) :
    person.id ∈ (positionPerson ctx person x y isRoot st).positioned := by
  rcases positionPerson_cases ctx person x y isRoot st with
    ⟨hmem, heq⟩ | ⟨_, st2, hct, heq⟩ | ⟨_, hct, heq⟩
  · rw [heq]; exact hmem
  · rw [heq]
    obtain ⟨cid, spouse, _, _, hpos2, _, _⟩ :=
      coupleTry_spec_weak ctx person x y isRoot st st2 hct
    rw [hpos2]; simp
  · rw [heq]; simp

/-- The positioned list only ever grows (by appending). -/
theorem positionPerson_extends (ctx : LayoutCtx) (person : Person) (x y : ℚ)
    (isRoot : Bool) (st : LState) :
    ∃ ext, (positionPerson ctx person x y isRoot st).positioned =
      st.positioned ++ ext := by
  rcases positionPerson_cases ctx person x y isRoot st with
    ⟨_, heq⟩ | ⟨_, st2, hct, heq⟩ | ⟨_, hct, heq⟩
  · exact ⟨[], by rw [heq, List.append_nil]⟩
  · obtain ⟨cid, spouse, _, _, hpos2, _, _⟩ :=
      coupleTry_spec_weak ctx person x y isRoot st st2 hct
    exact ⟨_, by rw [heq, hpos2]⟩
  · exact ⟨_, by rw [heq]⟩

/-- The spouse loop preserves the layout invariant. -/
theorem spousesLoop_inv (ctx : LayoutCtx) (pid : String) (personX y : ℚ)
    (hsd : SpousesDistinct ctx.families) :
    ∀ (index : Nat) (fams : List Family) (st : LState),
      LInv ctx.persons st →
      LInv ctx.persons (spousesLoop ctx pid personX y index fams st)
  | _, [], _, hinv => hinv
  | index, family :: rest, st, hinv => by
    simp only [spousesLoop]
    refine spousesLoop_inv ctx pid personX y hsd (index + 1) rest _ ?_
    refine LInv_of_same _ _ _ (childEdges_state _ _ _ _ _).1
      (childEdges_state _ _ _ _ _).2 ?_
    split
    · rename_i sid heq
      split
      · split
        · rename_i spouse hpg
          refine LInv_of_same _ _ _ (createEdge_state _ _ _ _ _).1
            (createEdge_state _ _ _ _ _).2 ?_
          exact positionPerson_inv ctx spouse _ y false st hsd
            (personMapGet_mem ctx.persons sid spouse hpg).1 hinv
        · exact hinv
      · exact hinv
    · exact hinv

/-- The child loop of the descendant pass preserves the invariant,
assuming the recursive callback does. -/
theorem descChildren_inv (ctx : LayoutCtx)
    (recurse : String → ℚ → ℚ → Nat → LState → ℚ × LState)
    (hrec : ∀ pid x y g st, LInv ctx.persons st →
      LInv ctx.persons (recurse pid x y g st).2) :
    ∀ (cs : List String) (x y : ℚ) (g : Nat) (st : LState),
      LInv ctx.persons st →
      LInv ctx.persons (descChildren ctx recurse cs x y g st).2.2
  | [], _, _, _, _, hinv => hinv
  | c :: rest, x, y, g, st, hinv => by
    simp only [descChildren]
    split
    · exact descChildren_inv ctx recurse hrec rest x y g st hinv
    · exact descChildren_inv ctx recurse hrec rest _ y g _
        (hrec c x _ (g + 1) st hinv)

/-- The descendant pass preserves the invariant. -/
theorem layoutDescendants_inv (ctx : LayoutCtx)
    (hsd : SpousesDistinct ctx.families) :
    ∀ (fuel : Nat) (pid : String) (x y : ℚ) (g : Nat) (st : LState),
      LInv ctx.persons st →
      LInv ctx.persons (layoutDescendants ctx fuel pid x y g st).2
  | 0, _, _, _, _, _, hinv => hinv
  | fuel + 1, pid, x, y, g, st, hinv => by
    simp only [layoutDescendants]
    split
    · exact hinv
    · rename_i person hpg
      split
      · exact hinv
      · refine spousesLoop_inv ctx pid _ y hsd 0 _ _ ?_
        refine positionPerson_inv ctx person _ y (g == 0) _ hsd
          (personMapGet_mem ctx.persons pid person hpg).1 ?_
        exact descChildren_inv ctx _
          (fun pid2 x2 y2 g2 st2 h2 =>
            layoutDescendants_inv ctx hsd fuel pid2 x2 y2 g2 st2 h2)
          _ x y g st hinv

/-- The parent loop of the ancestor pass preserves the invariant,
assuming the recursive callback does. -/
theorem ancestorsLoop_inv (ctx : LayoutCtx) (hsd : SpousesDistinct ctx.families)
    (recurse : String → ℚ → ℚ → Nat → LState → LState)
    (hrec : ∀ pid x y g st, LInv ctx.persons st →
      LInv ctx.persons (recurse pid x y g st)) :
    ∀ (ps : List String) (pid : String) (x y : ℚ) (g index : Nat) (st : LState),
      LInv ctx.persons st →
      LInv ctx.persons (ancestorsLoop ctx recurse pid x y g index ps st)
  | [], _, _, _, _, _, _, hinv => hinv
  | parentId :: rest, pid, x, y, g, index, st, hinv => by
    simp only [ancestorsLoop]
    refine ancestorsLoop_inv ctx hsd recurse hrec rest pid x y g (index + 1) _ ?_
    split
    · exact hinv
    · split
      · exact hinv
      · rename_i parent hpg
        refine hrec parentId _ _ (g + 1) _ ?_
        refine LInv_of_same _ _ _ (createEdge_state _ _ _ _ _).1
          (createEdge_state _ _ _ _ _).2 ?_
        exact positionPerson_inv ctx parent _ _ false st hsd
          (personMapGet_mem ctx.persons parentId parent hpg).1 hinv

/-- The ancestor pass preserves the invariant. -/
theorem layoutAncestors_inv (ctx : LayoutCtx)
    (hsd : SpousesDistinct ctx.families) :
    ∀ (fuel : Nat) (pid : String) (x y : ℚ) (g : Nat) (st : LState),
      LInv ctx.persons st →
      LInv ctx.persons (layoutAncestors ctx fuel pid x y g st)
  | 0, _, _, _, _, _, hinv => hinv
  | fuel + 1, pid, x, y, g, st, hinv => by
    simp only [layoutAncestors]
    split
    · exact hinv
    · split
      · refine LInv_of_same _ _ _ (createEdge_state _ _ _ _ _).1
          (createEdge_state _ _ _ _ _).2 ?_
        exact ancestorsLoop_inv ctx hsd _
          (fun pid2 x2 y2 g2 st2 h2 =>
            layoutAncestors_inv ctx hsd fuel pid2 x2 y2 g2 st2 h2)
          _ pid x y g 0 st hinv
      all_goals
        exact ancestorsLoop_inv ctx hsd _
          (fun pid2 x2 y2 g2 st2 h2 =>
            layoutAncestors_inv ctx hsd fuel pid2 x2 y2 g2 st2 h2)
          _ pid x y g 0 st hinv

/-- The orphan pass preserves the invariant. -/
theorem orphanLoop_inv (ctx : LayoutCtx) (hsd : SpousesDistinct ctx.families) :
    ∀ (ps : List Person) (ux uy : ℚ) (count : Nat) (st : LState),
      (∀ p ∈ ps, p ∈ ctx.persons) →
      LInv ctx.persons st →
      LInv ctx.persons (orphanLoop ctx ps ux uy count st)
  | [], _, _, _, _, _, hinv => hinv
  | person :: rest, ux, uy, count, st, hmem, hinv => by
    simp only [orphanLoop]
    split
    · exact orphanLoop_inv ctx hsd rest ux uy count st
        (fun p hp => hmem p (List.mem_cons_of_mem _ hp)) hinv
    · have h1 : LInv ctx.persons (positionPerson ctx person ux uy false st) :=
        positionPerson_inv ctx person ux uy false st hsd
          (hmem person (List.mem_cons_self _ _)) hinv
      split
      · exact orphanLoop_inv ctx hsd rest _ _ _ _
          (fun p hp => hmem p (List.mem_cons_of_mem _ hp)) h1
      · exact orphanLoop_inv ctx hsd rest _ _ _ _
          (fun p hp => hmem p (List.mem_cons_of_mem _ hp)) h1

/-- The orphan pass only appends to the positioned list. -/
theorem orphanLoop_extends (ctx : LayoutCtx) :
    ∀ (ps : List Person) (ux uy : ℚ) (count : Nat) (st : LState),
      ∃ ext, (orphanLoop ctx ps ux uy count st).positioned = st.positioned ++ ext
  | [], _, _, _, st => ⟨[], (List.append_nil _).symm⟩
  | person :: rest, ux, uy, count, st => by
    simp only [orphanLoop]
    split
    · exact orphanLoop_extends ctx rest ux uy count st
    · obtain ⟨e1, he1⟩ := positionPerson_extends ctx person ux uy false st
      split
      · obtain ⟨e2, he2⟩ := orphanLoop_extends ctx rest _ _ _
          (positionPerson ctx person ux uy false st)
        exact ⟨e1 ++ e2, by rw [he2, he1, List.append_assoc]⟩
      · obtain ⟨e2, he2⟩ := orphanLoop_extends ctx rest _ _ _
          (positionPerson ctx person ux uy false st)
        exact ⟨e1 ++ e2, by rw [he2, he1, List.append_assoc]⟩

/-- After the orphan pass, every input person has been positioned. -/
theorem orphanLoop_covers (ctx : LayoutCtx) :
    ∀ (ps : List Person) (ux uy : ℚ) (count : Nat) (st : LState) (p : Person),
      p ∈ ps → p.id ∈ (orphanLoop ctx ps ux uy count st).positioned
  | [], _, _, _, _, _, hp => absurd hp (List.not_mem_nil _)
  | person :: rest, ux, uy, count, st, p, hp => by
    simp only [orphanLoop]
    rcases List.mem_cons.mp hp with heq | hrest
    · rw [heq]
      split
      · rename_i hc
        obtain ⟨ext, hext⟩ := orphanLoop_extends ctx rest ux uy count st
        rw [hext]
        exact List.mem_append_left _ (by simpa using hc)
      · have hmemp : person.id ∈
            (positionPerson ctx person ux uy false st).positioned :=
          positionPerson_mem ctx person ux uy false st
        split
        · obtain ⟨ext, hext⟩ := orphanLoop_extends ctx rest _ _ _
            (positionPerson ctx person ux uy false st)
          rw [hext]
          exact List.mem_append_left _ hmemp
        · obtain ⟨ext, hext⟩ := orphanLoop_extends ctx rest _ _ _
            (positionPerson ctx person ux uy false st)
          rw [hext]
          exact List.mem_append_left _ hmemp
    · split
      · exact orphanLoop_covers ctx rest ux uy count st p hrest
      · split
        · exact orphanLoop_covers ctx rest _ _ _ _ p hrest
        · exact orphanLoop_covers ctx rest _ _ _ _ p hrest

/-- Each node occupies one slot per carried person: the occupant list is
as long as the node list plus one extra for every couple node. -/
theorem occupant_length :
    ∀ nodes : List TreeNode,
      (nodes.flatMap occupantIds).length = nodes.length + coupleNodeCount nodes
  | [] => rfl
  | ⟨i, x, y, ir, cm, o, .person p⟩ :: ns => by
    have ih := occupant_length ns
    simp only [List.flatMap_cons, List.length_append, occupantIds,
      coupleNodeCount, List.countP_cons, isCoupleNode, List.length_cons,
      List.length_nil, Bool.false_eq_true, if_false, if_true] at ih ⊢
    omega
  | ⟨i, x, y, ir, cm, o, .couple p1 p2⟩ :: ns => by
    have ih := occupant_length ns
    simp only [List.flatMap_cons, List.length_append, occupantIds,
      coupleNodeCount, List.countP_cons, isCoupleNode, List.length_cons,
      List.length_nil, Bool.false_eq_true, if_false, if_true] at ih ⊢
    omega

/-- The full pipeline establishes the invariant from the empty state. -/
theorem layoutPipelineState_inv (persons : List Person) (families : List Family)
    (orientation : TreeLayoutOrientation) (isMobile : Bool) (root : Person)
    (hsd : SpousesDistinct families) :
    LInv persons (layoutPipelineState persons families orientation isMobile root) := by
  simp only [layoutPipelineState]
  refine orphanLoop_inv (mkLayoutCtx persons families orientation isMobile) hsd
    persons _ _ _ _ (fun p hp => hp) ?_
  refine layoutAncestors_inv _ hsd _ _ _ _ _ _ ?_
  refine layoutDescendants_inv _ hsd _ _ _ _ _ _ ?_
  exact ⟨rfl, List.nodup_nil, fun i hi => absurd hi (List.not_mem_nil _)⟩

/-- After the full pipeline, every input person has been positioned. -/
theorem layoutPipelineState_covers (persons : List Person)
    (families : List Family) (orientation : TreeLayoutOrientation)
    (isMobile : Bool) (root : Person) :
    ∀ p ∈ persons,
      p.id ∈ (layoutPipelineState persons families orientation isMobile root).positioned := by
  intro p hp
  simp only [layoutPipelineState]
  exact orphanLoop_covers _ persons _ _ _ _ p hp

/-- C3 (amended): no duplicate placement.  On data-model-valid input
(each family's two spouse slots, when both present, name distinct
persons) and with a root id that resolves (absent/empty, or the id of an
input person), `generateTreeLayout` places every person at most once —
the occupant lists of the output nodes are jointly duplicate-free — and
places every person at least once: the number of output nodes equals the
number of distinct input person ids minus the number of compacted couple
nodes (each of which absorbs exactly two persons). -/
theorem layout_no_duplicate_placement (persons : List Person)
    (families : List Family) (rootPersonId : Option String)
    (orientation : TreeLayoutOrientation) (isMobile : Bool)
    (hsd : SpousesDistinct families)
    (hroot : truthy rootPersonId = false ∨ ∃ p ∈ persons, rootPersonId = some p.id) :
    ((generateTreeLayout persons families rootPersonId orientation isMobile).nodes.flatMap
        occupantIds).Nodup ∧
    (persons.map Person.id).dedup.length =
      (generateTreeLayout persons families rootPersonId orientation isMobile).nodes.length +
        coupleNodeCount
          (generateTreeLayout persons families rootPersonId orientation isMobile).nodes := by
  by_cases hne : persons.isEmpty
  · have h0 : persons = [] := by simpa using hne
    subst h0
    exact ⟨List.nodup_nil, rfl⟩
  · have hne' : persons.isEmpty = false := by simpa using hne
    obtain ⟨root, hres, hrmem⟩ :
        ∃ root, (if truthy rootPersonId
            then personMapGet persons (rootPersonId.getD "")
            else persons.head?) = some root ∧ root ∈ persons := by
      by_cases htr : truthy rootPersonId = true
      · rcases hroot with h0 | ⟨p, hp, hpe⟩
        · rw [h0] at htr; exact absurd htr (by simp)
        · rw [if_pos htr, hpe]
          have hsome : (personMapGet persons p.id).isSome := by
            rw [personMapGet, List.find?_isSome]
            exact ⟨p, List.mem_reverse.mpr hp, by simp⟩
          obtain ⟨q, hq⟩ := Option.isSome_iff_exists.mp hsome
          exact ⟨q, by simpa using hq, (personMapGet_mem persons p.id q hq).1⟩
      · rcases persons with _ | ⟨p0, ps⟩
        · simp at hne'
        · exact ⟨p0, by rw [if_neg htr]; rfl, List.mem_cons_self _ _⟩
    have hrun : generateTreeLayout persons families rootPersonId orientation isMobile =
        layoutPipeline persons families orientation isMobile root := by
      simp only [generateTreeLayout, hne', Bool.false_eq_true, if_false, hres]
    rw [hrun]
    obtain ⟨ha, hb, hc⟩ :=
      layoutPipelineState_inv persons families orientation isMobile root hsd
    have hcov := layoutPipelineState_covers persons families orientation isMobile root
    constructor
    · exact ha ▸ hb
    · have h2 : (layoutPipelineState persons families orientation isMobile
          root).positioned.toFinset = (persons.map Person.id).toFinset := by
        ext i
        simp only [List.mem_toFinset]
        constructor
        · exact hc i
        · intro hi
          rcases List.mem_map.mp hi with ⟨p, hp, rfl⟩
          exact hcov p hp
      have hfin : (persons.map Person.id).dedup.length =
          (layoutPipelineState persons families orientation isMobile root).nodes.length +
            coupleNodeCount
              (layoutPipelineState persons families orientation isMobile root).nodes :=
        calc (persons.map Person.id).dedup.length
            = (persons.map Person.id).toFinset.card := (List.card_toFinset _).symm
          _ = (layoutPipelineState persons families orientation isMobile
                root).positioned.toFinset.card := by rw [h2]
          _ = (layoutPipelineState persons families orientation isMobile
                root).positioned.length := List.toFinset_card_of_nodup hb
          _ = _ := by rw [ha, occupant_length]
      exact hfin

/-- Witness for `layout_no_duplicate_placement` at a concrete input. -/
theorem layout_no_duplicate_placement_witness :
    SpousesDistinct [famAB] ∧
    (truthy (some "a") = false ∨
      ∃ p ∈ [mkP "a", mkP "b"], (some "a" : Option String) = some p.id) ∧
    ((generateTreeLayout [mkP "a", mkP "b"] [famAB] (some "a") .vertical
        false).nodes.flatMap occupantIds).Nodup ∧
    ([mkP "a", mkP "b"].map Person.id).dedup.length =
      (generateTreeLayout [mkP "a", mkP "b"] [famAB] (some "a") .vertical
        false).nodes.length +
        coupleNodeCount
          (generateTreeLayout [mkP "a", mkP "b"] [famAB] (some "a") .vertical
            false).nodes := by
  refine ⟨?_, ?_, ?_⟩
  · intro f hf h1 h2
    have : f = famAB := by simpa using hf
    subst this
    decide
  · exact Or.inr ⟨mkP "a", List.mem_cons_self _ _, rfl⟩
  · exact layout_no_duplicate_placement [mkP "a", mkP "b"] [famAB] (some "a")
      .vertical false
      (by
        intro f hf h1 h2
        have : f = famAB := by simpa using hf
        subst this
        decide)
      (Or.inr ⟨mkP "a", List.mem_cons_self _ _, rfl⟩)

/-- C3 counterexample: with a truthy root id that matches no input
person, the source returns an empty layout (`rootPerson` is `undefined`,
so it bails out with no nodes), so a single-person input yields zero
placed nodes — the claimed count equation `|nodes| = |distinct persons| -
|compacted pairs|` fails for this input. -/
theorem layout_dangling_root_drops_everyone :
    (generateTreeLayout [mkP "a"] [] (some "zz") .vertical false).nodes = [] ∧
    ([mkP "a"].map Person.id).dedup.length = 1 :=
  ⟨rfl, rfl⟩

/-! ### C4 — couple compaction -/

theorem ltChars_asymm : ∀ a b : List Char, ltChars a b = true → ltChars b a = false
  | [], [] => by simp [ltChars]
  | [], _ :: _ => fun _ => by simp [ltChars]
  | _ :: _, [] => by simp [ltChars]
  | c :: cs, d :: ds => fun h => by
    simp only [ltChars] at h ⊢
    by_cases h1 : c.toNat < d.toNat
    · rw [if_neg (by omega : ¬ d.toNat < c.toNat), if_pos h1]
    · by_cases h2 : d.toNat < c.toNat
      · rw [if_neg h1, if_pos h2] at h
        exact absurd h (by simp)
      · rw [if_neg h1, if_neg h2] at h
        rw [if_neg h2, if_neg h1]
        exact ltChars_asymm cs ds h

theorem ltChars_eq_of_not : ∀ a b : List Char,
    ltChars a b = false → ltChars b a = false → a = b
  | [], [] => fun _ _ => rfl
  | [], _ :: _ => fun h _ => by simp [ltChars] at h
  | _ :: _, [] => fun _ h => by simp [ltChars] at h
  | c :: cs, d :: ds => fun h h2 => by
    simp only [ltChars] at h h2
    by_cases h1 : c.toNat < d.toNat
    · rw [if_pos h1] at h; exact absurd h (by simp)
    · by_cases h3 : d.toNat < c.toNat
      · rw [if_pos h3] at h2; exact absurd h2 (by simp)
      · rw [if_neg h1, if_neg h3] at h
        rw [if_neg h3, if_neg h1] at h2
        have h4 : c.toNat = d.toNat := by omega
        have hcd : c = d := Char.ext (UInt32.ext h4)
        rw [hcd, ltChars_eq_of_not cs ds h h2]

theorem string_eq_of_data (a b : String) (h : a.data = b.data) : a = b := by
  cases a with
  | mk da =>
    cases b with
    | mk db =>
      have : da = db := by simpa using h
      rw [this]

/-- The canonical couple key is order-independent. -/
theorem coupleKey_comm (a b : String) : coupleKey a b = coupleKey b a := by
  simp only [coupleKey]
  by_cases h1 : ltChars b.data a.data = true
  · rw [if_pos h1, if_neg (by simp [ltChars_asymm _ _ h1])]
  · have h1' : ltChars b.data a.data = false := by simpa using h1
    by_cases h2 : ltChars a.data b.data = true
    · rw [if_neg h1, if_pos h2]
    · have h2' : ltChars a.data b.data = false := by simpa using h2
      have hab : a = b := string_eq_of_data a b (ltChars_eq_of_not _ _ h2' h1')
      rw [hab]

/-- The couple-node id is order-independent. -/
theorem coupleNodeIdOf_comm (a b : String) :
    coupleNodeIdOf a b = coupleNodeIdOf b a := by
  simp only [coupleNodeIdOf, coupleKey_comm a b]

/-- Once a family's couple key has been created, later families that
could only be that same family leave the accumulator unchanged. -/
theorem foldl_coupleStep_stable (f : Family) (s1 s2 : String)
    (h1 : f.spouse1Id = some s1) (h2 : f.spouse2Id = some s2) :
    ∀ (l : List Family) (acc : List String × List (String × String)),
      (∀ g ∈ l,
        (truthy g.spouse1Id && truthy g.spouse2Id && !g.childIds.isEmpty) = true →
          g = f) →
      coupleKey s1 s2 ∈ acc.1 →
      l.foldl coupleStep acc = acc
  | [], _, _, _ => rfl
  | g :: rest, acc, huniq, hkey => by
    have hstep : coupleStep acc g = acc := by
      by_cases hp : (truthy g.spouse1Id && truthy g.spouse2Id &&
          !g.childIds.isEmpty) = true
      · have hg : g = f := huniq g (List.mem_cons_self _ _) hp
        subst hg
        simp only [coupleStep]
        rw [if_pos hp]
        simp only [h1, h2]
        rw [if_pos (by simpa using hkey)]
      · simp only [coupleStep]
        rw [if_neg hp]
    rw [List.foldl_cons, hstep]
    exact foldl_coupleStep_stable f s1 s2 h1 h2 rest acc
      (fun g2 hg2 hp2 => huniq g2 (List.mem_cons_of_mem _ hg2) hp2) hkey

/-- When exactly one family qualifies for compaction, the pre-pass maps
exactly its two spouses, both to the canonical couple-node id. -/
theorem buildCoupleMap_unique (f : Family) (s1 s2 : String)
    (h1 : f.spouse1Id = some s1) (h2 : f.spouse2Id = some s2)
    (hpass : (truthy f.spouse1Id && truthy f.spouse2Id &&
      !f.childIds.isEmpty) = true) :
    ∀ (families : List Family), f ∈ families →
      (∀ g ∈ families,
        (truthy g.spouse1Id && truthy g.spouse2Id && !g.childIds.isEmpty) = true →
          g = f) →
      buildCoupleMap families =
        [(s2, coupleNodeIdOf s1 s2), (s1, coupleNodeIdOf s1 s2)]
  | [], hf, _ => absurd hf (List.not_mem_nil _)
  | g :: rest, hf, huniq => by
    by_cases hgf : g = f
    · subst hgf
      have hstep : coupleStep ([], []) g =
          ([coupleKey s1 s2],
           [(s2, "couple-" ++ coupleKey s1 s2),
            (s1, "couple-" ++ coupleKey s1 s2)]) := by
        simp only [coupleStep]
        rw [if_pos hpass]
        simp only [h1, h2]
        rw [if_neg (by simp)]
      simp only [buildCoupleMap, List.foldl_cons]
      rw [hstep, foldl_coupleStep_stable g s1 s2 h1 h2 rest _
        (fun g2 hg2 hp2 => huniq g2 (List.mem_cons_of_mem _ hg2) hp2)
        (by simp)]
      rfl
    · have hp : (truthy g.spouse1Id && truthy g.spouse2Id &&
          !g.childIds.isEmpty) = false := by
        by_cases hp0 : (truthy g.spouse1Id && truthy g.spouse2Id &&
            !g.childIds.isEmpty) = true
        · exact absurd (huniq g (List.mem_cons_self _ _) hp0) hgf
        · simpa using hp0
      have hfr : f ∈ rest := by
        rcases List.mem_cons.mp hf with h | h
        · exact absurd h.symm hgf
        · exact h
      have hstep : coupleStep ([], []) g = ([], []) := by
        simp only [coupleStep]
        rw [if_neg (by simp [hp])]
      simp only [buildCoupleMap, List.foldl_cons]
      rw [hstep]
      exact buildCoupleMap_unique f s1 s2 h1 h2 hpass rest hfr
        (fun g2 hg2 hp2 => huniq g2 (List.mem_cons_of_mem _ hg2) hp2)

/-- A spouse edge with a couple-mapped endpoint is suppressed. -/
theorem createEdge_spouse_suppressed (ctx : LayoutCtx) (s t : String)
    (st : LState)
    (h : (mapGet ctx.coupleMap s).isSome = true ∨
      (mapGet ctx.coupleMap t).isSome = true) :
    createEdge ctx s t .spouse st = st := by
  simp only [createEdge]
  split
  · rfl
  · rename_i hcond
    exfalso
    rcases h with h | h <;> simp [h] at hcond

/-- C4 counterexample.  First input: persons a, b, c; family f1 has
spouses a, b and a child, family f2 has spouses a, c and a child.  Both
families qualify for compaction, yet the output contains no node keyed
`couple-a-b` at all — a's map entry is overwritten by f2's pre-pass
registration — and the single couple node is keyed `couple-a-c` while
carrying persons a and b (the spouses of f1, not of f2); an edge even
dangles to the never-created `couple-a-b`.  Second input: persons r, a, b
with root r and one childless family a–b.  The childless pair renders as
two separate individual nodes, but with no spouse edge at all — the
orphan grid positions them without emitting edges. -/
theorem couple_compaction_counterexample :
    ((generateTreeLayout [mkP "a", mkP "b", mkP "c"] [famAB, famAC] none
        .vertical false).nodes.map (fun n => (n.id, isCoupleNode n))) =
      [("couple-a-c", true), ("c", false)] ∧
    ((generateTreeLayout [mkP "a", mkP "b", mkP "c"] [famAB, famAC] none
        .vertical false).nodes.map (fun n => occupantIds n)) =
      [["a", "b"], ["c"]] ∧
    ((generateTreeLayout [mkP "a", mkP "b", mkP "c"] [famAB, famAC] none
        .vertical false).edges.map (fun e => e.id)) =
      ["couple-a-c-k1", "couple-a-b-k1", "couple-a-c-k2"] ∧
    ((generateTreeLayout [mkP "r", mkP "a", mkP "b"] [famABnc] (some "r")
        .vertical false).nodes.map (fun n => (n.id, isCoupleNode n))) =
      [("r", false), ("a", false), ("b", false)] ∧
    ((generateTreeLayout [mkP "r", mkP "a", mkP "b"] [famABnc] (some "r")
        .vertical false).edges) = [] :=
  ⟨by decide, by decide, by decide, by decide, by decide⟩

/-- C4 (amended): couple compaction as the code implements it.  (i) When
exactly one family qualifies for compaction (both spouses present,
non-empty child list), the pre-pass maps precisely its two spouses to
the canonical, order-independent couple-node id (with several
qualifying families, later registrations overwrite a shared spouse's
entry, so earlier pairs can lose their mapping — see the
counterexample).  (ii) A spouse edge either of whose endpoints is
couple-mapped is suppressed, whether or not the couple node was in fact
created.  (iii) A successful couple-creation step appends exactly one
compound node carrying the positioned person and a co-spouse, and no
edge.  (iv) A childless married pair is never couple-mapped; when the
pair is reached through the descendant pass (here: root a, spouse b),
it renders as two separate individual nodes joined by an explicit
spouse edge — but a childless pair reached only through the orphan grid
gets no spouse edge (see the counterexample). -/
theorem couple_compaction (families : List Family) (f : Family) (s1 s2 : String)
    (ctx : LayoutCtx) (person : Person) (x y : ℚ) (isRoot : Bool)
    (st st2 : LState) (sourceId targetId : String)
    (h1 : f.spouse1Id = some s1) (h2 : f.spouse2Id = some s2)
    (hf : f ∈ families)
    (hpass : (truthy f.spouse1Id && truthy f.spouse2Id &&
      !f.childIds.isEmpty) = true)
    (huniq : ∀ g ∈ families,
      (truthy g.spouse1Id && truthy g.spouse2Id && !g.childIds.isEmpty) = true →
        g = f)
    (hsup : (mapGet ctx.coupleMap sourceId).isSome = true ∨
      (mapGet ctx.coupleMap targetId).isSome = true)
    (hct : coupleTry ctx person x y isRoot st = some st2) :
    buildCoupleMap families =
      [(s2, coupleNodeIdOf s1 s2), (s1, coupleNodeIdOf s1 s2)] ∧
    coupleNodeIdOf s1 s2 = coupleNodeIdOf s2 s1 ∧
    createEdge ctx sourceId targetId .spouse st = st ∧
    (∃ cid spouse,
      st2.nodes = st.nodes ++
        [⟨cid, x, y, isRoot, ctx.isMobile, ctx.orientation,
          .couple person spouse⟩] ∧
      st2.edges = st.edges) ∧
    ((generateTreeLayout [mkP "a", mkP "b"] [famABnc] (some "a") .vertical
        false).nodes.map (fun n => (n.id, isCoupleNode n)) =
      [("a", false), ("b", false)] ∧
     (generateTreeLayout [mkP "a", mkP "b"] [famABnc] (some "a") .vertical
        false).edges.map (fun e => (e.id, e.stroke, e.strokeDash)) =
      [("a-b", "#f472b6", some "5,5")]) := by
  refine ⟨buildCoupleMap_unique f s1 s2 h1 h2 hpass families hf huniq,
    coupleNodeIdOf_comm s1 s2,
    createEdge_spouse_suppressed ctx sourceId targetId st hsup,
    ?_, by decide, by decide⟩
  obtain ⟨cid, spouse, _, _, _, hnodes, hedges⟩ :=
    coupleTry_spec_weak ctx person x y isRoot st st2 hct
  exact ⟨cid, spouse, hnodes, hedges⟩

/-- Witness for `couple_compaction` at a concrete input. -/
theorem couple_compaction_witness :
    famAB.spouse1Id = some "a" ∧
    famAB.spouse2Id = some "b" ∧
    famAB ∈ [famAB] ∧
    (truthy famAB.spouse1Id && truthy famAB.spouse2Id &&
      !famAB.childIds.isEmpty) = true ∧
    (∀ g ∈ [famAB],
      (truthy g.spouse1Id && truthy g.spouse2Id && !g.childIds.isEmpty) = true →
        g = famAB) ∧
    ((mapGet (mkLayoutCtx [mkP "a", mkP "b"] [famAB] .vertical false).coupleMap
        "a").isSome = true ∨
      (mapGet (mkLayoutCtx [mkP "a", mkP "b"] [famAB] .vertical false).coupleMap
        "b").isSome = true) ∧
    coupleTry (mkLayoutCtx [mkP "a", mkP "b"] [famAB] .vertical false)
        (mkP "a") 0 0 true {} =
      some ((coupleTry (mkLayoutCtx [mkP "a", mkP "b"] [famAB] .vertical false)
        (mkP "a") 0 0 true {}).getD {}) ∧
    (buildCoupleMap [famAB] =
      [("b", coupleNodeIdOf "a" "b"), ("a", coupleNodeIdOf "a" "b")] ∧
    coupleNodeIdOf "a" "b" = coupleNodeIdOf "b" "a" ∧
    createEdge (mkLayoutCtx [mkP "a", mkP "b"] [famAB] .vertical false)
        "a" "b" .spouse {} = {} ∧
    (∃ cid spouse,
      ((coupleTry (mkLayoutCtx [mkP "a", mkP "b"] [famAB] .vertical false)
          (mkP "a") 0 0 true {}).getD {}).nodes = ({} : LState).nodes ++
        [⟨cid, 0, 0, true,
          (mkLayoutCtx [mkP "a", mkP "b"] [famAB] .vertical false).isMobile,
          (mkLayoutCtx [mkP "a", mkP "b"] [famAB] .vertical false).orientation,
          .couple (mkP "a") spouse⟩] ∧
      ((coupleTry (mkLayoutCtx [mkP "a", mkP "b"] [famAB] .vertical false)
          (mkP "a") 0 0 true {}).getD {}).edges = ({} : LState).edges) ∧
    ((generateTreeLayout [mkP "a", mkP "b"] [famABnc] (some "a") .vertical
        false).nodes.map (fun n => (n.id, isCoupleNode n)) =
      [("a", false), ("b", false)] ∧
     (generateTreeLayout [mkP "a", mkP "b"] [famABnc] (some "a") .vertical
        false).edges.map (fun e => (e.id, e.stroke, e.strokeDash)) =
      [("a-b", "#f472b6", some "5,5")])) :=
  ⟨rfl, rfl, List.mem_cons_self _ _, by decide,
   fun g hg _ => by simpa using hg,
   Or.inl (by decide), rfl,
   couple_compaction [famAB] famAB "a" "b"
     (mkLayoutCtx [mkP "a", mkP "b"] [famAB] .vertical false)
     (mkP "a") 0 0 true {}
     ((coupleTry (mkLayoutCtx [mkP "a", mkP "b"] [famAB] .vertical false)
       (mkP "a") 0 0 true {}).getD {})
     "a" "b" rfl rfl (List.mem_cons_self _ _) (by decide)
     (fun g hg _ => by simpa using hg) (Or.inl (by decide)) rfl⟩

/-! ### C8 — pointer-map scoping -/

theorem freshId_inj (j k : Nat) (h : freshId j = freshId k) : j = k := by
  simp only [freshId] at h
  injection h with h2
  have := congrArg List.length h2
  simpa using this

/-- The id a later import run mints in place of an earlier run's id: the
counter offset is recoverable from the id's length. -/
def shiftId (d : Nat) (s : String) : String :=
  freshId (s.data.length - 1 + d)

/-- Shift the value of a pointer-map entry. -/
def shiftEntry (d : Nat) (e : String × String) : String × String :=
  (e.1, shiftId d e.2)

/-- Shift the minted ids of a parsed person. -/
def reP (d : Nat) (p : Person) : Person :=
  { p with id := shiftId d p.id, rev := shiftId d p.rev }

theorem shiftId_freshId (d k : Nat) : shiftId d (freshId k) = freshId (k + d) := by
  simp [shiftId, freshId]

theorem getOrCreateId_shift (d : Nat) (ptr : String) (st : PState) :
    getOrCreateId ptr (st.1.map (shiftEntry d), st.2 + d) =
      (shiftId d (getOrCreateId ptr st).1,
       ((getOrCreateId ptr st).2.1.map (shiftEntry d),
        (getOrCreateId ptr st).2.2 + d)) := by
  simp only [getOrCreateId, List.find?_map]
  have hco : ((fun e : String × String => e.1 == ptr) ∘ shiftEntry d) =
      (fun e : String × String => e.1 == ptr) := by
    funext e
    simp [shiftEntry]
  rw [hco]
  rcases hf : st.1.find? (fun e => e.1 == ptr) with _ | e
  · simp [hf, shiftEntry, shiftId_freshId, List.map_append]
    omega
  · simp [hf, shiftEntry]

theorem parseIndividual_state (record : GNode) (clock : Nat) (st : PState) :
    (parseIndividual record clock st).2 =
      ((getOrCreateId (record.pointer.getD "") st).2.1,
       (getOrCreateId (record.pointer.getD "") st).2.2 + 1) ∧
    (parseIndividual record clock st).1.id =
      (getOrCreateId (record.pointer.getD "") st).1 :=
  ⟨rfl, rfl⟩

theorem parseIndividual_shift (d : Nat) (record : GNode) (clock : Nat)
    (st : PState) :
    parseIndividual record clock (st.1.map (shiftEntry d), st.2 + d) =
      (reP d (parseIndividual record clock st).1,
       ((parseIndividual record clock st).2.1.map (shiftEntry d),
        (parseIndividual record clock st).2.2 + d)) := by
  simp only [parseIndividual, getOrCreateId_shift]
  refine congrArg₂ Prod.mk ?_ ?_
  · simp only [reP]
    refine congrArg₂ (fun a b => Person.mk a b false clock clock _ _ none _ _ _ _) ?_ ?_
    · rfl
    · rw [shiftId_freshId]
  · rw [Nat.add_right_comm]

theorem parseIndividuals_shift (d clock : Nat) :
    ∀ (rs : List GNode) (st : PState),
      parseIndividuals clock rs (st.1.map (shiftEntry d), st.2 + d) =
        ((parseIndividuals clock rs st).1.map (reP d),
         ((parseIndividuals clock rs st).2.1.map (shiftEntry d),
          (parseIndividuals clock rs st).2.2 + d))
  | [], st => rfl
  | r :: rs, st => by
    simp only [parseIndividuals]
    rw [parseIndividual_shift]
    have ih := parseIndividuals_shift d clock rs (parseIndividual r clock st).2
    simp only [ih]
    rfl

theorem getOrCreateId_mono (ptr : String) (st : PState) :
    st.2 ≤ (getOrCreateId ptr st).2.2 := by
  simp only [getOrCreateId]
  split
  · exact Nat.le_refl _
  · exact Nat.le_succ _

theorem getOrCreateId_range (c0 : Nat) (ptr : String) (st : PState)
    (h0 : c0 ≤ st.2)
    (h : ∀ e ∈ st.1, ∃ k, c0 ≤ k ∧ k < st.2 ∧ e.2 = freshId k) :
    c0 ≤ (getOrCreateId ptr st).2.2 ∧
    (∀ e ∈ (getOrCreateId ptr st).2.1,
      ∃ k, c0 ≤ k ∧ k < (getOrCreateId ptr st).2.2 ∧ e.2 = freshId k) ∧
    (∃ k, c0 ≤ k ∧ k < (getOrCreateId ptr st).2.2 ∧
      (getOrCreateId ptr st).1 = freshId k) := by
  simp only [getOrCreateId]
  split
  · rename_i e hf
    have hmem := List.mem_of_find?_eq_some hf
    obtain ⟨k, hk1, hk2, hk3⟩ := h e hmem
    exact ⟨h0, h, ⟨k, hk1, hk2, hk3⟩⟩
  · refine ⟨?_, ?_, ⟨st.2, h0, ?_, rfl⟩⟩
    · show c0 ≤ st.2 + 1
      omega
    · intro e he
      rcases List.mem_append.mp he with h1 | h2
      · obtain ⟨k, hk1, hk2, hk3⟩ := h e h1
        refine ⟨k, hk1, ?_, hk3⟩
        show k < st.2 + 1
        omega
      · have he2 : e = (ptr, freshId st.2) := by simpa using h2
        subst he2
        refine ⟨st.2, h0, ?_, rfl⟩
        show st.2 < st.2 + 1
        omega
    · show st.2 < st.2 + 1
      omega

theorem parseIndividuals_range (clock c0 : Nat) :
    ∀ (rs : List GNode) (st : PState),
      c0 ≤ st.2 →
      (∀ e ∈ st.1, ∃ k, c0 ≤ k ∧ k < st.2 ∧ e.2 = freshId k) →
      st.2 ≤ (parseIndividuals clock rs st).2.2 ∧
      (∀ e ∈ (parseIndividuals clock rs st).2.1,
        ∃ k, c0 ≤ k ∧ k < (parseIndividuals clock rs st).2.2 ∧ e.2 = freshId k) ∧
      (∀ p ∈ (parseIndividuals clock rs st).1,
        ∃ k, c0 ≤ k ∧ k < (parseIndividuals clock rs st).2.2 ∧ p.id = freshId k)
  | [], st => fun _ h => ⟨Nat.le_refl _, h, fun p hp => absurd hp (List.not_mem_nil _)⟩
  | r :: rs, st => fun h0 h => by
    simp only [parseIndividuals]
    obtain ⟨hst, hid⟩ := parseIndividual_state r clock st
    obtain ⟨hg0, hgent, k0, hk01, hk02, hk03⟩ :=
      getOrCreateId_range c0 (r.pointer.getD "") st h0 h
    have h0' : c0 ≤ (parseIndividual r clock st).2.2 := by rw [hst]; omega
    have hent' : ∀ e ∈ (parseIndividual r clock st).2.1,
        ∃ k, c0 ≤ k ∧ k < (parseIndividual r clock st).2.2 ∧ e.2 = freshId k := by
      rw [hst]
      intro e he
      obtain ⟨k, hk1, hk2, hk3⟩ := hgent e he
      exact ⟨k, hk1, by omega, hk3⟩
    obtain ⟨hmono, hent2, hps⟩ :=
      parseIndividuals_range clock c0 rs (parseIndividual r clock st).2 h0' hent'
    have hstep : st.2 ≤ (parseIndividual r clock st).2.2 := by
      rw [hst]
      have := getOrCreateId_mono (r.pointer.getD "") st
      omega
    refine ⟨by omega, hent2, ?_⟩
    intro p hp
    rcases List.mem_cons.mp hp with rfl | h2
    · refine ⟨k0, hk01, ?_, by rw [hid, hk03]⟩
      have hle : (getOrCreateId (r.pointer.getD "") st).2.2 ≤
          (parseIndividual r clock st).2.2 := by rw [hst]; omega
      omega
    · exact hps p h2

theorem childFold_mono : ∀ (ns : List GNode) (acc : List String × PState),
    acc.2.2 ≤ (ns.foldl
      (fun (acc : List String × PState) n =>
        match n.data with
        | some d => let r := getOrCreateId d acc.2; (acc.1 ++ [r.1], r.2)
        | none => (acc.1 ++ [""], acc.2))
      acc).2.2
  | [], _ => Nat.le_refl _
  | n :: ns, acc => by
    rw [List.foldl_cons]
    refine Nat.le_trans ?_ (childFold_mono ns _)
    rcases hd : n.data with _ | d
    · exact Nat.le_refl _
    · exact getOrCreateId_mono d acc.2

theorem parseFamily_counter (record : GNode) (clock : Nat) (st : PState) :
    st.2 ≤ (parseFamily record clock st).2.2 := by
  simp only [parseFamily]
  have t0 := getOrCreateId_mono (record.pointer.getD "") st
  rcases hh : (record.children.find? (fun n => n.tag == "HUSB")).bind
      (fun n => n.data) with _ | hd <;>
    rcases hw : (record.children.find? (fun n => n.tag == "WIFE")).bind
      (fun n => n.data) with _ | wd <;>
    simp only [hh, hw]
  · exact Nat.le_trans t0 (Nat.le_trans
      (childFold_mono _ ([], (getOrCreateId (record.pointer.getD "") st).2))
      (Nat.le_succ _))
  · have t2 := getOrCreateId_mono wd (getOrCreateId (record.pointer.getD "") st).2
    exact Nat.le_trans t0 (Nat.le_trans t2 (Nat.le_trans
      (childFold_mono _
        ([], (getOrCreateId wd (getOrCreateId (record.pointer.getD "") st).2).2))
      (Nat.le_succ _)))
  · have t1 := getOrCreateId_mono hd (getOrCreateId (record.pointer.getD "") st).2
    exact Nat.le_trans t0 (Nat.le_trans t1 (Nat.le_trans
      (childFold_mono _
        ([], (getOrCreateId hd (getOrCreateId (record.pointer.getD "") st).2).2))
      (Nat.le_succ _)))
  · have t1 := getOrCreateId_mono hd (getOrCreateId (record.pointer.getD "") st).2
    have t2 := getOrCreateId_mono wd
      (getOrCreateId hd (getOrCreateId (record.pointer.getD "") st).2).2
    exact Nat.le_trans t0 (Nat.le_trans t1 (Nat.le_trans t2 (Nat.le_trans
      (childFold_mono _
        ([], (getOrCreateId wd
          (getOrCreateId hd (getOrCreateId (record.pointer.getD "") st).2).2).2))
      (Nat.le_succ _))))

theorem parseFamilies_counter (clock : Nat) : ∀ (rs : List GNode) (st : PState),
    st.2 ≤ (parseFamilies clock rs st).2.2
  | [], _ => Nat.le_refl _
  | r :: rs, st => by
    simp only [parseFamilies]
    exact Nat.le_trans (parseFamily_counter r clock st)
      (parseFamilies_counter clock rs (parseFamily r clock st).2)

theorem mem_updateFirst (p : α → Bool) (g : α → α) :
    ∀ (xs : List α) (q : α), q ∈ updateFirst p g xs →
      q ∈ xs ∨ ∃ x ∈ xs, q = g x
  | [], q, h => absurd h (List.not_mem_nil _)
  | x :: xs, q, h => by
    simp only [updateFirst] at h
    by_cases hx : p x
    · rw [if_pos hx] at h
      rcases List.mem_cons.mp h with rfl | h2
      · exact Or.inr ⟨x, List.mem_cons_self _ _, rfl⟩
      · exact Or.inl (List.mem_cons_of_mem _ h2)
    · rw [if_neg hx] at h
      rcases List.mem_cons.mp h with rfl | h2
      · exact Or.inl (List.mem_cons_self _ _)
      · rcases mem_updateFirst p g xs q h2 with h3 | ⟨y, hy, hq⟩
        · exact Or.inl (List.mem_cons_of_mem _ h3)
        · exact Or.inr ⟨y, List.mem_cons_of_mem _ hy, hq⟩

theorem putPerson_mem (p : Person) (ps : List Person) (q : Person)
    (h : q ∈ putPerson p ps) : q = p ∨ q ∈ ps := by
  simp only [putPerson] at h
  split at h
  · rcases mem_updateFirst _ _ ps q h with h2 | ⟨y, _, hq⟩
    · exact Or.inr h2
    · exact Or.inl hq
  · rcases List.mem_append.mp h with h2 | h2
    · exact Or.inr h2
    · exact Or.inl (by simpa using h2)

theorem foldPut_mem : ∀ (P : List Person) (acc : List Person) (q : Person),
    q ∈ P.foldl (fun a p => putPerson p a) acc → q ∈ acc ∨ q ∈ P
  | [], _, _, h => Or.inl h
  | p :: P, acc, q, h => by
    rw [List.foldl_cons] at h
    rcases foldPut_mem P (putPerson p acc) q h with h2 | h2
    · rcases putPerson_mem p acc q h2 with rfl | h3
      · exact Or.inr (List.mem_cons_self _ _)
      · exact Or.inl h3
    · exact Or.inr (List.mem_cons_of_mem _ h2)

theorem updateFirst_append_of_not (p : α → Bool) (g : α → α) :
    ∀ (E acc : List α), (∀ x ∈ E, p x = false) →
      updateFirst p g (E ++ acc) = E ++ updateFirst p g acc
  | [], acc, _ => rfl
  | x :: E, acc, h => by
    have hx := h x (List.mem_cons_self _ _)
    simp only [List.cons_append, updateFirst, hx, Bool.false_eq_true, if_false]
    exact congrArg (fun l => x :: l) (updateFirst_append_of_not p g E acc
      (fun y hy => h y (List.mem_cons_of_mem _ hy)))

theorem putPerson_prepend (p : Person) (E acc : List Person)
    (h : ∀ q ∈ E, (q.id == p.id) = false) :
    putPerson p (E ++ acc) = E ++ putPerson p acc := by
  simp only [putPerson, List.any_append]
  have hE : E.any (fun q => q.id == p.id) = false := by
    rw [List.any_eq_false]
    intro x hx
    simp [h x hx]
  rw [hE, Bool.false_or]
  split
  · exact updateFirst_append_of_not _ _ E acc h
  · rw [List.append_assoc]

theorem foldPut_prepend :
    ∀ (P : List Person) (E acc : List Person),
      (∀ p ∈ P, ∀ q ∈ E, (q.id == p.id) = false) →
      P.foldl (fun a p => putPerson p a) (E ++ acc) =
        E ++ P.foldl (fun a p => putPerson p a) acc
  | [], _, _, _ => rfl
  | p :: P, E, acc, h => by
    simp only [List.foldl_cons]
    rw [putPerson_prepend p E acc (h p (List.mem_cons_self _ _))]
    exact foldPut_prepend P E (putPerson p acc)
      (fun p2 hp2 q hq => h p2 (List.mem_cons_of_mem _ hp2) q hq)

/-- An id minted by the uuid supply. -/
def FreshImg (s : String) : Prop := ∃ k, s = freshId k

theorem reP_id (d : Nat) (p : Person) : (reP d p).id = shiftId d p.id := rfl

theorem reP_id_beq (d : Nat) (p q : Person) (hp : FreshImg p.id)
    (hq : FreshImg q.id) :
    ((reP d q).id == (reP d p).id) = (q.id == p.id) := by
  obtain ⟨k, hk⟩ := hp
  obtain ⟨j, hj⟩ := hq
  by_cases h : q.id = p.id
  · rw [reP_id, reP_id, h]
    simp
  · have hjk : j ≠ k := fun e => h (by rw [hj, hk, e])
    have e1 : ((reP d q).id == (reP d p).id) = false := by
      rw [reP_id, reP_id, hj, hk, shiftId_freshId, shiftId_freshId]
      refine beq_eq_false_iff_ne.mpr (fun e => hjk ?_)
      have := freshId_inj _ _ e
      omega
    have e2 : (q.id == p.id) = false := beq_eq_false_iff_ne.mpr h
    rw [e1, e2]

theorem any_mem_congr : ∀ (l : List α) (f g : α → Bool),
    (∀ x ∈ l, f x = g x) → l.any f = l.any g
  | [], _, _, _ => rfl
  | x :: l, f, g, h => by
    simp only [List.any_cons]
    rw [h x (List.mem_cons_self _ _),
      any_mem_congr l f g (fun y hy => h y (List.mem_cons_of_mem _ hy))]

theorem updateFirst_put_map (d : Nat) (p : Person) :
    ∀ (acc : List Person),
      (∀ q ∈ acc, ((reP d q).id == (reP d p).id) = (q.id == p.id)) →
      updateFirst (fun q => q.id == (reP d p).id) (fun _ => reP d p)
          (acc.map (reP d)) =
        (updateFirst (fun q => q.id == p.id) (fun _ => p) acc).map (reP d)
  | [], _ => rfl
  | q :: acc, h => by
    have hq := h q (List.mem_cons_self _ _)
    simp only [List.map_cons, updateFirst, hq]
    by_cases hqp : (q.id == p.id) = true
    · rw [if_pos hqp, if_pos hqp]
      rfl
    · rw [if_neg hqp, if_neg hqp]
      rw [updateFirst_put_map d p acc
        (fun y hy => h y (List.mem_cons_of_mem _ hy))]
      rfl

theorem putPerson_map (d : Nat) (p : Person) (acc : List Person)
    (hp : FreshImg p.id) (hacc : ∀ q ∈ acc, FreshImg q.id) :
    putPerson (reP d p) (acc.map (reP d)) = (putPerson p acc).map (reP d) := by
  have hcong : ∀ q ∈ acc, ((reP d q).id == (reP d p).id) = (q.id == p.id) :=
    fun q hq => reP_id_beq d p q hp (hacc q hq)
  simp only [putPerson, List.any_map]
  have hany : (acc.any ((fun q => q.id == (reP d p).id) ∘ reP d)) =
      acc.any (fun q => q.id == p.id) :=
    any_mem_congr acc _ _ (fun q hq => hcong q hq)
  rw [hany]
  split
  · exact updateFirst_put_map d p acc hcong
  · rw [List.map_append]
    rfl

theorem foldPut_map (d : Nat) :
    ∀ (P acc : List Person),
      (∀ p ∈ P, FreshImg p.id) → (∀ q ∈ acc, FreshImg q.id) →
      (P.map (reP d)).foldl (fun a p => putPerson p a) (acc.map (reP d)) =
        (P.foldl (fun a p => putPerson p a) acc).map (reP d)
  | [], _, _, _ => rfl
  | p :: P, acc, hP, hacc => by
    simp only [List.map_cons, List.foldl_cons]
    rw [putPerson_map d p acc (hP p (List.mem_cons_self _ _)) hacc]
    refine foldPut_map d P (putPerson p acc)
      (fun p2 hp2 => hP p2 (List.mem_cons_of_mem _ hp2)) ?_
    intro q hq
    rcases putPerson_mem p acc q hq with rfl | h2
    · exact hP q (List.mem_cons_self _ _)
    · exact hacc q h2

theorem foldPut_prepend_nil (P E : List Person)
    (h : ∀ p ∈ P, ∀ q ∈ E, (q.id == p.id) = false) :
    P.foldl (fun a p => putPerson p a) E =
      E ++ P.foldl (fun a p => putPerson p a) [] := by
  have h2 := foldPut_prepend P E [] h
  rwa [List.append_nil] at h2

theorem foldPut_map_nil (d : Nat) (P : List Person)
    (hP : ∀ p ∈ P, FreshImg p.id) :
    (P.map (reP d)).foldl (fun a p => putPerson p a) [] =
      (P.foldl (fun a p => putPerson p a) []).map (reP d) := by
  have h2 := foldPut_map d P [] hP (fun q hq => absurd hq (List.not_mem_nil _))
  simpa using h2

/-- Two runs of the individual-parsing phase over the same records, the
second starting at the counter the first run's full import ended with:
the persisted second batch duplicates the first with disjoint ids. -/
theorem import_twice_core (I : List GNode) (c1 : Nat)
    (hc1 : (parseIndividuals 0 I (([], 0) : PState)).2.2 ≤ c1) :
    ∃ newPersons,
      (parseIndividuals 0 I (([], c1) : PState)).1.foldl
          (fun a p => putPerson p a)
          ((parseIndividuals 0 I (([], 0) : PState)).1.foldl
            (fun a p => putPerson p a) []) =
        ((parseIndividuals 0 I (([], 0) : PState)).1.foldl
          (fun a p => putPerson p a) []) ++ newPersons ∧
      newPersons.length =
        ((parseIndividuals 0 I (([], 0) : PState)).1.foldl
          (fun a p => putPerson p a) []).length ∧
      (∀ q ∈ newPersons,
        ∀ p ∈ ((parseIndividuals 0 I (([], 0) : PState)).1.foldl
          (fun a p => putPerson p a) []), q.id ≠ p.id) := by
  obtain ⟨_, _, hP1⟩ := parseIndividuals_range 0 0 I (([], 0) : PState)
    (Nat.le_refl _) (fun e he => absurd he (List.not_mem_nil _))
  have hP1R : ∀ p ∈ (parseIndividuals 0 I (([], 0) : PState)).1,
      ∃ k, k < c1 ∧ p.id = freshId k := by
    intro p hp
    obtain ⟨k, _, hk2, hk3⟩ := hP1 p hp
    exact ⟨k, by omega, hk3⟩
  have hshift := parseIndividuals_shift c1 0 I (([], 0) : PState)
  simp only [List.map_nil, Nat.zero_add] at hshift
  have hP2 : (parseIndividuals 0 I (([], c1) : PState)).1 =
      (parseIndividuals 0 I (([], 0) : PState)).1.map (reP c1) := by
    rw [hshift]
  have hEsub : ∀ q ∈ ((parseIndividuals 0 I (([], 0) : PState)).1.foldl
      (fun a p => putPerson p a) []), ∃ k, k < c1 ∧ q.id = freshId k := by
    intro q hq
    rcases foldPut_mem _ [] q hq with h2 | h2
    · exact absurd h2 (List.not_mem_nil _)
    · exact hP1R q h2
  have hfresh : ∀ p ∈ (parseIndividuals 0 I (([], 0) : PState)).1, FreshImg p.id :=
    fun p hp => (hP1R p hp).elim (fun k hk => ⟨k, hk.2⟩)
  have hdisj : ∀ p2 ∈ (parseIndividuals 0 I (([], 0) : PState)).1.map (reP c1),
      ∀ q ∈ ((parseIndividuals 0 I (([], 0) : PState)).1.foldl
        (fun a p => putPerson p a) []), (q.id == p2.id) = false := by
    intro p2 hp2 q hq
    rcases List.mem_map.mp hp2 with ⟨p, hp, rfl⟩
    obtain ⟨k, hk1, hk2⟩ := hP1R p hp
    obtain ⟨k2, hq1, hq2⟩ := hEsub q hq
    rw [reP_id, hk2, shiftId_freshId, hq2]
    refine beq_eq_false_iff_ne.mpr (fun e => ?_)
    have := freshId_inj _ _ e
    omega
  refine ⟨((parseIndividuals 0 I (([], 0) : PState)).1.foldl
    (fun a p => putPerson p a) []).map (reP c1), ?_, by simp, ?_⟩
  · rw [hP2, foldPut_prepend_nil _ _ hdisj, foldPut_map_nil c1 _ hfresh]
  · intro q hq p hp
    rcases List.mem_map.mp hq with ⟨q0, hq0, rfl⟩
    obtain ⟨k, hk1, hk2⟩ := hEsub q0 hq0
    obtain ⟨k2, hp1, hp2⟩ := hEsub p hp
    rw [reP_id, hk2, shiftId_freshId, hp2]
    intro e
    have := freshId_inj _ _ e
    omega

/-- `import_twice_core` with the second run's counter written as the full
first import leaves it, plus the doubling consequence. -/
theorem import_twice_core2 (I F : List GNode) :
    ∃ newPersons,
      (parseIndividuals 0 I
          (([], (parseFamilies 0 F
            (parseIndividuals 0 I (([], 0) : PState)).2).2.2) : PState)).1.foldl
        (fun a p => putPerson p a)
        ((parseIndividuals 0 I (([], 0) : PState)).1.foldl
          (fun a p => putPerson p a) []) =
      ((parseIndividuals 0 I (([], 0) : PState)).1.foldl
        (fun a p => putPerson p a) []) ++ newPersons ∧
      newPersons.length =
        ((parseIndividuals 0 I (([], 0) : PState)).1.foldl
          (fun a p => putPerson p a) []).length ∧
      (∀ q ∈ newPersons,
        ∀ p ∈ ((parseIndividuals 0 I (([], 0) : PState)).1.foldl
          (fun a p => putPerson p a) []), q.id ≠ p.id) ∧
      ((parseIndividuals 0 I
          (([], (parseFamilies 0 F
            (parseIndividuals 0 I (([], 0) : PState)).2).2.2) : PState)).1.foldl
        (fun a p => putPerson p a)
        ((parseIndividuals 0 I (([], 0) : PState)).1.foldl
          (fun a p => putPerson p a) [])).length =
      2 * ((parseIndividuals 0 I (([], 0) : PState)).1.foldl
        (fun a p => putPerson p a) []).length := by
  obtain ⟨np, h1, h2, h3⟩ := import_twice_core I
    (parseFamilies 0 F (parseIndividuals 0 I (([], 0) : PState)).2).2.2
    (parseFamilies_counter 0 F _)
  refine ⟨np, h1, h2, h3, ?_⟩
  rw [h1, List.length_append, h2]
  omega

/-- C8: the pointer→id map is reset at the start of every import, so
an import of the same document twice mints disjoint person id sets and
the stored person count after the second import is double the count
after the first. -/
theorem pointer_map_scoping (doc : String) :
    ∃ newPersons,
      (importGedcom doc (importGedcom doc ({} : Db)).2).2.persons =
        (importGedcom doc ({} : Db)).2.persons ++ newPersons ∧
      newPersons.length = (importGedcom doc ({} : Db)).2.persons.length ∧
      (∀ q ∈ newPersons,
        ∀ p ∈ (importGedcom doc ({} : Db)).2.persons, q.id ≠ p.id) ∧
      (importGedcom doc (importGedcom doc ({} : Db)).2).2.persons.length =
        2 * (importGedcom doc ({} : Db)).2.persons.length := by
  simp only [importGedcom]
  exact import_twice_core2 _ _

/-! ### C1 — GEDCOM round-trip -/

/-- C1 counterexample: a document whose only tags are the recognized
`FAM` and `HUSB`, with a husband pointer that names no individual
record.  The first import stores a family with a (freshly minted)
`spouse1Id`; the export skips the dangling spouse reference (`HUSB` is
only emitted when the id is still in the pointer map), so re-importing
the exported document yields a family whose `spouse1Id` is absent — the
spouse-link values of the two imports differ. -/
theorem gedcom_roundtrip_counterexample :
    ((importGedcom "0 @F1@ FAM\n1 HUSB @I9@" {}).2.families.map
      (fun f => f.spouse1Id.isSome)) = [true] ∧
    ((importGedcom (exportGedcom (importGedcom "0 @F1@ FAM\n1 HUSB @I9@" {}).2)
        {}).2.families.map (fun f => f.spouse1Id.isSome)) = [false] :=
  ⟨by decide, by decide⟩

theorem splitOnChar_no_sep (sep : Char) :
    ∀ cs : List Char, sep ∉ cs → splitOnChar sep cs = [cs]
  | [], _ => rfl
  | c :: cs, h => by
    have hc : ¬ c = sep := fun e => h (e ▸ List.mem_cons_self _ _)
    simp only [splitOnChar]
    rw [if_neg hc, splitOnChar_no_sep sep cs (fun hm => h (List.mem_cons_of_mem _ hm))]

theorem splitOnChar_append_sep (sep : Char) :
    ∀ (a rest : List Char), sep ∉ a →
      splitOnChar sep (a ++ sep :: rest) = a :: splitOnChar sep rest
  | [], rest, _ => by simp [splitOnChar]
  | c :: a, rest, h => by
    have hc : ¬ c = sep := fun e => h (e ▸ List.mem_cons_self _ _)
    have ih := splitOnChar_append_sep sep a rest
      (fun hm => h (List.mem_cons_of_mem _ hm))
    simp only [List.cons_append, splitOnChar, if_neg hc, List.append_eq, ih]

theorem joinNL_split : ∀ (l : String) (ls : List String),
    (∀ x ∈ l :: ls, '\n' ∉ x.data) →
    splitOnChar '\n' (joinNL (l :: ls)).data = (l :: ls).map String.data
  | l, [], h => by
    simp only [joinNL]
    rw [splitOnChar_no_sep '\n' l.data (h l (List.mem_cons_self _ _))]
    rfl
  | l, l2 :: ls, h => by
    simp only [joinNL, String.data_append]
    have hshape : (l.data ++ "\n".data) ++ (joinNL (l2 :: ls)).data =
        l.data ++ '\n' :: (joinNL (l2 :: ls)).data := by
      rw [List.append_assoc]
      rfl
    rw [hshape,
      splitOnChar_append_sep '\n' l.data _ (h l (List.mem_cons_self _ _)),
      joinNL_split l2 ls (fun x hx => h x (List.mem_cons_of_mem _ hx))]
    rfl

theorem breakSpace_no_space : ∀ cs : List Char, ' ' ∉ cs →
    breakSpace cs = (cs, none)
  | [], _ => rfl
  | c :: cs, h => by
    have hc : ¬ c = ' ' := fun e => h (e ▸ List.mem_cons_self _ _)
    simp only [breakSpace]
    rw [if_neg hc, breakSpace_no_space cs (fun hm => h (List.mem_cons_of_mem _ hm))]

theorem breakSpace_space : ∀ (a b : List Char), ' ' ∉ a →
    breakSpace (a ++ ' ' :: b) = (a, some b)
  | [], b, _ => by simp [breakSpace]
  | c :: a, b, h => by
    have hc : ¬ c = ' ' := fun e => h (e ▸ List.mem_cons_self _ _)
    have ih := breakSpace_space a b (fun hm => h (List.mem_cons_of_mem _ hm))
    simp only [List.cons_append, breakSpace, if_neg hc, List.append_eq, ih]

theorem string_mk_data : ∀ s : String, String.mk s.data = s
  | ⟨_⟩ => rfl

theorem mkData_some : ∀ cs : List Char, cs ≠ [] →
    mkData (some cs) = some (String.mk cs)
  | [], h => absurd rfl h
  | _ :: _, _ => rfl

/-- Parse a `LEVEL TAG` line without data. -/
theorem parseLine_tag (lv : Char) (v : Nat) (hlv : charsToNat? [lv] = some v)
    (hlvsp : ¬ lv = ' ') (tag : String) (htne : tag.data ≠ [])
    (htsp : ' ' ∉ tag.data) (htat : ¬ tag.data.head? = some '@') :
    parseLine (lv :: ' ' :: tag.data) = some ⟨v, none, tag, none⟩ := by
  have hb0 : breakSpace (lv :: ' ' :: tag.data) = ([lv], some tag.data) :=
    breakSpace_space [lv] tag.data (by simp [Ne.symm hlvsp])
  have hb1 := breakSpace_no_space tag.data htsp
  simp only [parseLine, hb0, hlv, hb1]
  rw [if_neg htat, if_neg htne, string_mk_data]
  rfl

/-- Parse a `LEVEL TAG DATA` line; the data is the rest of the line,
verbatim. -/
theorem parseLine_tag_data (lv : Char) (v : Nat)
    (hlv : charsToNat? [lv] = some v) (hlvsp : ¬ lv = ' ') (tag : String)
    (htne : tag.data ≠ []) (htsp : ' ' ∉ tag.data)
    (htat : ¬ tag.data.head? = some '@') (ds : List Char) :
    parseLine (lv :: ' ' :: (tag.data ++ ' ' :: ds)) =
      some ⟨v, none, tag, mkData (some ds)⟩ := by
  have hb0 : breakSpace (lv :: ' ' :: (tag.data ++ ' ' :: ds)) =
      ([lv], some (tag.data ++ ' ' :: ds)) :=
    breakSpace_space [lv] _ (by simp [Ne.symm hlvsp])
  have hb1 := breakSpace_space tag.data ds htsp
  simp only [parseLine, hb0, hlv, hb1]
  rw [if_neg htat, if_neg htne, string_mk_data]

/-- Parse a `0 @PTR@ TAG` record-opening line. -/
theorem parseLine_ptr (ptr : String) (hat : ptr.data.head? = some '@')
    (hpsp : ' ' ∉ ptr.data) (tag : String) (htne : tag.data ≠ [])
    (htsp : ' ' ∉ tag.data) :
    parseLine ('0' :: ' ' :: (ptr.data ++ ' ' :: tag.data)) =
      some ⟨0, some ptr, tag, none⟩ := by
  have hb0 : breakSpace ('0' :: ' ' :: (ptr.data ++ ' ' :: tag.data)) =
      (['0'], some (ptr.data ++ ' ' :: tag.data)) :=
    breakSpace_space ['0'] _ (by simp)
  have h0 : charsToNat? ['0'] = some 0 := by decide
  have hb1 := breakSpace_space ptr.data tag.data hpsp
  have hb2 := breakSpace_no_space tag.data htsp
  simp only [parseLine, hb0, h0, hb1]
  rw [if_pos hat]
  simp only [hb2]
  rw [if_neg htne, string_mk_data, string_mk_data]
  rfl

theorem takeWhile_length_le (p : α → Bool) :
    ∀ l : List α, (l.takeWhile p).length ≤ l.length
  | [] => Nat.le_refl _
  | x :: l => by
    simp only [List.takeWhile_cons]
    split
    · exact Nat.succ_le_succ (takeWhile_length_le p l)
    · exact Nat.zero_le _

theorem dropWhile_length_le (p : α → Bool) :
    ∀ l : List α, (l.dropWhile p).length ≤ l.length
  | [] => Nat.le_refl _
  | x :: l => by
    simp only [List.dropWhile_cons]
    split
    · exact Nat.le_trans (dropWhile_length_le p l) (Nat.le_succ _)
    · exact Nat.le_refl _

theorem buildForest_stable : ∀ (fuel fuel2 lvl : Nat) (ls : List PLine),
    ls.length ≤ fuel → ls.length ≤ fuel2 →
    buildForest fuel lvl ls = buildForest fuel2 lvl ls
  | 0, 0, _, _, _, _ => rfl
  | 0, _ + 1, _, ls, h1, _ => by
    have h : ls = [] := List.length_eq_zero.mp (Nat.le_zero.mp h1)
    subst h
    rfl
  | _ + 1, 0, _, ls, _, h2 => by
    have h : ls = [] := List.length_eq_zero.mp (Nat.le_zero.mp h2)
    subst h
    rfl
  | _ + 1, _ + 1, _, [], _, _ => rfl
  | fuel + 1, fuel2 + 1, lvl, p :: rest, h1, h2 => by
    have hr1 : rest.length ≤ fuel := by
      simp only [List.length_cons] at h1
      omega
    have hr2 : rest.length ≤ fuel2 := by
      simp only [List.length_cons] at h2
      omega
    have htake := takeWhile_length_le (fun q => decide (lvl < q.level)) rest
    have hdrop := dropWhile_length_le (fun q => decide (lvl < q.level)) rest
    simp only [buildForest]
    split
    · rw [buildForest_stable fuel fuel2 (lvl + 1)
        (rest.takeWhile (fun q => decide (lvl < q.level))) (by omega) (by omega),
        buildForest_stable fuel fuel2 lvl
        (rest.dropWhile (fun q => decide (lvl < q.level))) (by omega) (by omega)]
    · exact buildForest_stable fuel fuel2 lvl rest hr1 hr2

/-- The forest of a line list, with just enough fuel. -/
def bf (lvl : Nat) (ls : List PLine) : List GNode :=
  buildForest ls.length lvl ls

theorem buildForest_eq_bf (fuel lvl : Nat) (ls : List PLine)
    (h : ls.length ≤ fuel) : buildForest fuel lvl ls = bf lvl ls :=
  buildForest_stable fuel ls.length lvl ls h (Nat.le_refl _)

theorem takeWhile_append_all (p : α → Bool) :
    ∀ (A B : List α), (∀ a ∈ A, p a = true) →
      (∀ b, B.head? = some b → p b = false) →
      (A ++ B).takeWhile p = A ∧ (A ++ B).dropWhile p = B
  | [], B, _, hB => by
    cases B with
    | nil => exact ⟨rfl, rfl⟩
    | cons b bs =>
      have hb := hB b rfl
      constructor
      · simp [List.takeWhile_cons, hb]
      · simp [List.dropWhile_cons, hb]
  | a :: A, B, hA, hB => by
    have ha := hA a (List.mem_cons_self _ _)
    obtain ⟨ht, hd⟩ := takeWhile_append_all p A B
      (fun x hx => hA x (List.mem_cons_of_mem _ hx)) hB
    constructor
    · simp [List.takeWhile_cons, ha, ht]
    · simp [List.dropWhile_cons, ha, hd]

/-- `B` may follow a completed forest at `lvl`: it is empty or starts at
level at most `lvl`. -/
def headOK (lvl : Nat) (L : List PLine) : Prop :=
  ∀ b, L.head? = some b → b.level ≤ lvl

theorem bf_cons_block (lvl : Nat) (p : PLine) (A B : List PLine)
    (hp : p.level = lvl) (hA : ∀ q ∈ A, lvl < q.level) (hB : headOK lvl B) :
    bf lvl (p :: A ++ B) =
      GNode.mk p.tag p.pointer p.data (bf (lvl + 1) A) :: bf lvl B := by
  obtain ⟨ht, hd⟩ := takeWhile_append_all (fun q => decide (lvl < q.level)) A B
    (fun a ha => by simp [hA a ha])
    (fun b hb => by
      simp only [decide_eq_false_iff_not, Nat.not_lt]
      exact hB b hb)
  have hlen : (p :: A ++ B).length = (A ++ B).length + 1 := by simp
  show buildForest (p :: A ++ B).length lvl (p :: A ++ B) = _
  rw [hlen]
  simp only [buildForest, List.append_eq, ht, hd]
  rw [if_pos hp,
    buildForest_eq_bf (A ++ B).length (lvl + 1) A (by simp),
    buildForest_eq_bf (A ++ B).length lvl B (by simp)]

theorem bf_leaf_row (lvl : Nat) : ∀ (L : List PLine),
    (∀ q ∈ L, q.level = lvl) →
    bf lvl L = L.map (fun q => GNode.mk q.tag q.pointer q.data [])
  | [], _ => rfl
  | q :: L, h => by
    have hq := h q (List.mem_cons_self _ _)
    have hB : headOK lvl L := by
      intro b hb
      cases L with
      | nil => simp at hb
      | cons x xs =>
        have hbx : x = b := by simpa using hb
        rw [← hbx]
        exact Nat.le_of_eq (h x (List.mem_cons_of_mem _ (List.mem_cons_self _ _)))
    have hstep := bf_cons_block lvl q [] L hq
      (fun x hx => absurd hx (List.not_mem_nil _)) hB
    simp only [List.singleton_append] at hstep
    rw [hstep, bf_leaf_row lvl L (fun x hx => h x (List.mem_cons_of_mem _ hx))]
    rfl

/-- A well-formed segment of a forest row at `lvl`: empty, or one block
whose head sits at `lvl` and whose remaining lines sit strictly below. -/
def SegOK (lvl : Nat) (seg : List PLine) : Prop :=
  seg = [] ∨ ∃ p A, seg = p :: A ∧ p.level = lvl ∧ ∀ q ∈ A, lvl < q.level

theorem headOK_nil (lvl : Nat) : headOK lvl ([] : List PLine) := by
  intro b hb
  simp at hb

theorem headOK_append (lvl : Nat) (X Y : List PLine)
    (hX : headOK lvl X) (hY : headOK lvl Y) : headOK lvl (X ++ Y) := by
  intro b hb
  cases X with
  | nil => exact hY b hb
  | cons x xs => exact hX b (by simpa using hb)

theorem headOK_of_SegOK (lvl : Nat) (seg : List PLine) (h : SegOK lvl seg) :
    headOK lvl seg := by
  rcases h with rfl | ⟨p, A, rfl, hp, _⟩
  · exact headOK_nil lvl
  · intro b hb
    have hbp : p = b := by simpa using hb
    rw [← hbp]
    exact Nat.le_of_eq hp

theorem SegOK_ite (lvl : Nat) (c : Prop) [Decidable c] (S : List PLine)
    (hS : SegOK lvl S) : SegOK lvl (if c then S else []) := by
  split
  · exact hS
  · exact Or.inl rfl

theorem bf_seg_append (lvl : Nat) (seg rest : List PLine)
    (hseg : SegOK lvl seg) (hrest : headOK lvl rest) :
    bf lvl (seg ++ rest) = bf lvl seg ++ bf lvl rest := by
  rcases hseg with rfl | ⟨p, A, rfl, hp, hA⟩
  · rfl
  · rw [show (p :: A) ++ rest = p :: A ++ rest from rfl,
      bf_cons_block lvl p A rest hp hA hrest]
    have hsingle := bf_cons_block lvl p A [] hp hA (headOK_nil lvl)
    simp only [List.append_nil] at hsingle
    rw [hsingle]
    rfl

/-- A two-level forest none of whose nodes is a collectable record:
every node and child is neither INDI nor FAM, and grandchildren are
leaves. -/
def Depth2 (ns : List GNode) : Prop :=
  ∀ m ∈ ns, ¬ m.tag = "INDI" ∧ ¬ m.tag = "FAM" ∧
    (∀ g ∈ m.children, ¬ g.tag = "INDI" ∧ ¬ g.tag = "FAM" ∧ g.children = [])

theorem collect_leaf_row : ∀ (fuel : Nat) (ns : List GNode)
    (acc : List GNode × List GNode),
    (∀ n ∈ ns, ¬ n.tag = "INDI" ∧ ¬ n.tag = "FAM" ∧ n.children = []) →
    collectRecords fuel ns acc = acc
  | fuel, [], acc, _ => by cases fuel <;> rfl
  | 0, n :: rest, acc, h => by
    obtain ⟨h1, h2, h3⟩ := h n (List.mem_cons_self _ _)
    have hbI : (n.tag == "INDI" && truthy n.pointer) = false := by
      rw [beq_eq_false_iff_ne.mpr h1, Bool.false_and]
    have hbF : (n.tag == "FAM" && truthy n.pointer) = false := by
      rw [beq_eq_false_iff_ne.mpr h2, Bool.false_and]
    show collectForest _ (n :: rest) acc = acc
    simp only [collectForest, hbI, hbF, Bool.false_eq_true, if_false, h3,
      List.isEmpty_nil, if_true]
    exact collect_leaf_row 0 rest acc
      (fun m hm => h m (List.mem_cons_of_mem _ hm))
  | fuel + 1, n :: rest, acc, h => by
    obtain ⟨h1, h2, h3⟩ := h n (List.mem_cons_self _ _)
    have hbI : (n.tag == "INDI" && truthy n.pointer) = false := by
      rw [beq_eq_false_iff_ne.mpr h1, Bool.false_and]
    have hbF : (n.tag == "FAM" && truthy n.pointer) = false := by
      rw [beq_eq_false_iff_ne.mpr h2, Bool.false_and]
    show collectForest _ (n :: rest) acc = acc
    simp only [collectForest, hbI, hbF, Bool.false_eq_true, if_false, h3,
      List.isEmpty_nil, if_true]
    exact collect_leaf_row (fuel + 1) rest acc
      (fun m hm => h m (List.mem_cons_of_mem _ hm))

theorem collect_row_safe : ∀ (fuel : Nat) (ns : List GNode)
    (acc : List GNode × List GNode),
    Depth2 ns → collectRecords fuel ns acc = acc
  | fuel, [], acc, _ => by cases fuel <;> rfl
  | 0, n :: rest, acc, h => by
    obtain ⟨h1, h2, _⟩ := h n (List.mem_cons_self _ _)
    have hbI : (n.tag == "INDI" && truthy n.pointer) = false := by
      rw [beq_eq_false_iff_ne.mpr h1, Bool.false_and]
    have hbF : (n.tag == "FAM" && truthy n.pointer) = false := by
      rw [beq_eq_false_iff_ne.mpr h2, Bool.false_and]
    show collectForest _ (n :: rest) acc = acc
    simp only [collectForest, hbI, hbF, Bool.false_eq_true, if_false]
    have hacc2 : (if n.children.isEmpty = true then acc else acc) = acc := by
      split <;> rfl
    rw [hacc2]
    exact collect_row_safe 0 rest acc
      (fun m hm => h m (List.mem_cons_of_mem _ hm))
  | fuel + 1, n :: rest, acc, h => by
    obtain ⟨h1, h2, h3⟩ := h n (List.mem_cons_self _ _)
    have hbI : (n.tag == "INDI" && truthy n.pointer) = false := by
      rw [beq_eq_false_iff_ne.mpr h1, Bool.false_and]
    have hbF : (n.tag == "FAM" && truthy n.pointer) = false := by
      rw [beq_eq_false_iff_ne.mpr h2, Bool.false_and]
    show collectForest _ (n :: rest) acc = acc
    simp only [collectForest, hbI, hbF, Bool.false_eq_true, if_false]
    have hacc2 : (if n.children.isEmpty = true then acc
        else collectRecords fuel n.children acc) = acc := by
      split
      · rfl
      · exact collect_leaf_row fuel n.children acc h3
    rw [hacc2]
    exact collect_row_safe (fuel + 1) rest acc
      (fun m hm => h m (List.mem_cons_of_mem _ hm))

/-- A non-record node with safe children is skipped. -/
theorem collect_plain_cons (fuel : Nat) (n : GNode) (rest : List GNode)
    (acc : List GNode × List GNode) (h1 : ¬ n.tag = "INDI")
    (h2 : ¬ n.tag = "FAM") (hkids : Depth2 n.children) :
    collectRecords (fuel + 1) (n :: rest) acc =
      collectRecords (fuel + 1) rest acc := by
  have hbI : (n.tag == "INDI" && truthy n.pointer) = false := by
    rw [beq_eq_false_iff_ne.mpr h1, Bool.false_and]
  have hbF : (n.tag == "FAM" && truthy n.pointer) = false := by
    rw [beq_eq_false_iff_ne.mpr h2, Bool.false_and]
  show collectForest _ (n :: rest) acc = _
  simp only [collectForest, hbI, hbF, Bool.false_eq_true, if_false]
  have hacc2 : (if n.children.isEmpty = true then acc
      else collectRecords fuel n.children acc) = acc := by
    split
    · rfl
    · exact collect_row_safe fuel n.children acc hkids
  rw [hacc2]
  rfl

/-- An INDI record node with safe children is pushed and skipped over. -/
theorem collect_indi_cons (fuel : Nat) (n : GNode) (rest : List GNode)
    (acc : List GNode × List GNode) (htag : n.tag = "INDI")
    (hptr : truthy n.pointer = true) (hkids : Depth2 n.children) :
    collectRecords (fuel + 1) (n :: rest) acc =
      collectRecords (fuel + 1) rest (acc.1 ++ [n], acc.2) := by
  have hbI : (n.tag == "INDI" && truthy n.pointer) = true := by
    rw [htag]
    simp [hptr]
  show collectForest _ (n :: rest) acc = _
  simp only [collectForest, hbI, if_true]
  have hacc2 : (if n.children.isEmpty = true
        then ((acc.1 ++ [n], acc.2) : List GNode × List GNode)
      else collectRecords fuel n.children (acc.1 ++ [n], acc.2)) =
      (acc.1 ++ [n], acc.2) := by
    split
    · rfl
    · exact collect_row_safe fuel n.children _ hkids
  rw [hacc2]
  rfl

/-- A FAM record node with safe children is pushed and skipped over. -/
theorem collect_fam_cons (fuel : Nat) (n : GNode) (rest : List GNode)
    (acc : List GNode × List GNode) (htag : n.tag = "FAM")
    (hntag : ¬ n.tag = "INDI")
    (hptr : truthy n.pointer = true) (hkids : Depth2 n.children) :
    collectRecords (fuel + 1) (n :: rest) acc =
      collectRecords (fuel + 1) rest (acc.1, acc.2 ++ [n]) := by
  have hbI : (n.tag == "INDI" && truthy n.pointer) = false := by
    rw [beq_eq_false_iff_ne.mpr hntag, Bool.false_and]
  have hbF : (n.tag == "FAM" && truthy n.pointer) = true := by
    rw [htag]
    simp [hptr]
  show collectForest _ (n :: rest) acc = _
  simp only [collectForest, hbI, hbF, Bool.false_eq_true, if_false, if_true]
  have hacc2 : (if n.children.isEmpty = true
        then ((acc.1, acc.2 ++ [n]) : List GNode × List GNode)
      else collectRecords fuel n.children (acc.1, acc.2 ++ [n])) =
      (acc.1, acc.2 ++ [n]) := by
    split
    · rfl
    · exact collect_row_safe fuel n.children _ hkids
  rw [hacc2]
  rfl

theorem collect_indi_row (fuel : Nat) :
    ∀ (ns rest : List GNode) (acc : List GNode × List GNode),
    (∀ n ∈ ns, n.tag = "INDI" ∧ truthy n.pointer = true ∧ Depth2 n.children) →
    collectRecords (fuel + 1) (ns ++ rest) acc =
      collectRecords (fuel + 1) rest (acc.1 ++ ns, acc.2)
  | [], rest, acc, _ => by simp
  | n :: ns, rest, acc, h => by
    obtain ⟨h1, h2, h3⟩ := h n (List.mem_cons_self _ _)
    rw [List.cons_append, collect_indi_cons fuel n (ns ++ rest) acc h1 h2 h3,
      collect_indi_row fuel ns rest (acc.1 ++ [n], acc.2)
        (fun m hm => h m (List.mem_cons_of_mem _ hm))]
    simp

theorem collect_fam_row (fuel : Nat) :
    ∀ (ns rest : List GNode) (acc : List GNode × List GNode),
    (∀ n ∈ ns, n.tag = "FAM" ∧ ¬ n.tag = "INDI" ∧ truthy n.pointer = true ∧
      Depth2 n.children) →
    collectRecords (fuel + 1) (ns ++ rest) acc =
      collectRecords (fuel + 1) rest (acc.1, acc.2 ++ ns)
  | [], rest, acc, _ => by simp
  | n :: ns, rest, acc, h => by
    obtain ⟨h1, h1b, h2, h3⟩ := h n (List.mem_cons_self _ _)
    rw [List.cons_append, collect_fam_cons fuel n (ns ++ rest) acc h1 h1b h2 h3,
      collect_fam_row fuel ns rest (acc.1, acc.2 ++ [n])
        (fun m hm => h m (List.mem_cons_of_mem _ hm))]
    simp

theorem collect_nil (fuel : Nat) (acc : List GNode × List GNode) :
    collectRecords fuel [] acc = acc := by
  cases fuel <;> rfl

/-- Decimal value of a digit string (left inverse of `natDigits`). -/
def digitsVal (cs : List Char) : Nat :=
  cs.foldl (fun a c => a * 10 + (c.toNat - 48)) 0

theorem natDigits_val : ∀ (fuel n : Nat), n ≤ fuel →
    digitsVal (natDigits fuel n) = n
  | 0, n, h => by
    have h0 : n = 0 := Nat.le_zero.mp h
    subst h0
    rfl
  | fuel + 1, n, h => by
    by_cases h0 : n = 0
    · subst h0
      rfl
    · simp only [natDigits, if_neg h0]
      have hlt : n / 10 < n := Nat.div_lt_self (by omega) (by omega)
      have ih := natDigits_val fuel (n / 10) (by omega)
      have hdd : ∀ d : Fin 10, (Char.ofNat (48 + d.val)).toNat = 48 + d.val := by
        decide
      have h10 : (Char.ofNat (48 + n % 10)).toNat = 48 + n % 10 :=
        hdd ⟨n % 10, Nat.mod_lt n (by omega)⟩
      simp only [digitsVal, List.foldl_append, List.foldl_cons, List.foldl_nil]
      simp only [digitsVal] at ih
      rw [ih, h10]
      omega

theorem natRepr_inj (m n : Nat) (h : natRepr m = natRepr n) : m = n := by
  have hval0 : digitsVal ("0".data) = 0 := by decide
  have hdata := congrArg String.data h
  by_cases hm : m = 0 <;> by_cases hn : n = 0
  · rw [hm, hn]
  · exfalso
    rw [hm] at hdata
    simp only [natRepr, if_pos rfl, if_neg hn, if_true, eq_self_iff_true] at hdata
    have hv := congrArg digitsVal hdata
    rw [hval0, natDigits_val (n + 1) n (Nat.le_succ _)] at hv
    exact hn hv.symm
  · exfalso
    rw [hn] at hdata
    simp only [natRepr, if_pos rfl, if_neg hm, if_true, eq_self_iff_true] at hdata
    have hv := congrArg digitsVal hdata
    rw [hval0, natDigits_val (m + 1) m (Nat.le_succ _)] at hv
    exact hm hv
  · simp only [natRepr, if_neg hm, if_neg hn] at hdata
    have hv := congrArg digitsVal hdata
    rw [natDigits_val (m + 1) m (Nat.le_succ _),
      natDigits_val (n + 1) n (Nat.le_succ _)] at hv
    exact hv

/-- The `@In@` pointer of the `n`-th exported person (0-based). -/
def ptrI (k : Nat) : String := "@I" ++ natRepr (k + 1) ++ "@"

/-- The `@Fn@` pointer of the `n`-th exported family (0-based). -/
def ptrF (k : Nat) : String := "@F" ++ natRepr (k + 1) ++ "@"

theorem natDigits_digits : ∀ (fuel n : Nat), ∀ c ∈ natDigits fuel n,
    48 ≤ c.toNat ∧ c.toNat ≤ 57
  | 0, _, c, hc => absurd hc (List.not_mem_nil _)
  | fuel + 1, n, c, hc => by
    by_cases h0 : n = 0
    · rw [h0] at hc
      simp [natDigits] at hc
    · simp only [natDigits, if_neg h0] at hc
      rcases List.mem_append.mp hc with h1 | h2
      · exact natDigits_digits fuel (n / 10) c h1
      · have hdd : ∀ d : Fin 10, 48 ≤ (Char.ofNat (48 + d.val)).toNat ∧
            (Char.ofNat (48 + d.val)).toNat ≤ 57 := by decide
        have hc2 : c = Char.ofNat (48 + n % 10) := by simpa using h2
        rw [hc2]
        exact hdd ⟨n % 10, Nat.mod_lt n (by omega)⟩

theorem natRepr_chars (n : Nat) : ∀ c ∈ (natRepr n).data,
    48 ≤ c.toNat ∧ c.toNat ≤ 57 := by
  intro c hc
  by_cases h0 : n = 0
  · rw [h0] at hc
    have h1 : (natRepr 0).data = ['0'] := rfl
    rw [h1] at hc
    have : c = '0' := by simpa using hc
    rw [this]
    decide
  · simp only [natRepr, if_neg h0] at hc
    exact natDigits_digits (n + 1) n c hc

theorem ptrI_data (k : Nat) :
    (ptrI k).data = '@' :: 'I' :: ((natRepr (k + 1)).data ++ ['@']) := by
  simp [ptrI, String.data_append]

theorem ptrF_data (k : Nat) :
    (ptrF k).data = '@' :: 'F' :: ((natRepr (k + 1)).data ++ ['@']) := by
  simp [ptrF, String.data_append]

theorem ptrI_head (k : Nat) : (ptrI k).data.head? = some '@' := by
  rw [ptrI_data]
  rfl

theorem ptrF_head (k : Nat) : (ptrF k).data.head? = some '@' := by
  rw [ptrF_data]
  rfl

theorem ptrI_chars (k : Nat) : ∀ c ∈ (ptrI k).data,
    c = '@' ∨ c = 'I' ∨ (48 ≤ c.toNat ∧ c.toNat ≤ 57) := by
  intro c hc
  rw [ptrI_data] at hc
  rcases List.mem_cons.mp hc with rfl | hc2
  · exact Or.inl rfl
  rcases List.mem_cons.mp hc2 with rfl | hc3
  · exact Or.inr (Or.inl rfl)
  rcases List.mem_append.mp hc3 with h4 | h5
  · exact Or.inr (Or.inr (natRepr_chars (k + 1) c h4))
  · have : c = '@' := by simpa using h5
    exact Or.inl this

theorem ptrF_chars (k : Nat) : ∀ c ∈ (ptrF k).data,
    c = '@' ∨ c = 'F' ∨ (48 ≤ c.toNat ∧ c.toNat ≤ 57) := by
  intro c hc
  rw [ptrF_data] at hc
  rcases List.mem_cons.mp hc with rfl | hc2
  · exact Or.inl rfl
  rcases List.mem_cons.mp hc2 with rfl | hc3
  · exact Or.inr (Or.inl rfl)
  rcases List.mem_append.mp hc3 with h4 | h5
  · exact Or.inr (Or.inr (natRepr_chars (k + 1) c h4))
  · have : c = '@' := by simpa using h5
    exact Or.inl this

theorem ptrI_no_space (k : Nat) : ' ' ∉ (ptrI k).data := by
  intro hc
  rcases ptrI_chars k ' ' hc with h | h | h
  · exact absurd h (by decide)
  · exact absurd h (by decide)
  · have : (' ' : Char).toNat = 32 := by decide
    omega

theorem ptrF_no_space (k : Nat) : ' ' ∉ (ptrF k).data := by
  intro hc
  rcases ptrF_chars k ' ' hc with h | h | h
  · exact absurd h (by decide)
  · exact absurd h (by decide)
  · have : (' ' : Char).toNat = 32 := by decide
    omega

theorem ptrI_no_nl (k : Nat) : '\n' ∉ (ptrI k).data := by
  intro hc
  rcases ptrI_chars k '\n' hc with h | h | h
  · exact absurd h (by decide)
  · exact absurd h (by decide)
  · have : ('\n' : Char).toNat = 10 := by decide
    omega

theorem ptrF_no_nl (k : Nat) : '\n' ∉ (ptrF k).data := by
  intro hc
  rcases ptrF_chars k '\n' hc with h | h | h
  · exact absurd h (by decide)
  · exact absurd h (by decide)
  · have : ('\n' : Char).toNat = 10 := by decide
    omega

theorem append_singleton_inj (x y : List Char) (c : Char)
    (h : x ++ [c] = y ++ [c]) : x = y := by
  have hr := congrArg List.reverse h
  simp only [List.reverse_append, List.reverse_cons, List.reverse_nil,
    List.nil_append, List.singleton_append] at hr
  injection hr with _ h2
  have := congrArg List.reverse h2
  simpa using this

theorem ptrI_inj (i j : Nat) (h : ptrI i = ptrI j) : i = j := by
  have hd := congrArg String.data h
  rw [ptrI_data, ptrI_data] at hd
  injection hd with _ hd2
  injection hd2 with _ hd3
  have hr := append_singleton_inj _ _ _ hd3
  have := natRepr_inj (i + 1) (j + 1) (string_eq_of_data _ _ hr)
  omega

theorem ptrF_inj (i j : Nat) (h : ptrF i = ptrF j) : i = j := by
  have hd := congrArg String.data h
  rw [ptrF_data, ptrF_data] at hd
  injection hd with _ hd2
  injection hd2 with _ hd3
  have hr := append_singleton_inj _ _ _ hd3
  have := natRepr_inj (i + 1) (j + 1) (string_eq_of_data _ _ hr)
  omega

theorem ptrI_ne_ptrF (i j : Nat) : ptrI i ≠ ptrF j := by
  intro h
  have hd := congrArg String.data h
  rw [ptrI_data, ptrF_data] at hd
  injection hd with _ hd2
  injection hd2 with hd3 _
  exact absurd hd3 (by decide)

/-- A present-and-nonempty, newline-free optional field, as the import
itself produces (absent or non-empty). -/
def fieldOK : Option String → Prop
  | none => True
  | some s => s ≠ "" ∧ '\n' ∉ s.data

/-- An event object as the import produces it: at least one part
present, and each present part non-empty and newline-free. -/
def dpOK : Option DatePlace → Prop
  | none => True
  | some dp => (truthy dp.date = true ∨ truthy dp.place = true) ∧
      fieldOK dp.date ∧ fieldOK dp.place

/-- A person the export/import cycle preserves: not deleted, non-empty
id and given names, and newline-free text fields — the shape every
person produced by `importGedcom` has. -/
def PersonExportable (p : Person) : Prop :=
  p.deleted = false ∧
  p.id ≠ "" ∧
  p.givenNames ≠ "" ∧ '\n' ∉ p.givenNames.data ∧
  '\n' ∉ p.surname.data ∧
  dpOK p.birth ∧ dpOK p.death ∧
  fieldOK p.notes

/-- A family the export/import cycle preserves: not deleted, resolvable
spouse/child references, no `partnership` type, marriage data only on
married families, divorce data shaped as import produces it. -/
def FamilyExportable (persons : List Person) (f : Family) : Prop :=
  f.deleted = false ∧
  (∀ s, f.spouse1Id = some s → s ≠ "" ∧ ∃ q ∈ persons, q.id = s) ∧
  (∀ s, f.spouse2Id = some s → s ≠ "" ∧ ∃ q ∈ persons, q.id = s) ∧
  (∀ c ∈ f.childIds, ∃ q ∈ persons, q.id = c) ∧
  (∀ dp, f.marriageDate = some dp → f.type = .married ∧
    (truthy dp.date = true ∨ truthy dp.place = true) ∧
    fieldOK dp.date ∧ fieldOK dp.place) ∧
  (∀ dp, f.divorceDate = some dp →
    (∃ d, dp.date = some d ∧ d ≠ "" ∧ '\n' ∉ d.data) ∧ dp.place = none) ∧
  (f.type = .married ∨ f.type = .unknown)

/-- A store in the image of `importGedcom` (up to the facts the
round-trip needs): exportable persons and families, and globally
distinct ids. -/
def DbExportable (db : Db) : Prop :=
  (∀ p ∈ db.persons, PersonExportable p) ∧
  (∀ f ∈ db.families, FamilyExportable db.persons f) ∧
  ((db.persons.map Person.id) ++ (db.families.map Family.id)).Nodup

/-- The value content of a person (identity, revision, timestamps and
the soft-delete flag stripped). -/
structure PersonVals where
  givenNames : String
  surname : String
  sex : Sex
  birth : Option DatePlace
  death : Option DatePlace
  notes : Option String
deriving DecidableEq, Repr

def personVals (p : Person) : PersonVals :=
  ⟨p.givenNames, p.surname, p.sex, p.birth, p.death, p.notes⟩

/-- The value content of a family, with person links still in old-id
space. -/
structure FamilyVals where
  spouse1Id : Option String
  spouse2Id : Option String
  childIds : List String
  marriageDate : Option DatePlace
  divorceDate : Option DatePlace
  type : FamilyType
deriving DecidableEq, Repr

def familyVals (f : Family) : FamilyVals :=
  ⟨f.spouse1Id, f.spouse2Id, f.childIds, f.marriageDate, f.divorceDate, f.type⟩

/-- The positional old-id → new-id renaming between the original person
list and the re-imported one. -/
def renamePid (old new : List Person) (i : String) : Option String :=
  ((old.zip new).find? (fun pq => pq.1.id == i)).map (fun pq => pq.2.id)

/-- A family's values with person links pushed through a renaming. -/
def familyRename (σ : String → Option String) (f : Family) : FamilyVals :=
  ⟨f.spouse1Id.bind σ, f.spouse2Id.bind σ, f.childIds.filterMap σ,
   f.marriageDate, f.divorceDate, f.type⟩

theorem idToPointerOf_eq (persons : List Person) (families : List Family) :
    idToPointerOf persons families =
      persons.enum.map (fun e => (e.2.id, ptrI e.1)) ++
      families.enum.map (fun e => (e.2.id, ptrF e.1)) := rfl

theorem option_map_or (x y : Option α) (f : α → β) :
    (x.or y).map f = (x.map f).or (y.map f) := by
  cases x <;> cases y <;> rfl

theorem mapGetLast_cons (a : String × String) (m : List (String × String))
    (k : String) :
    mapGetLast (a :: m) k =
      (mapGetLast m k).or (if a.1 == k then some a.2 else none) := by
  have hsingle : (List.find? (fun e => e.1 == k) [a]).map (fun x => x.2) =
      (if a.1 == k then some a.2 else none) := by
    rcases ha : (a.1 == k) with _ | _
    · rw [List.find?_cons_of_neg _ (by simp [ha])]
      simp [ha]
    · rw [List.find?_cons_of_pos _ (by simp [ha])]
      simp [ha]
  simp only [mapGetLast, List.reverse_cons, List.find?_append, option_map_or]
  rw [hsingle]

theorem mapGetLast_append (A B : List (String × String)) (k : String) :
    mapGetLast (A ++ B) k = (mapGetLast B k).or (mapGetLast A k) := by
  simp only [mapGetLast, List.reverse_append, List.find?_append]
  exact option_map_or _ _ _

theorem mapGetLast_not_mem (m : List (String × String)) (k : String)
    (h : k ∉ m.map Prod.fst) : mapGetLast m k = none := by
  simp only [mapGetLast]
  rw [List.find?_eq_none.mpr]
  · rfl
  · intro e he
    simp only [beq_iff_eq]
    intro hek
    exact h (List.mem_map.mpr ⟨e, List.mem_reverse.mp he, hek⟩)

theorem enumFrom_lookup (key : α → String) (f : Nat → String) :
    ∀ (l : List α) (s j : Nat) (hj : j < l.length),
    (l.map key).Nodup →
    mapGetLast ((l.enumFrom s).map (fun e => (key e.2, f e.1)))
      (key (l.get ⟨j, hj⟩)) = some (f (s + j))
  | [], _, j, hj, _ => absurd hj (by simp)
  | p :: ps, s, 0, hj, hnd => by
    simp only [List.enumFrom_cons, List.map_cons, List.get]
    rw [mapGetLast_cons]
    have hnot : key p ∉
        ((ps.enumFrom (s + 1)).map (fun e => (key e.2, f e.1))).map Prod.fst := by
      intro hmem
      simp only [List.map_map, List.mem_map] at hmem
      obtain ⟨e, he, heq⟩ := hmem
      simp only [List.map_cons, List.nodup_cons] at hnd
      refine hnd.1 (List.mem_map.mpr ⟨e.2, ?_, by simpa using heq⟩)
      exact List.snd_mem_of_mem_enumFrom he
    rw [mapGetLast_not_mem _ _ hnot]
    simp
  | p :: ps, s, j + 1, hj, hnd => by
    simp only [List.enumFrom_cons, List.map_cons, List.get]
    rw [mapGetLast_cons]
    have hj2 : j < ps.length := by
      simp only [List.length_cons] at hj
      omega
    have ih := enumFrom_lookup key f ps (s + 1) j hj2
      (by simp only [List.map_cons, List.nodup_cons] at hnd; exact hnd.2)
    have harith : s + 1 + j = s + (j + 1) := by omega
    rw [harith] at ih
    rw [ih]
    rfl

theorem enum_keys (key : α → String) (f : Nat → String) (l : List α) (s : Nat) :
    ((l.enumFrom s).map (fun e => (key e.2, f e.1))).map Prod.fst = l.map key := by
  rw [List.map_map]
  have h2 : (Prod.fst ∘ fun e : Nat × α => (key e.2, f e.1)) = (key ∘ Prod.snd) := rfl
  rw [h2, ← List.map_map, List.enumFrom_map_snd]

theorem idToPointer_person (persons : List Person) (families : List Family)
    (hnd : ((persons.map Person.id) ++ (families.map Family.id)).Nodup)
    (j : Nat) (hj : j < persons.length) :
    mapGetLast (idToPointerOf persons families)
      (persons.get ⟨j, hj⟩).id = some (ptrI j) := by
  rw [idToPointerOf_eq, mapGetLast_append]
  have hdisj := List.disjoint_of_nodup_append hnd
  have hfam : mapGetLast
      (families.enum.map (fun e => (e.2.id, ptrF e.1)))
      (persons.get ⟨j, hj⟩).id = none := by
    refine mapGetLast_not_mem _ _ ?_
    show (persons.get ⟨j, hj⟩).id ∉
      ((families.enumFrom 0).map (fun e => (Family.id e.2, ptrF e.1))).map Prod.fst
    rw [enum_keys Family.id ptrF families 0]
    exact hdisj (List.mem_map.mpr ⟨_, List.get_mem persons j hj, rfl⟩)
  have hper : mapGetLast
      (persons.enum.map (fun e => (e.2.id, ptrI e.1)))
      (persons.get ⟨j, hj⟩).id = some (ptrI j) := by
    have h := enumFrom_lookup Person.id ptrI persons 0 j hj
      ((List.nodup_append.mp hnd).1)
    simpa using h
  rw [hfam, hper]
  rfl

theorem idToPointer_family (persons : List Person) (families : List Family)
    (hnd : ((persons.map Person.id) ++ (families.map Family.id)).Nodup)
    (j : Nat) (hj : j < families.length) :
    mapGetLast (idToPointerOf persons families)
      (families.get ⟨j, hj⟩).id = some (ptrF j) := by
  rw [idToPointerOf_eq, mapGetLast_append]
  have hfam : mapGetLast
      (families.enum.map (fun e => (e.2.id, ptrF e.1)))
      (families.get ⟨j, hj⟩).id = some (ptrF j) := by
    have h := enumFrom_lookup Family.id ptrF families 0 j hj
      ((List.nodup_append.mp hnd).2.1)
    simpa using h
  rw [hfam]
  rfl

/-! ### The parse of each export generator, line by line -/

/-- Parse one line given as a string. -/
def parseLineS (s : String) : Option PLine := parseLine s.data

/-- The parse of the export header block. -/
def hdrP (clock : Nat) : List PLine :=
  [⟨0, none, "HEAD", none⟩, ⟨1, none, "SOUR", some "My Kin Map"⟩,
   ⟨2, none, "VERS", some "1.0"⟩, ⟨1, none, "GEDC", none⟩,
   ⟨2, none, "VERS", some "5.5.1"⟩, ⟨2, none, "FORM", some "LINEAGE-LINKED"⟩,
   ⟨1, none, "CHAR", some "UTF-8"⟩, ⟨1, none, "DATE", some (exportDateStr clock)⟩]

/-- The parse of a person's conditional `GIVN` line. -/
def givnPls (p : Person) : List PLine :=
  if truthyS p.givenNames then [⟨2, none, "GIVN", some p.givenNames⟩] else []

/-- The parse of a person's conditional `SURN` line. -/
def surnPls (p : Person) : List PLine :=
  if truthyS p.surname then [⟨2, none, "SURN", some p.surname⟩] else []

/-- The parse of a person's conditional `SEX` line. -/
def sexPls (p : Person) : List PLine :=
  if p.sex = .U then [] else [⟨1, none, "SEX", some (sexStr p.sex)⟩]

/-- The parse of a conditional `BIRT`/`DEAT`-style event block. -/
def eventPls (tag : String) (e : Option DatePlace) : List PLine :=
  let d := e.bind (·.date)
  let pl := e.bind (·.place)
  if truthy d || truthy pl then
    ⟨1, none, tag, none⟩ ::
    ((if truthy d then [⟨2, none, "DATE", some (d.getD "")⟩] else [])
     ++ (if truthy pl then [⟨2, none, "PLAC", some (pl.getD "")⟩] else []))
  else []

/-- The parse of a person's conditional `NOTE` line. -/
def notePls (p : Person) : List PLine :=
  if truthy p.notes then
    [⟨1, none, "NOTE", some (replaceNLs (p.notes.getD ""))⟩]
  else []

/-- The parse of a person's `FAMS`/`FAMC` back-reference lines for one
family. -/
def famsPls (m : List (String × String)) (p : Person) (f : Family) :
    List PLine :=
  let fp := (mapGetLast m f.id).getD ""
  (if f.spouse1Id == some p.id || f.spouse2Id == some p.id then
     [⟨1, none, "FAMS", mkData (some fp.data)⟩] else [])
  ++ (if f.childIds.contains p.id then
     [⟨1, none, "FAMC", mkData (some fp.data)⟩] else [])

/-- The parse of a full exported person block. -/
def personPls (families : List Family) (m : List (String × String))
    (p : Person) : List PLine :=
  ⟨0, some ((mapGetLast m p.id).getD ""), "INDI", none⟩ ::
  ⟨1, none, "NAME", some (p.givenNames ++ " /" ++ p.surname ++ "/")⟩ ::
  (givnPls p ++ surnPls p ++ sexPls p ++ eventPls "BIRT" p.birth
   ++ eventPls "DEAT" p.death ++ notePls p
   ++ families.flatMap (famsPls m p))

/-- The parse of a family's conditional `HUSB`/`WIFE` reference line. -/
def spousePls (m : List (String × String)) (s : Option String)
    (tag : String) : List PLine :=
  if truthy s && (mapGetLast m (s.getD "")).isSome then
    [⟨1, none, tag, mkData (some ((mapGetLast m (s.getD "")).getD "").data)⟩]
  else []

/-- The parse of a family's conditional `MARR` block. -/
def marrPls (f : Family) : List PLine :=
  let md := f.marriageDate.bind (·.date)
  let mp := f.marriageDate.bind (·.place)
  if f.type == .married || f.marriageDate.isSome then
    ⟨1, none, "MARR", none⟩ ::
    ((if truthy md then [⟨2, none, "DATE", some (md.getD "")⟩] else [])
     ++ (if truthy mp then [⟨2, none, "PLAC", some (mp.getD "")⟩] else []))
  else []

/-- The parse of a family's conditional `DIV` block. -/
def divPls (f : Family) : List PLine :=
  let dd := f.divorceDate.bind (·.date)
  if f.divorceDate.isSome then
    ⟨1, none, "DIV", none⟩ ::
    (if truthy dd then [⟨2, none, "DATE", some (dd.getD "")⟩] else [])
  else []

/-- The parse of a family's `CHIL` reference lines. -/
def chilPls (m : List (String × String)) (f : Family) : List PLine :=
  f.childIds.flatMap (fun c =>
    if (mapGetLast m c).isSome then
      [⟨1, none, "CHIL", mkData (some ((mapGetLast m c).getD "").data)⟩]
    else [])

/-- The parse of a full exported family block. -/
def famPls (m : List (String × String)) (f : Family) : List PLine :=
  ⟨0, some ((mapGetLast m f.id).getD ""), "FAM", none⟩ ::
  (spousePls m f.spouse1Id "HUSB" ++ spousePls m f.spouse2Id "WIFE"
   ++ marrPls f ++ divPls f ++ chilPls m f)

/-- The parse of the whole exported document. -/
def exportPls (db : Db) : List PLine :=
  let persons := db.persons.filter (fun p => !p.deleted)
  let families := db.families.filter (fun f => !f.deleted)
  let m := idToPointerOf persons families
  hdrP db.clock ++ persons.flatMap (personPls families m)
  ++ families.flatMap (famPls m) ++ [⟨0, none, "TRLR", none⟩]

theorem parseS_tag_data (lv : Char) (v : Nat) (tag pre d : String)
    (hlv : charsToNat? [lv] = some v) (hlvsp : ¬ lv = ' ')
    (htne : tag.data ≠ []) (htsp : ' ' ∉ tag.data)
    (htat : ¬ tag.data.head? = some '@')
    (hpre : pre.data = lv :: ' ' :: (tag.data ++ [' '])) :
    parseLineS (pre ++ d) = some ⟨v, none, tag, mkData (some d.data)⟩ := by
  have hd : (pre ++ d).data = lv :: ' ' :: (tag.data ++ ' ' :: d.data) := by
    rw [String.data_append, hpre]
    simp [List.append_assoc]
  rw [parseLineS, hd]
  exact parseLine_tag_data lv v hlv hlvsp tag htne htsp htat d.data

theorem parseS_ptr (ptr tag post : String)
    (hat : ptr.data.head? = some '@') (hpsp : ' ' ∉ ptr.data)
    (htne : tag.data ≠ []) (htsp : ' ' ∉ tag.data)
    (hpost : post.data = ' ' :: tag.data) :
    parseLineS ("0 " ++ ptr ++ post) = some ⟨0, some ptr, tag, none⟩ := by
  have hd : ("0 " ++ ptr ++ post).data =
      '0' :: ' ' :: (ptr.data ++ ' ' :: tag.data) := by
    simp [String.data_append, hpost]
  rw [parseLineS, hd]
  exact parseLine_ptr ptr hat hpsp tag htne htsp

theorem filterMap_parse_ite (c : Prop) [Decidable c] (L : List String)
    (V : List PLine) (h : c → L.filterMap parseLineS = V) :
    (if c then L else []).filterMap parseLineS = if c then V else [] := by
  by_cases hc : c
  · rw [if_pos hc, if_pos hc, h hc]
  · rw [if_neg hc, if_neg hc]
    rfl

theorem filterMap_parse_flatMap (g : α → List String) (h : α → List PLine) :
    ∀ xs : List α, (∀ x ∈ xs, (g x).filterMap parseLineS = h x) →
    (xs.flatMap g).filterMap parseLineS = xs.flatMap h
  | [], _ => rfl
  | x :: xs, hx => by
    rw [List.flatMap_cons, List.flatMap_cons, List.filterMap_append,
      hx x (List.mem_cons_self _ _),
      filterMap_parse_flatMap g h xs (fun y hy => hx y (List.mem_cons_of_mem _ hy))]

theorem natRepr_ne_nil (n : Nat) : (natRepr n).data ≠ [] := by
  by_cases h0 : n = 0
  · subst h0
    decide
  · simp only [natRepr, if_neg h0, natDigits]
    simp

theorem headerLines_parse (clock : Nat) :
    (headerLines clock).filterMap parseLineS = hdrP clock := by
  have h1 : parseLineS "0 HEAD" = some ⟨0, none, "HEAD", none⟩ := by decide
  have h2 : parseLineS "1 SOUR My Kin Map" =
      some ⟨1, none, "SOUR", some "My Kin Map"⟩ := by decide
  have h3 : parseLineS "2 VERS 1.0" = some ⟨2, none, "VERS", some "1.0"⟩ := by
    decide
  have h4 : parseLineS "1 GEDC" = some ⟨1, none, "GEDC", none⟩ := by decide
  have h5 : parseLineS "2 VERS 5.5.1" =
      some ⟨2, none, "VERS", some "5.5.1"⟩ := by decide
  have h6 : parseLineS "2 FORM LINEAGE-LINKED" =
      some ⟨2, none, "FORM", some "LINEAGE-LINKED"⟩ := by decide
  have h7 : parseLineS "1 CHAR UTF-8" =
      some ⟨1, none, "CHAR", some "UTF-8"⟩ := by decide
  have h8 : parseLineS ("1 DATE " ++ exportDateStr clock) =
      some ⟨1, none, "DATE", some (exportDateStr clock)⟩ := by
    have hne : (exportDateStr clock).data ≠ [] := natRepr_ne_nil clock
    rw [parseS_tag_data '1' 1 "DATE" "1 DATE " (exportDateStr clock)
      (by decide) (by decide) (by decide) (by decide) (by decide) (by decide),
      mkData_some ((exportDateStr clock).data) hne,
      string_mk_data (exportDateStr clock)]
  simp [headerLines, hdrP, List.filterMap_cons, h1, h2, h3, h4, h5, h6, h7, h8]

theorem parseLineS_congr (a b : String) (h : a.data = b.data) :
    parseLineS a = parseLineS b := by
  rw [parseLineS, parseLineS, h]

theorem filterMap_singleton_some (x : String) (v : PLine)
    (h : parseLineS x = some v) : [x].filterMap parseLineS = [v] := by
  simp [List.filterMap_cons, h]

theorem data_ne_nil_of_ne_empty (s : String) (h : s ≠ "") : s.data ≠ [] :=
  fun hd => h (by rw [← string_mk_data s, hd])

theorem truthy_getD_ne (o : Option String) (h : truthy o = true) :
    o.getD "" ≠ "" := by
  cases o with
  | none => simp [truthy] at h
  | some s => simpa [truthy] using h

theorem replaceNL_ne_nil : ∀ cs : List Char, cs ≠ [] → replaceNL cs ≠ []
  | [], h => absurd rfl h
  | c :: cs, _ => by
    simp only [replaceNL]
    split <;> simp

theorem sexStr_ne_nil (x : Sex) : (sexStr x).data ≠ [] := by
  cases x <;> decide

/-- Parse one `LEVEL TAG DATA` export line whose data is non-empty. -/
theorem parseS_tag_data_ne (lv : Char) (v : Nat) (tag pre d : String)
    (hlv : charsToNat? [lv] = some v) (hlvsp : ¬ lv = ' ')
    (htne : tag.data ≠ []) (htsp : ' ' ∉ tag.data)
    (htat : ¬ tag.data.head? = some '@')
    (hpre : pre.data = lv :: ' ' :: (tag.data ++ [' ']))
    (hd : d.data ≠ []) :
    parseLineS (pre ++ d) = some ⟨v, none, tag, some d⟩ := by
  rw [parseS_tag_data lv v tag pre d hlv hlvsp htne htsp htat hpre,
    mkData_some d.data hd, string_mk_data d]

theorem event_parse (tag lbl : String) (e : Option DatePlace)
    (hl : parseLineS lbl = some ⟨1, none, tag, none⟩) :
    (if truthy (e.bind (·.date)) || truthy (e.bind (·.place)) then
       [lbl]
       ++ (if truthy (e.bind (·.date)) then
             ["2 DATE " ++ (e.bind (·.date)).getD ""] else [])
       ++ (if truthy (e.bind (·.place)) then
             ["2 PLAC " ++ (e.bind (·.place)).getD ""] else [])
     else []).filterMap parseLineS = eventPls tag e := by
  have hdate : (if truthy (e.bind (·.date)) then
      ["2 DATE " ++ (e.bind (·.date)).getD ""] else []).filterMap parseLineS =
      (if truthy (e.bind (·.date)) then
        [⟨2, none, "DATE", some ((e.bind (·.date)).getD "")⟩] else []) := by
    refine filterMap_parse_ite _ _ _ ?_
    intro hc
    exact filterMap_singleton_some _ _
      (parseS_tag_data_ne '2' 2 "DATE" "2 DATE " _ (by decide) (by decide)
        (by decide) (by decide) (by decide) (by decide)
        (data_ne_nil_of_ne_empty _ (truthy_getD_ne _ hc)))
  have hplac : (if truthy (e.bind (·.place)) then
      ["2 PLAC " ++ (e.bind (·.place)).getD ""] else []).filterMap parseLineS =
      (if truthy (e.bind (·.place)) then
        [⟨2, none, "PLAC", some ((e.bind (·.place)).getD "")⟩] else []) := by
    refine filterMap_parse_ite _ _ _ ?_
    intro hc
    exact filterMap_singleton_some _ _
      (parseS_tag_data_ne '2' 2 "PLAC" "2 PLAC " _ (by decide) (by decide)
        (by decide) (by decide) (by decide) (by decide)
        (data_ne_nil_of_ne_empty _ (truthy_getD_ne _ hc)))
  by_cases hc : (truthy (e.bind (·.date)) || truthy (e.bind (·.place))) = true
  · rw [if_pos hc, eventPls]
    simp only [List.filterMap_append, hdate, hplac]
    rw [if_pos hc]
    simp [List.filterMap_cons, hl]
  · rw [if_neg hc, eventPls]
    rw [if_neg hc]
    rfl

theorem personLines_parse (families : List Family)
    (m : List (String × String)) (p : Person)
    (hat : ((mapGetLast m p.id).getD "").data.head? = some '@')
    (hsp : ' ' ∉ ((mapGetLast m p.id).getD "").data) :
    (personLines families m p).filterMap parseLineS =
      personPls families m p := by
  have hL0 : parseLineS ("0 " ++ (mapGetLast m p.id).getD "" ++ " INDI") =
      some ⟨0, some ((mapGetLast m p.id).getD ""), "INDI", none⟩ :=
    parseS_ptr _ "INDI" " INDI" hat hsp (by decide) (by decide) (by decide)
  have hne : (p.givenNames ++ " /" ++ p.surname ++ "/").data ≠ [] := by
    simp [String.data_append]
  have hL1 : parseLineS ("1 NAME " ++ p.givenNames ++ " /" ++ p.surname ++ "/")
      = some ⟨1, none, "NAME",
          some (p.givenNames ++ " /" ++ p.surname ++ "/")⟩ := by
    rw [parseLineS_congr ("1 NAME " ++ p.givenNames ++ " /" ++ p.surname ++ "/")
      ("1 NAME " ++ (p.givenNames ++ " /" ++ p.surname ++ "/"))
      (by simp [String.data_append]),
      parseS_tag_data_ne '1' 1 "NAME" "1 NAME "
        (p.givenNames ++ " /" ++ p.surname ++ "/")
        (by decide) (by decide) (by decide) (by decide) (by decide) (by decide)
        hne]
  have hGivn : (if truthyS p.givenNames then ["2 GIVN " ++ p.givenNames]
      else []).filterMap parseLineS = givnPls p := by
    rw [givnPls]
    refine filterMap_parse_ite _ _ _ ?_
    intro hc
    exact filterMap_singleton_some _ _
      (parseS_tag_data_ne '2' 2 "GIVN" "2 GIVN " _ (by decide) (by decide)
        (by decide) (by decide) (by decide) (by decide)
        (data_ne_nil_of_ne_empty _ (by simpa [truthyS] using hc)))
  have hSurn : (if truthyS p.surname then ["2 SURN " ++ p.surname]
      else []).filterMap parseLineS = surnPls p := by
    rw [surnPls]
    refine filterMap_parse_ite _ _ _ ?_
    intro hc
    exact filterMap_singleton_some _ _
      (parseS_tag_data_ne '2' 2 "SURN" "2 SURN " _ (by decide) (by decide)
        (by decide) (by decide) (by decide) (by decide)
        (data_ne_nil_of_ne_empty _ (by simpa [truthyS] using hc)))
  have hSex : (if p.sex = .U then [] else
      ["1 SEX " ++ sexStr p.sex]).filterMap parseLineS = sexPls p := by
    by_cases hc : p.sex = .U
    · rw [if_pos hc, sexPls, if_pos hc]
      rfl
    · rw [if_neg hc, sexPls, if_neg hc]
      exact filterMap_singleton_some _ _
        (parseS_tag_data_ne '1' 1 "SEX" "1 SEX " _ (by decide) (by decide)
          (by decide) (by decide) (by decide) (by decide) (sexStr_ne_nil p.sex))
  have hBirt := event_parse "BIRT" "1 BIRT" p.birth (by decide)
  have hDeat := event_parse "DEAT" "1 DEAT" p.death (by decide)
  have hNote : (if truthy p.notes then
      ["1 NOTE " ++ replaceNLs (p.notes.getD "")] else []).filterMap parseLineS
      = notePls p := by
    rw [notePls]
    refine filterMap_parse_ite _ _ _ ?_
    intro hc
    refine filterMap_singleton_some _ _
      (parseS_tag_data_ne '1' 1 "NOTE" "1 NOTE " _ (by decide) (by decide)
        (by decide) (by decide) (by decide) (by decide) ?_)
    show replaceNL (p.notes.getD "").data ≠ []
    exact replaceNL_ne_nil _
      (data_ne_nil_of_ne_empty _ (truthy_getD_ne _ hc))
  have hTail : (families.flatMap (fun f =>
      (if f.spouse1Id == some p.id || f.spouse2Id == some p.id then
        ["1 FAMS " ++ (mapGetLast m f.id).getD ""] else [])
      ++ (if f.childIds.contains p.id then
        ["1 FAMC " ++ (mapGetLast m f.id).getD ""] else []))).filterMap
        parseLineS = families.flatMap (famsPls m p) := by
    refine filterMap_parse_flatMap _ _ families ?_
    intro f _
    rw [famsPls]
    simp only [List.filterMap_append]
    rw [filterMap_parse_ite _ _ _ (fun _ => filterMap_singleton_some _ _
        (parseS_tag_data '1' 1 "FAMS" "1 FAMS " _ (by decide) (by decide)
          (by decide) (by decide) (by decide) (by decide))),
      filterMap_parse_ite _ _ _ (fun _ => filterMap_singleton_some _ _
        (parseS_tag_data '1' 1 "FAMC" "1 FAMC " _ (by decide) (by decide)
          (by decide) (by decide) (by decide) (by decide)))]
  simp only [personLines, personPls, List.filterMap_append, List.filterMap_cons,
    hL0, hL1]
  rw [hGivn, hSurn, hSex, hBirt, hDeat, hNote, hTail]
  simp [List.append_assoc]

theorem familyLines_parse (m : List (String × String)) (f : Family)
    (hat : ((mapGetLast m f.id).getD "").data.head? = some '@')
    (hsp : ' ' ∉ ((mapGetLast m f.id).getD "").data) :
    (familyLines m f).filterMap parseLineS = famPls m f := by
  have hL0 : parseLineS ("0 " ++ (mapGetLast m f.id).getD "" ++ " FAM") =
      some ⟨0, some ((mapGetLast m f.id).getD ""), "FAM", none⟩ :=
    parseS_ptr _ "FAM" " FAM" hat hsp (by decide) (by decide) (by decide)
  have hHusb : (if truthy f.spouse1Id &&
      (mapGetLast m (f.spouse1Id.getD "")).isSome then
      ["1 HUSB " ++ (mapGetLast m (f.spouse1Id.getD "")).getD ""]
      else []).filterMap parseLineS = spousePls m f.spouse1Id "HUSB" := by
    rw [spousePls]
    exact filterMap_parse_ite _ _ _ (fun _ => filterMap_singleton_some _ _
      (parseS_tag_data '1' 1 "HUSB" "1 HUSB " _ (by decide) (by decide)
        (by decide) (by decide) (by decide) (by decide)))
  have hWife : (if truthy f.spouse2Id &&
      (mapGetLast m (f.spouse2Id.getD "")).isSome then
      ["1 WIFE " ++ (mapGetLast m (f.spouse2Id.getD "")).getD ""]
      else []).filterMap parseLineS = spousePls m f.spouse2Id "WIFE" := by
    rw [spousePls]
    exact filterMap_parse_ite _ _ _ (fun _ => filterMap_singleton_some _ _
      (parseS_tag_data '1' 1 "WIFE" "1 WIFE " _ (by decide) (by decide)
        (by decide) (by decide) (by decide) (by decide)))
  have hdate : (if truthy (f.marriageDate.bind (·.date)) then
      ["2 DATE " ++ (f.marriageDate.bind (·.date)).getD ""]
      else []).filterMap parseLineS =
      (if truthy (f.marriageDate.bind (·.date)) then
        [⟨2, none, "DATE", some ((f.marriageDate.bind (·.date)).getD "")⟩]
      else []) := by
    refine filterMap_parse_ite _ _ _ ?_
    intro hc
    exact filterMap_singleton_some _ _
      (parseS_tag_data_ne '2' 2 "DATE" "2 DATE " _ (by decide) (by decide)
        (by decide) (by decide) (by decide) (by decide)
        (data_ne_nil_of_ne_empty _ (truthy_getD_ne _ hc)))
  have hplac : (if truthy (f.marriageDate.bind (·.place)) then
      ["2 PLAC " ++ (f.marriageDate.bind (·.place)).getD ""]
      else []).filterMap parseLineS =
      (if truthy (f.marriageDate.bind (·.place)) then
        [⟨2, none, "PLAC", some ((f.marriageDate.bind (·.place)).getD "")⟩]
      else []) := by
    refine filterMap_parse_ite _ _ _ ?_
    intro hc
    exact filterMap_singleton_some _ _
      (parseS_tag_data_ne '2' 2 "PLAC" "2 PLAC " _ (by decide) (by decide)
        (by decide) (by decide) (by decide) (by decide)
        (data_ne_nil_of_ne_empty _ (truthy_getD_ne _ hc)))
  have hMarr : (if f.type == .married || f.marriageDate.isSome then
      ["1 MARR"]
      ++ (if truthy (f.marriageDate.bind (·.date)) then
            ["2 DATE " ++ (f.marriageDate.bind (·.date)).getD ""] else [])
      ++ (if truthy (f.marriageDate.bind (·.place)) then
            ["2 PLAC " ++ (f.marriageDate.bind (·.place)).getD ""] else [])
      else []).filterMap parseLineS = marrPls f := by
    by_cases hc : (f.type == .married || f.marriageDate.isSome) = true
    · rw [if_pos hc, marrPls]
      simp only [List.filterMap_append, hdate, hplac]
      rw [if_pos hc]
      have hm : parseLineS "1 MARR" = some ⟨1, none, "MARR", none⟩ := by decide
      simp [List.filterMap_cons, hm]
    · rw [if_neg hc, marrPls]
      rw [if_neg hc]
      rfl
  have hDiv : (if f.divorceDate.isSome then
      ["1 DIV"] ++ (if truthy (f.divorceDate.bind (·.date)) then
        ["2 DATE " ++ (f.divorceDate.bind (·.date)).getD ""] else [])
      else []).filterMap parseLineS = divPls f := by
    by_cases hc : f.divorceDate.isSome = true
    · rw [if_pos hc, divPls]
      rw [if_pos hc]
      have hm : parseLineS "1 DIV" = some ⟨1, none, "DIV", none⟩ := by decide
      have hdd : (if truthy (f.divorceDate.bind (·.date)) then
          ["2 DATE " ++ (f.divorceDate.bind (·.date)).getD ""]
          else []).filterMap parseLineS =
          (if truthy (f.divorceDate.bind (·.date)) then
            [⟨2, none, "DATE", some ((f.divorceDate.bind (·.date)).getD "")⟩]
          else []) := by
        refine filterMap_parse_ite _ _ _ ?_
        intro hc2
        exact filterMap_singleton_some _ _
          (parseS_tag_data_ne '2' 2 "DATE" "2 DATE " _ (by decide) (by decide)
            (by decide) (by decide) (by decide) (by decide)
            (data_ne_nil_of_ne_empty _ (truthy_getD_ne _ hc2)))
      simp only [List.filterMap_append, List.filterMap_cons, hm, hdd]
      rfl
    · rw [if_neg hc, divPls]
      rw [if_neg hc]
      rfl
  have hChil : (f.childIds.flatMap (fun c =>
      if (mapGetLast m c).isSome then
        ["1 CHIL " ++ (mapGetLast m c).getD ""]
      else [])).filterMap parseLineS = chilPls m f := by
    rw [chilPls]
    refine filterMap_parse_flatMap _ _ f.childIds ?_
    intro c _
    exact filterMap_parse_ite _ _ _ (fun _ => filterMap_singleton_some _ _
      (parseS_tag_data '1' 1 "CHIL" "1 CHIL " _ (by decide) (by decide)
        (by decide) (by decide) (by decide) (by decide)))
  simp only [familyLines, famPls, List.filterMap_append, List.filterMap_cons,
    hL0]
  rw [hHusb, hWife, hMarr, hDiv, hChil]
  simp [List.append_assoc]

/-! ### Pointer lookups resolve to well-shaped pointers -/

theorem mapGetLast_isSome_of_mem (m : List (String × String)) (k : String)
    (h : k ∈ m.map Prod.fst) : ∃ v, mapGetLast m k = some v := by
  obtain ⟨e, he, hek⟩ := List.mem_map.mp h
  have hs : (m.reverse.find? (fun x => x.1 == k)).isSome :=
    List.find?_isSome.mpr ⟨e, List.mem_reverse.mpr he, by simp [hek]⟩
  obtain ⟨x, hx⟩ := Option.isSome_iff_exists.mp hs
  exact ⟨x.2, by rw [mapGetLast, hx]; rfl⟩

theorem idToPointer_shape (P : List Person) (F : List Family) (k v : String)
    (h : mapGetLast (idToPointerOf P F) k = some v) :
    (∃ j, v = ptrI j) ∨ (∃ j, v = ptrF j) := by
  rw [mapGetLast] at h
  obtain ⟨e, he, hev⟩ := Option.map_eq_some'.mp h
  have hmem : e ∈ idToPointerOf P F :=
    List.mem_reverse.mp (List.mem_of_find?_eq_some he)
  rw [idToPointerOf_eq] at hmem
  rcases List.mem_append.mp hmem with h1 | h2
  · obtain ⟨x, _, hx⟩ := List.mem_map.mp h1
    refine Or.inl ⟨x.1, ?_⟩
    rw [← hev, ← hx]
  · obtain ⟨x, _, hx⟩ := List.mem_map.mp h2
    refine Or.inr ⟨x.1, ?_⟩
    rw [← hev, ← hx]

theorem idToPointerOf_keys (P : List Person) (F : List Family) :
    (idToPointerOf P F).map Prod.fst = P.map Person.id ++ F.map Family.id := by
  rw [idToPointerOf_eq, List.map_append]
  have h1 := enum_keys Person.id (fun i => "@I" ++ natRepr (i + 1) ++ "@") P 0
  have h2 := enum_keys Family.id (fun i => "@F" ++ natRepr (i + 1) ++ "@") F 0
  rw [show (P.enum.map (fun e => (e.2.id, ptrI e.1))).map Prod.fst =
      ((P.enumFrom 0).map
        (fun e => (Person.id e.2, "@I" ++ natRepr (e.1 + 1) ++ "@"))).map
        Prod.fst from rfl, h1,
    show (F.enum.map (fun e => (e.2.id, ptrF e.1))).map Prod.fst =
      ((F.enumFrom 0).map
        (fun e => (Family.id e.2, "@F" ++ natRepr (e.1 + 1) ++ "@"))).map
        Prod.fst from rfl, h2]

theorem ne_empty_of_head_at (s : String) (h : s.data.head? = some '@') :
    s ≠ "" := by
  intro he
  subst he
  exact absurd h (by decide)

theorem pointer_facts (P : List Person) (F : List Family) (k : String)
    (hk : k ∈ P.map Person.id ++ F.map Family.id) :
    ∃ v, mapGetLast (idToPointerOf P F) k = some v ∧
      v.data.head? = some '@' ∧ ' ' ∉ v.data ∧ '\n' ∉ v.data ∧ v ≠ "" := by
  obtain ⟨v, hv⟩ := mapGetLast_isSome_of_mem (idToPointerOf P F) k
    (by rw [idToPointerOf_keys]; exact hk)
  rcases idToPointer_shape P F k v hv with ⟨j, rfl⟩ | ⟨j, rfl⟩
  · exact ⟨_, hv, ptrI_head j, ptrI_no_space j, ptrI_no_nl j,
      ne_empty_of_head_at _ (ptrI_head j)⟩
  · exact ⟨_, hv, ptrF_head j, ptrF_no_space j, ptrF_no_nl j,
      ne_empty_of_head_at _ (ptrF_head j)⟩

theorem lookup_getD_nl (m : List (String × String))
    (hm : ∀ k v, mapGetLast m k = some v → '\n' ∉ v.data) (k : String) :
    '\n' ∉ ((mapGetLast m k).getD "").data := by
  cases h : mapGetLast m k with
  | none => decide
  | some v => exact hm k v h

theorem idToPointer_values_nl (P : List Person) (F : List Family) :
    ∀ k v, mapGetLast (idToPointerOf P F) k = some v → '\n' ∉ v.data := by
  intro k v hv
  rcases idToPointer_shape P F k v hv with ⟨j, rfl⟩ | ⟨j, rfl⟩
  · exact ptrI_no_nl j
  · exact ptrF_no_nl j

/-! ### Export lines carry no newline -/

theorem nl_not_mem_append (a b : String) (ha : '\n' ∉ a.data)
    (hb : '\n' ∉ b.data) : '\n' ∉ (a ++ b).data := by
  rw [String.data_append]
  intro h
  rcases List.mem_append.mp h with h1 | h2
  · exact ha h1
  · exact hb h2

theorem mem_of_ite_nil (c : Prop) [Decidable c] (A : List α) (x : α)
    (h : x ∈ (if c then A else [])) : c ∧ x ∈ A := by
  by_cases hc : c
  · exact ⟨hc, by rwa [if_pos hc] at h⟩
  · rw [if_neg hc] at h
    exact absurd h (List.not_mem_nil x)

theorem fieldOK_getD_nl (o : Option String) (h : fieldOK o) :
    '\n' ∉ (o.getD "").data := by
  cases o with
  | none => decide
  | some s => exact h.2

theorem dpOK_date (e : Option DatePlace) (h : dpOK e) :
    fieldOK (e.bind (·.date)) := by
  cases e with
  | none => trivial
  | some dp => exact h.2.1

theorem dpOK_place (e : Option DatePlace) (h : dpOK e) :
    fieldOK (e.bind (·.place)) := by
  cases e with
  | none => trivial
  | some dp => exact h.2.2

theorem replaceNL_of_no_nl : ∀ cs : List Char, '\n' ∉ cs → replaceNL cs = cs
  | [], _ => rfl
  | c :: cs, h => by
    have hc : ¬ c = '\n' := fun e => h (e ▸ List.mem_cons_self _ _)
    simp only [replaceNL, if_neg hc]
    rw [replaceNL_of_no_nl cs (fun hm => h (List.mem_cons_of_mem _ hm))]

theorem sexStr_nl (x : Sex) : '\n' ∉ (sexStr x).data := by
  cases x <;> decide

theorem headerLines_nl (clock : Nat) : ∀ l ∈ headerLines clock,
    '\n' ∉ l.data := by
  intro l hl
  simp only [headerLines, List.mem_cons, List.not_mem_nil, or_false] at hl
  rcases hl with rfl | rfl | rfl | rfl | rfl | rfl | rfl | rfl
  · decide
  · decide
  · decide
  · decide
  · decide
  · decide
  · decide
  · refine nl_not_mem_append _ _ (by decide) ?_
    intro h
    have := natRepr_chars clock '\n' h
    have h10 : ('\n' : Char).toNat = 10 := by decide
    omega

theorem eventLines_nl (tag lbl : String) (e : Option DatePlace)
    (hl : '\n' ∉ lbl.data) (he : dpOK e) :
    ∀ l ∈ (if truthy (e.bind (·.date)) || truthy (e.bind (·.place)) then
       [lbl]
       ++ (if truthy (e.bind (·.date)) then
             ["2 DATE " ++ (e.bind (·.date)).getD ""] else [])
       ++ (if truthy (e.bind (·.place)) then
             ["2 PLAC " ++ (e.bind (·.place)).getD ""] else [])
     else []), '\n' ∉ l.data := by
  intro l hml
  obtain ⟨_, hml⟩ := mem_of_ite_nil _ _ _ hml
  rcases List.mem_append.mp hml with h1 | h23
  · rcases List.mem_append.mp h1 with h1 | h2
    · have : l = lbl := by simpa using h1
      rw [this]
      exact hl
    · obtain ⟨_, h2⟩ := mem_of_ite_nil _ _ _ h2
      have : l = "2 DATE " ++ (e.bind (·.date)).getD "" := by simpa using h2
      rw [this]
      exact nl_not_mem_append _ _ (by decide)
        (fieldOK_getD_nl _ (dpOK_date e he))
  · obtain ⟨_, h3⟩ := mem_of_ite_nil _ _ _ h23
    have : l = "2 PLAC " ++ (e.bind (·.place)).getD "" := by simpa using h3
    rw [this]
    exact nl_not_mem_append _ _ (by decide)
      (fieldOK_getD_nl _ (dpOK_place e he))

theorem personLines_nl (families : List Family)
    (m : List (String × String)) (p : Person)
    (hm : ∀ k v, mapGetLast m k = some v → '\n' ∉ v.data)
    (hp : PersonExportable p) :
    ∀ l ∈ personLines families m p, '\n' ∉ l.data := by
  obtain ⟨_, _, _, hgnl, hsnl, hb, hd, hn⟩ := hp
  intro l hl
  simp only [personLines, List.mem_append, List.mem_cons, List.not_mem_nil,
    or_false, List.mem_flatMap] at hl
  rcases hl with ((((((h1 | hl) | hl) | hl) | hl) | hl) | hl) | hl
  · rcases h1 with rfl | rfl
    · refine nl_not_mem_append _ _ ?_ (by decide)
      exact nl_not_mem_append _ _ (by decide) (lookup_getD_nl m hm p.id)
    · refine nl_not_mem_append _ _ ?_ (by decide)
      refine nl_not_mem_append _ _ ?_ hsnl
      exact nl_not_mem_append _ _ (nl_not_mem_append _ _ (by decide) hgnl)
        (by decide)
  · obtain ⟨_, hl⟩ := mem_of_ite_nil _ _ _ hl
    have : l = "2 GIVN " ++ p.givenNames := by simpa using hl
    rw [this]
    exact nl_not_mem_append _ _ (by decide) hgnl
  · obtain ⟨_, hl⟩ := mem_of_ite_nil _ _ _ hl
    have : l = "2 SURN " ++ p.surname := by simpa using hl
    rw [this]
    exact nl_not_mem_append _ _ (by decide) hsnl
  · by_cases hc : p.sex = .U
    · rw [if_pos hc] at hl
      exact absurd hl (List.not_mem_nil l)
    · rw [if_neg hc] at hl
      have : l = "1 SEX " ++ sexStr p.sex := by simpa using hl
      rw [this]
      exact nl_not_mem_append _ _ (by decide) (sexStr_nl p.sex)
  · exact eventLines_nl "BIRT" "1 BIRT" p.birth (by decide) hb l hl
  · exact eventLines_nl "DEAT" "1 DEAT" p.death (by decide) hd l hl
  · obtain ⟨_, hl⟩ := mem_of_ite_nil _ _ _ hl
    have : l = "1 NOTE " ++ replaceNLs (p.notes.getD "") := by simpa using hl
    rw [this]
    refine nl_not_mem_append _ _ (by decide) ?_
    show '\n' ∉ replaceNL (p.notes.getD "").data
    rw [replaceNL_of_no_nl _ (fieldOK_getD_nl _ hn)]
    exact fieldOK_getD_nl _ hn
  · obtain ⟨f, _, hl⟩ := hl
    rcases hl with h1 | h2
    · obtain ⟨_, h1⟩ := mem_of_ite_nil _ _ _ h1
      have : l = "1 FAMS " ++ (mapGetLast m f.id).getD "" := by simpa using h1
      rw [this]
      exact nl_not_mem_append _ _ (by decide) (lookup_getD_nl m hm f.id)
    · obtain ⟨_, h2⟩ := mem_of_ite_nil _ _ _ h2
      have : l = "1 FAMC " ++ (mapGetLast m f.id).getD "" := by simpa using h2
      rw [this]
      exact nl_not_mem_append _ _ (by decide) (lookup_getD_nl m hm f.id)

theorem familyLines_nl (P : List Person) (m : List (String × String))
    (f : Family) (hm : ∀ k v, mapGetLast m k = some v → '\n' ∉ v.data)
    (hf : FamilyExportable P f) :
    ∀ l ∈ familyLines m f, '\n' ∉ l.data := by
  obtain ⟨_, _, _, _, hmd, hdd, _⟩ := hf
  have hmOK : dpOK f.marriageDate := by
    cases hmc : f.marriageDate with
    | none => trivial
    | some dp =>
      obtain ⟨_, h1, h2, h3⟩ := hmd dp hmc
      exact ⟨h1, h2, h3⟩
  have hdOK : fieldOK (f.divorceDate.bind (·.date)) := by
    cases hdc : f.divorceDate with
    | none => trivial
    | some dp =>
      obtain ⟨⟨d, hd1, hd2, hd3⟩, _⟩ := hdd dp hdc
      show fieldOK dp.date
      rw [hd1]
      exact ⟨hd2, hd3⟩
  intro l hl
  simp only [familyLines, List.mem_append, List.mem_cons, List.not_mem_nil,
    or_false, List.mem_flatMap] at hl
  rcases hl with ((((rfl | hl) | hl) | hl) | hl) | hl
  · refine nl_not_mem_append _ _ ?_ (by decide)
    exact nl_not_mem_append _ _ (by decide) (lookup_getD_nl m hm f.id)
  · obtain ⟨_, hl⟩ := mem_of_ite_nil _ _ _ hl
    have : l = "1 HUSB " ++ (mapGetLast m (f.spouse1Id.getD "")).getD "" := by
      simpa using hl
    rw [this]
    exact nl_not_mem_append _ _ (by decide) (lookup_getD_nl m hm _)
  · obtain ⟨_, hl⟩ := mem_of_ite_nil _ _ _ hl
    have : l = "1 WIFE " ++ (mapGetLast m (f.spouse2Id.getD "")).getD "" := by
      simpa using hl
    rw [this]
    exact nl_not_mem_append _ _ (by decide) (lookup_getD_nl m hm _)
  · obtain ⟨_, hl⟩ := mem_of_ite_nil _ _ _ hl
    rcases List.mem_append.mp hl with h1 | h23
    · rcases List.mem_append.mp h1 with h1 | h2
      · have : l = "1 MARR" := by simpa using h1
        rw [this]
        decide
      · obtain ⟨_, h2⟩ := mem_of_ite_nil _ _ _ h2
        have : l = "2 DATE " ++ (f.marriageDate.bind (·.date)).getD "" := by
          simpa using h2
        rw [this]
        exact nl_not_mem_append _ _ (by decide)
          (fieldOK_getD_nl _ (dpOK_date _ hmOK))
    · obtain ⟨_, h3⟩ := mem_of_ite_nil _ _ _ h23
      have : l = "2 PLAC " ++ (f.marriageDate.bind (·.place)).getD "" := by
        simpa using h3
      rw [this]
      exact nl_not_mem_append _ _ (by decide)
        (fieldOK_getD_nl _ (dpOK_place _ hmOK))
  · obtain ⟨_, hl⟩ := mem_of_ite_nil _ _ _ hl
    rcases List.mem_append.mp hl with h1 | h2
    · have : l = "1 DIV" := by simpa using h1
      rw [this]
      decide
    · obtain ⟨_, h2⟩ := mem_of_ite_nil _ _ _ h2
      have : l = "2 DATE " ++ (f.divorceDate.bind (·.date)).getD "" := by
        simpa using h2
      rw [this]
      exact nl_not_mem_append _ _ (by decide) (fieldOK_getD_nl _ hdOK)
  · obtain ⟨c, _, hl⟩ := hl
    obtain ⟨_, hl⟩ := mem_of_ite_nil _ _ _ hl
    have : l = "1 CHIL " ++ (mapGetLast m c).getD "" := by simpa using hl
    rw [this]
    exact nl_not_mem_append _ _ (by decide) (lookup_getD_nl m hm c)

theorem exportLines_nl (db : Db) (hdb : DbExportable db) :
    ∀ l ∈ exportLines db, '\n' ∉ l.data := by
  obtain ⟨hper, hfam, _⟩ := hdb
  intro l hl
  simp only [exportLines, List.mem_append, List.mem_flatMap] at hl
  have hm := idToPointer_values_nl (db.persons.filter (fun p => !p.deleted))
    (db.families.filter (fun f => !f.deleted))
  rcases hl with ((hl | hl) | hl) | hl
  · exact headerLines_nl db.clock l hl
  · obtain ⟨p, hp, hl⟩ := hl
    exact personLines_nl _ _ p hm (hper p (List.mem_of_mem_filter hp)) l hl
  · obtain ⟨f, hf, hl⟩ := hl
    exact familyLines_nl db.persons _ f hm
      (hfam f (List.mem_of_mem_filter hf)) l hl
  · have : l = "0 TRLR" := by simpa using hl
    rw [this]
    decide

/-! ### The parse of the full exported document -/

theorem exportLines_parse (db : Db) (hdb : DbExportable db) :
    (exportLines db).filterMap parseLineS = exportPls db := by
  obtain ⟨_, _, hnd⟩ := hdb
  have hndf : ((db.persons.filter (fun p => !p.deleted)).map Person.id ++
      (db.families.filter (fun f => !f.deleted)).map Family.id).Nodup := by
    refine List.Nodup.sublist (List.Sublist.append ?_ ?_) hnd
    · exact (List.filter_sublist _).map Person.id
    · exact (List.filter_sublist _).map Family.id
  have hpers : ∀ p ∈ db.persons.filter (fun p => !p.deleted),
      (personLines (db.families.filter (fun f => !f.deleted))
        (idToPointerOf (db.persons.filter (fun p => !p.deleted))
          (db.families.filter (fun f => !f.deleted))) p).filterMap parseLineS =
      personPls (db.families.filter (fun f => !f.deleted))
        (idToPointerOf (db.persons.filter (fun p => !p.deleted))
          (db.families.filter (fun f => !f.deleted))) p := by
    intro p hp
    obtain ⟨v, hv, hat, hsp, _, _⟩ := pointer_facts _ _ p.id
      (List.mem_append.mpr (Or.inl (List.mem_map.mpr ⟨p, hp, rfl⟩)))
    exact personLines_parse _ _ p (by rw [hv]; exact hat) (by rw [hv]; exact hsp)
  have hfams : ∀ f ∈ db.families.filter (fun f => !f.deleted),
      (familyLines (idToPointerOf (db.persons.filter (fun p => !p.deleted))
          (db.families.filter (fun f => !f.deleted))) f).filterMap parseLineS =
      famPls (idToPointerOf (db.persons.filter (fun p => !p.deleted))
          (db.families.filter (fun f => !f.deleted))) f := by
    intro f hf
    obtain ⟨v, hv, hat, hsp, _, _⟩ := pointer_facts _ _ f.id
      (List.mem_append.mpr (Or.inr (List.mem_map.mpr ⟨f, hf, rfl⟩)))
    exact familyLines_parse _ f (by rw [hv]; exact hat) (by rw [hv]; exact hsp)
  have htrlr : parseLineS "0 TRLR" = some ⟨0, none, "TRLR", none⟩ := by decide
  simp only [exportLines, exportPls, List.filterMap_append]
  rw [headerLines_parse, filterMap_parse_flatMap _ _ _ hpers,
    filterMap_parse_flatMap _ _ _ hfams, filterMap_singleton_some _ _ htrlr]

theorem export_split_parse (db : Db) (hdb : DbExportable db) :
    (splitOnChar '\n' (exportGedcom db).data).filterMap parseLine =
      exportPls db := by
  obtain ⟨tail, htail⟩ : ∃ t, exportLines db = "0 HEAD" :: t := ⟨_, rfl⟩
  have hnl : ∀ x ∈ ("0 HEAD" :: tail), '\n' ∉ x.data := by
    rw [← htail]
    exact exportLines_nl db hdb
  rw [exportGedcom, htail, joinNL_split _ _ hnl, List.filterMap_map]
  have hfg : (parseLine ∘ String.data) = parseLineS := rfl
  rw [hfg, ← htail]
  exact exportLines_parse db hdb

/-! ### The record forest of the exported document -/

/-- The record node of a person's conditional `GIVN` line. -/
def givnNodes (p : Person) : List GNode :=
  if truthyS p.givenNames then [⟨"GIVN", none, some p.givenNames, []⟩] else []

/-- The record node of a person's conditional `SURN` line. -/
def surnNodes (p : Person) : List GNode :=
  if truthyS p.surname then [⟨"SURN", none, some p.surname, []⟩] else []

/-- The `NAME` record node of an exported person. -/
def nameNodeG (p : Person) : GNode :=
  ⟨"NAME", none, some (p.givenNames ++ " /" ++ p.surname ++ "/"),
    givnNodes p ++ surnNodes p⟩

/-- The record node of a person's conditional `SEX` line. -/
def sexNodes (p : Person) : List GNode :=
  if p.sex = .U then [] else [⟨"SEX", none, some (sexStr p.sex), []⟩]

/-- The record node of a conditional `BIRT`/`DEAT` event block. -/
def eventNodes (tag : String) (e : Option DatePlace) : List GNode :=
  let d := e.bind (·.date)
  let pl := e.bind (·.place)
  if truthy d || truthy pl then
    [⟨tag, none, none,
      (if truthy d then [⟨"DATE", none, some (d.getD ""), []⟩] else [])
      ++ (if truthy pl then [⟨"PLAC", none, some (pl.getD ""), []⟩] else [])⟩]
  else []

/-- The record node of a person's conditional `NOTE` line. -/
def noteNodes (p : Person) : List GNode :=
  if truthy p.notes then
    [⟨"NOTE", none, some (replaceNLs (p.notes.getD "")), []⟩]
  else []

/-- The record nodes of a person's `FAMS`/`FAMC` lines for one family. -/
def famsNodes (m : List (String × String)) (p : Person) (f : Family) :
    List GNode :=
  let fp := (mapGetLast m f.id).getD ""
  (if f.spouse1Id == some p.id || f.spouse2Id == some p.id then
    [⟨"FAMS", none, mkData (some fp.data), []⟩] else [])
  ++ (if f.childIds.contains p.id then
    [⟨"FAMC", none, mkData (some fp.data), []⟩] else [])

/-- The full record node of an exported person. -/
def personG (families : List Family) (m : List (String × String))
    (p : Person) : GNode :=
  ⟨"INDI", some ((mapGetLast m p.id).getD ""), none,
    nameNodeG p :: (sexNodes p ++ eventNodes "BIRT" p.birth
      ++ eventNodes "DEAT" p.death ++ noteNodes p
      ++ families.flatMap (famsNodes m p))⟩

/-- The record node of a family's conditional `HUSB`/`WIFE` line. -/
def spouseNodes (m : List (String × String)) (s : Option String)
    (tag : String) : List GNode :=
  if truthy s && (mapGetLast m (s.getD "")).isSome then
    [⟨tag, none, mkData (some ((mapGetLast m (s.getD "")).getD "").data), []⟩]
  else []

/-- The record node of a family's conditional `MARR` block. -/
def marrNodes (f : Family) : List GNode :=
  let md := f.marriageDate.bind (·.date)
  let mp := f.marriageDate.bind (·.place)
  if f.type == .married || f.marriageDate.isSome then
    [⟨"MARR", none, none,
      (if truthy md then [⟨"DATE", none, some (md.getD ""), []⟩] else [])
      ++ (if truthy mp then [⟨"PLAC", none, some (mp.getD ""), []⟩] else [])⟩]
  else []

/-- The record node of a family's conditional `DIV` block. -/
def divNodes (f : Family) : List GNode :=
  let dd := f.divorceDate.bind (·.date)
  if f.divorceDate.isSome then
    [⟨"DIV", none, none,
      if truthy dd then [⟨"DATE", none, some (dd.getD ""), []⟩] else []⟩]
  else []

/-- The record nodes of a family's `CHIL` lines. -/
def chilNodes (m : List (String × String)) (f : Family) : List GNode :=
  f.childIds.flatMap (fun c =>
    if (mapGetLast m c).isSome then
      [⟨"CHIL", none, mkData (some ((mapGetLast m c).getD "").data), []⟩]
    else [])

/-- The full record node of an exported family. -/
def famG (m : List (String × String)) (f : Family) : GNode :=
  ⟨"FAM", some ((mapGetLast m f.id).getD ""), none,
    spouseNodes m f.spouse1Id "HUSB" ++ spouseNodes m f.spouse2Id "WIFE"
    ++ marrNodes f ++ divNodes f ++ chilNodes m f⟩

/-- The header record node of the exported document. -/
def hdrG (clock : Nat) : GNode :=
  ⟨"HEAD", none, none,
    [⟨"SOUR", none, some "My Kin Map", [⟨"VERS", none, some "1.0", []⟩]⟩,
     ⟨"GEDC", none, none,
       [⟨"VERS", none, some "5.5.1", []⟩,
        ⟨"FORM", none, some "LINEAGE-LINKED", []⟩]⟩,
     ⟨"CHAR", none, some "UTF-8", []⟩,
     ⟨"DATE", none, some (exportDateStr clock), []⟩]⟩

/-- The trailer record node. -/
def trlrG : GNode := ⟨"TRLR", none, none, []⟩

theorem bf_block (lvl : Nat) (p : PLine) (A : List PLine)
    (hp : p.level = lvl) (hA : ∀ q ∈ A, lvl < q.level) :
    bf lvl (p :: A) = [GNode.mk p.tag p.pointer p.data (bf (lvl + 1) A)] := by
  have h := bf_cons_block lvl p A [] hp hA (headOK_nil lvl)
  simpa using h

theorem headOK_of_forall_le (lvl : Nat) (L : List PLine)
    (h : ∀ q ∈ L, q.level ≤ lvl) : headOK lvl L := by
  intro b hb
  cases L with
  | nil => simp at hb
  | cons x xs =>
    have hx : x = b := by simpa using hb
    subst hx
    exact h x (List.mem_cons_self _ _)

theorem headOK_flatMap (lvl : Nat) (g : α → List PLine) :
    ∀ (xs : List α) (rest : List PLine), (∀ x ∈ xs, SegOK lvl (g x)) →
    headOK lvl rest → headOK lvl (xs.flatMap g ++ rest)
  | [], rest, _, hrest => by simpa using hrest
  | x :: xs, rest, hx, hrest => by
    rw [List.flatMap_cons, List.append_assoc]
    exact headOK_append lvl _ _
      (headOK_of_SegOK lvl _ (hx x (List.mem_cons_self _ _)))
      (headOK_flatMap lvl g xs rest
        (fun y hy => hx y (List.mem_cons_of_mem _ hy)) hrest)

theorem bf_flatMap (lvl : Nat) (g : α → List PLine) :
    ∀ (xs : List α) (rest : List PLine), (∀ x ∈ xs, SegOK lvl (g x)) →
    headOK lvl rest →
    bf lvl (xs.flatMap g ++ rest) =
      xs.flatMap (fun x => bf lvl (g x)) ++ bf lvl rest
  | [], rest, _, _ => by simp
  | x :: xs, rest, hx, hrest => by
    rw [List.flatMap_cons, List.flatMap_cons, List.append_assoc,
      bf_seg_append lvl (g x) _ (hx x (List.mem_cons_self _ _))
        (headOK_flatMap lvl g xs rest
          (fun y hy => hx y (List.mem_cons_of_mem _ hy)) hrest),
      bf_flatMap lvl g xs rest
        (fun y hy => hx y (List.mem_cons_of_mem _ hy)) hrest,
      List.append_assoc]

theorem flatMap_eq_map_of_forall (g : α → List β) (h : α → β) :
    ∀ xs : List α, (∀ x ∈ xs, g x = [h x]) → xs.flatMap g = xs.map h
  | [], _ => rfl
  | x :: xs, hx => by
    rw [List.flatMap_cons, hx x (List.mem_cons_self _ _),
      flatMap_eq_map_of_forall g h xs
        (fun y hy => hx y (List.mem_cons_of_mem _ hy))]
    rfl

theorem givnPls_lv (p : Person) : ∀ q ∈ givnPls p, q.level = 2 := by
  intro q hq
  obtain ⟨_, hq⟩ := mem_of_ite_nil _ _ _ hq
  have : q = ⟨2, none, "GIVN", some p.givenNames⟩ := by simpa using hq
  rw [this]

theorem surnPls_lv (p : Person) : ∀ q ∈ surnPls p, q.level = 2 := by
  intro q hq
  obtain ⟨_, hq⟩ := mem_of_ite_nil _ _ _ hq
  have : q = ⟨2, none, "SURN", some p.surname⟩ := by simpa using hq
  rw [this]

theorem sexPls_lv (p : Person) : ∀ q ∈ sexPls p, q.level = 1 := by
  intro q hq
  rw [sexPls] at hq
  by_cases hc : p.sex = .U
  · rw [if_pos hc] at hq
    exact absurd hq (List.not_mem_nil q)
  · rw [if_neg hc] at hq
    have : q = ⟨1, none, "SEX", some (sexStr p.sex)⟩ := by simpa using hq
    rw [this]

theorem eventPls_SegOK (tag : String) (e : Option DatePlace) :
    SegOK 1 (eventPls tag e) := by
  rw [eventPls]
  refine SegOK_ite 1 _ _ ?_
  refine Or.inr ⟨_, _, rfl, rfl, ?_⟩
  intro q hq
  rcases List.mem_append.mp hq with h1 | h2
  · obtain ⟨_, h1⟩ := mem_of_ite_nil _ _ _ h1
    have : q = ⟨2, none, "DATE", some ((e.bind (·.date)).getD "")⟩ := by
      simpa using h1
    rw [this]
    exact Nat.lt_succ_self 1
  · obtain ⟨_, h2⟩ := mem_of_ite_nil _ _ _ h2
    have : q = ⟨2, none, "PLAC", some ((e.bind (·.place)).getD "")⟩ := by
      simpa using h2
    rw [this]
    exact Nat.lt_succ_self 1

theorem SegOK_pos (seg : List PLine) (h : SegOK 1 seg) :
    ∀ q ∈ seg, 0 < q.level := by
  rcases h with rfl | ⟨p, A, rfl, hp, hA⟩
  · intro q hq
    exact absurd hq (List.not_mem_nil q)
  · intro q hq
    rcases List.mem_cons.mp hq with rfl | hq2
    · rw [hp]
      exact Nat.one_pos
    · exact Nat.lt_trans Nat.one_pos (hA q hq2)

theorem notePls_lv (p : Person) : ∀ q ∈ notePls p, q.level = 1 := by
  intro q hq
  obtain ⟨_, hq⟩ := mem_of_ite_nil _ _ _ hq
  have : q = ⟨1, none, "NOTE", some (replaceNLs (p.notes.getD ""))⟩ := by
    simpa using hq
  rw [this]

theorem famsPls_lv (m : List (String × String)) (p : Person) (f : Family) :
    ∀ q ∈ famsPls m p f, q.level = 1 := by
  intro q hq
  rw [famsPls] at hq
  rcases List.mem_append.mp hq with h1 | h2
  · obtain ⟨_, h1⟩ := mem_of_ite_nil _ _ _ h1
    have : q = ⟨1, none, "FAMS",
        mkData (some ((mapGetLast m f.id).getD "").data)⟩ := by simpa using h1
    rw [this]
  · obtain ⟨_, h2⟩ := mem_of_ite_nil _ _ _ h2
    have : q = ⟨1, none, "FAMC",
        mkData (some ((mapGetLast m f.id).getD "").data)⟩ := by simpa using h2
    rw [this]

theorem famsFlat_lv (m : List (String × String)) (p : Person)
    (families : List Family) :
    ∀ q ∈ families.flatMap (famsPls m p), q.level = 1 := by
  intro q hq
  obtain ⟨f, _, hq⟩ := List.mem_flatMap.mp hq
  exact famsPls_lv m p f q hq

theorem spousePls_lv (m : List (String × String)) (s : Option String)
    (tag : String) : ∀ q ∈ spousePls m s tag, q.level = 1 := by
  intro q hq
  obtain ⟨_, hq⟩ := mem_of_ite_nil _ _ _ hq
  have : q = ⟨1, none, tag,
      mkData (some ((mapGetLast m (s.getD "")).getD "").data)⟩ := by
    simpa using hq
  rw [this]

theorem marrPls_SegOK (f : Family) : SegOK 1 (marrPls f) := by
  rw [marrPls]
  refine SegOK_ite 1 _ _ ?_
  refine Or.inr ⟨_, _, rfl, rfl, ?_⟩
  intro q hq
  rcases List.mem_append.mp hq with h1 | h2
  · obtain ⟨_, h1⟩ := mem_of_ite_nil _ _ _ h1
    have : q = ⟨2, none, "DATE",
        some ((f.marriageDate.bind (·.date)).getD "")⟩ := by simpa using h1
    rw [this]
    exact Nat.lt_succ_self 1
  · obtain ⟨_, h2⟩ := mem_of_ite_nil _ _ _ h2
    have : q = ⟨2, none, "PLAC",
        some ((f.marriageDate.bind (·.place)).getD "")⟩ := by simpa using h2
    rw [this]
    exact Nat.lt_succ_self 1

theorem divPls_SegOK (f : Family) : SegOK 1 (divPls f) := by
  rw [divPls]
  refine SegOK_ite 1 _ _ ?_
  refine Or.inr ⟨_, _, rfl, rfl, ?_⟩
  intro q hq
  obtain ⟨_, hq⟩ := mem_of_ite_nil _ _ _ hq
  have : q = ⟨2, none, "DATE",
      some ((f.divorceDate.bind (·.date)).getD "")⟩ := by simpa using hq
  rw [this]
  exact Nat.lt_succ_self 1

theorem chilPls_lv (m : List (String × String)) (f : Family) :
    ∀ q ∈ chilPls m f, q.level = 1 := by
  intro q hq
  obtain ⟨c, _, hq⟩ := List.mem_flatMap.mp hq
  obtain ⟨_, hq⟩ := mem_of_ite_nil _ _ _ hq
  have : q = ⟨1, none, "CHIL",
      mkData (some ((mapGetLast m c).getD "").data)⟩ := by simpa using hq
  rw [this]

theorem leafs_of_ite (c : Prop) [Decidable c] (q : PLine)
    (g : PLine → GNode) :
    (if c then [q] else []).map g = if c then [g q] else [] :=
  apply_ite (List.map g) c [q] []

theorem eventPls_forest (tag : String) (e : Option DatePlace) :
    bf 1 (eventPls tag e) = eventNodes tag e := by
  rw [eventPls, eventNodes]
  by_cases hc : (truthy (e.bind (·.date)) || truthy (e.bind (·.place))) = true
  · rw [if_pos hc, if_pos hc]
    have hA : ∀ q ∈ ((if truthy (e.bind (·.date)) then
        [(⟨2, none, "DATE", some ((e.bind (·.date)).getD "")⟩ : PLine)] else [])
        ++ (if truthy (e.bind (·.place)) then
        [(⟨2, none, "PLAC", some ((e.bind (·.place)).getD "")⟩ : PLine)]
        else [])), 1 < q.level := by
      intro q hq
      rcases List.mem_append.mp hq with h1 | h2
      · obtain ⟨_, h1⟩ := mem_of_ite_nil _ _ _ h1
        have : q = ⟨2, none, "DATE", some ((e.bind (·.date)).getD "")⟩ := by
          simpa using h1
        rw [this]
        exact Nat.lt_succ_self 1
      · obtain ⟨_, h2⟩ := mem_of_ite_nil _ _ _ h2
        have : q = ⟨2, none, "PLAC", some ((e.bind (·.place)).getD "")⟩ := by
          simpa using h2
        rw [this]
        exact Nat.lt_succ_self 1
    rw [bf_block 1 _ _ rfl hA]
    have hleaf := bf_leaf_row 2 ((if truthy (e.bind (·.date)) then
        [(⟨2, none, "DATE", some ((e.bind (·.date)).getD "")⟩ : PLine)] else [])
        ++ (if truthy (e.bind (·.place)) then
        [(⟨2, none, "PLAC", some ((e.bind (·.place)).getD "")⟩ : PLine)]
        else []))
      (by
        intro q hq
        rcases List.mem_append.mp hq with h1 | h2
        · obtain ⟨_, h1⟩ := mem_of_ite_nil _ _ _ h1
          have : q = ⟨2, none, "DATE", some ((e.bind (·.date)).getD "")⟩ := by
            simpa using h1
          rw [this]
        · obtain ⟨_, h2⟩ := mem_of_ite_nil _ _ _ h2
          have : q = ⟨2, none, "PLAC", some ((e.bind (·.place)).getD "")⟩ := by
            simpa using h2
          rw [this])
    rw [hleaf, List.map_append, leafs_of_ite, leafs_of_ite]
  · rw [if_neg hc, if_neg hc]
    rfl

theorem map_flatMap_comm (g : β → γ) (h : α → List β) :
    ∀ xs : List α, (xs.flatMap h).map g = xs.flatMap (fun x => (h x).map g)
  | [] => rfl
  | x :: xs => by
    rw [List.flatMap_cons, List.flatMap_cons, List.map_append,
      map_flatMap_comm g h xs]

theorem flatMap_congr_fn (h1 h2 : α → List β) :
    ∀ xs : List α, (∀ x ∈ xs, h1 x = h2 x) → xs.flatMap h1 = xs.flatMap h2
  | [], _ => rfl
  | x :: xs, hx => by
    rw [List.flatMap_cons, List.flatMap_cons, hx x (List.mem_cons_self _ _),
      flatMap_congr_fn h1 h2 xs (fun y hy => hx y (List.mem_cons_of_mem _ hy))]

theorem sexPls_SegOK (p : Person) : SegOK 1 (sexPls p) := by
  rw [sexPls]
  by_cases hc : p.sex = .U
  · rw [if_pos hc]
    exact Or.inl rfl
  · rw [if_neg hc]
    exact Or.inr ⟨_, [], rfl, rfl, fun q hq => absurd hq (List.not_mem_nil q)⟩

theorem sexPls_forest (p : Person) : bf 1 (sexPls p) = sexNodes p := by
  rw [sexPls, sexNodes]
  by_cases hc : p.sex = .U
  · rw [if_pos hc, if_pos hc]
    rfl
  · rw [if_neg hc, if_neg hc,
      bf_block 1 _ [] rfl (fun q hq => absurd hq (List.not_mem_nil q))]
    rfl

theorem notePls_SegOK (p : Person) : SegOK 1 (notePls p) := by
  rw [notePls]
  refine SegOK_ite 1 _ _ ?_
  exact Or.inr ⟨_, [], rfl, rfl, fun q hq => absurd hq (List.not_mem_nil q)⟩

theorem notePls_forest (p : Person) : bf 1 (notePls p) = noteNodes p := by
  rw [notePls, noteNodes]
  by_cases hc : truthy p.notes = true
  · rw [if_pos hc, if_pos hc,
      bf_block 1 _ [] rfl (fun q hq => absurd hq (List.not_mem_nil q))]
    rfl
  · rw [if_neg hc, if_neg hc]
    rfl

theorem nameSeg_forest (p : Person) :
    bf 1 ((⟨1, none, "NAME",
        some (p.givenNames ++ " /" ++ p.surname ++ "/")⟩ : PLine) ::
      (givnPls p ++ surnPls p)) = [nameNodeG p] := by
  have hA : ∀ q ∈ givnPls p ++ surnPls p, 1 < q.level := by
    intro q hq
    rcases List.mem_append.mp hq with h1 | h2
    · rw [givnPls_lv p q h1]
      exact Nat.lt_succ_self 1
    · rw [surnPls_lv p q h2]
      exact Nat.lt_succ_self 1
  rw [bf_block 1 _ _ rfl hA]
  have hleaf := bf_leaf_row 2 (givnPls p ++ surnPls p)
    (by
      intro q hq
      rcases List.mem_append.mp hq with h1 | h2
      · exact givnPls_lv p q h1
      · exact surnPls_lv p q h2)
  rw [hleaf, List.map_append]
  rw [nameNodeG, givnNodes, surnNodes, givnPls, surnPls,
    leafs_of_ite, leafs_of_ite]

theorem famsFlat_forest (m : List (String × String)) (p : Person)
    (families : List Family) :
    bf 1 (families.flatMap (famsPls m p)) = families.flatMap (famsNodes m p) := by
  rw [bf_leaf_row 1 _ (famsFlat_lv m p families), map_flatMap_comm]
  refine flatMap_congr_fn _ _ families ?_
  intro f _
  rw [famsPls, famsNodes, List.map_append, leafs_of_ite, leafs_of_ite]

theorem spousePls_SegOK (m : List (String × String)) (s : Option String)
    (tag : String) : SegOK 1 (spousePls m s tag) := by
  rw [spousePls]
  refine SegOK_ite 1 _ _ ?_
  exact Or.inr ⟨_, [], rfl, rfl, fun q hq => absurd hq (List.not_mem_nil q)⟩

theorem spousePls_forest (m : List (String × String)) (s : Option String)
    (tag : String) : bf 1 (spousePls m s tag) = spouseNodes m s tag := by
  rw [spousePls, spouseNodes]
  by_cases hc : (truthy s && (mapGetLast m (s.getD "")).isSome) = true
  · rw [if_pos hc, if_pos hc,
      bf_block 1 _ [] rfl (fun q hq => absurd hq (List.not_mem_nil q))]
    rfl
  · rw [if_neg hc, if_neg hc]
    rfl

theorem marrPls_forest (f : Family) : bf 1 (marrPls f) = marrNodes f := by
  rw [marrPls, marrNodes]
  by_cases hc : (f.type == .married || f.marriageDate.isSome) = true
  · rw [if_pos hc, if_pos hc]
    have hA : ∀ q ∈ ((if truthy (f.marriageDate.bind (·.date)) then
        [(⟨2, none, "DATE", some ((f.marriageDate.bind (·.date)).getD "")⟩ :
          PLine)] else [])
        ++ (if truthy (f.marriageDate.bind (·.place)) then
        [(⟨2, none, "PLAC", some ((f.marriageDate.bind (·.place)).getD "")⟩ :
          PLine)] else [])), 1 < q.level := by
      intro q hq
      rcases List.mem_append.mp hq with h1 | h2
      · obtain ⟨_, h1⟩ := mem_of_ite_nil _ _ _ h1
        have : q = ⟨2, none, "DATE",
            some ((f.marriageDate.bind (·.date)).getD "")⟩ := by simpa using h1
        rw [this]
        exact Nat.lt_succ_self 1
      · obtain ⟨_, h2⟩ := mem_of_ite_nil _ _ _ h2
        have : q = ⟨2, none, "PLAC",
            some ((f.marriageDate.bind (·.place)).getD "")⟩ := by simpa using h2
        rw [this]
        exact Nat.lt_succ_self 1
    rw [bf_block 1 _ _ rfl hA]
    have hleaf := bf_leaf_row 2 ((if truthy (f.marriageDate.bind (·.date)) then
        [(⟨2, none, "DATE", some ((f.marriageDate.bind (·.date)).getD "")⟩ :
          PLine)] else [])
        ++ (if truthy (f.marriageDate.bind (·.place)) then
        [(⟨2, none, "PLAC", some ((f.marriageDate.bind (·.place)).getD "")⟩ :
          PLine)] else []))
      (by
        intro q hq
        rcases List.mem_append.mp hq with h1 | h2
        · obtain ⟨_, h1⟩ := mem_of_ite_nil _ _ _ h1
          have : q = ⟨2, none, "DATE",
              some ((f.marriageDate.bind (·.date)).getD "")⟩ := by
            simpa using h1
          rw [this]
        · obtain ⟨_, h2⟩ := mem_of_ite_nil _ _ _ h2
          have : q = ⟨2, none, "PLAC",
              some ((f.marriageDate.bind (·.place)).getD "")⟩ := by
            simpa using h2
          rw [this])
    rw [hleaf, List.map_append, leafs_of_ite, leafs_of_ite]
  · rw [if_neg hc, if_neg hc]
    rfl

theorem divPls_forest (f : Family) : bf 1 (divPls f) = divNodes f := by
  rw [divPls, divNodes]
  by_cases hc : f.divorceDate.isSome = true
  · rw [if_pos hc, if_pos hc]
    have hA : ∀ q ∈ (if truthy (f.divorceDate.bind (·.date)) then
        [(⟨2, none, "DATE", some ((f.divorceDate.bind (·.date)).getD "")⟩ :
          PLine)] else []), 1 < q.level := by
      intro q hq
      obtain ⟨_, hq⟩ := mem_of_ite_nil _ _ _ hq
      have : q = ⟨2, none, "DATE",
          some ((f.divorceDate.bind (·.date)).getD "")⟩ := by simpa using hq
      rw [this]
      exact Nat.lt_succ_self 1
    rw [bf_block 1 _ _ rfl hA]
    have hleaf := bf_leaf_row 2 (if truthy (f.divorceDate.bind (·.date)) then
        [(⟨2, none, "DATE", some ((f.divorceDate.bind (·.date)).getD "")⟩ :
          PLine)] else [])
      (by
        intro q hq
        obtain ⟨_, hq⟩ := mem_of_ite_nil _ _ _ hq
        have : q = ⟨2, none, "DATE",
            some ((f.divorceDate.bind (·.date)).getD "")⟩ := by simpa using hq
        rw [this])
    rw [hleaf, leafs_of_ite]
  · rw [if_neg hc, if_neg hc]
    rfl

theorem chilPls_forest (m : List (String × String)) (f : Family) :
    bf 1 (chilPls m f) = chilNodes m f := by
  rw [bf_leaf_row 1 _ (chilPls_lv m f)]
  rw [chilPls, chilNodes, map_flatMap_comm]
  refine flatMap_congr_fn _ _ f.childIds ?_
  intro c _
  rw [leafs_of_ite]

theorem personPls_forest (families : List Family)
    (m : List (String × String)) (p : Person) :
    bf 0 (personPls families m p) = [personG families m p] := by
  have hA : ∀ q ∈ (⟨1, none, "NAME",
      some (p.givenNames ++ " /" ++ p.surname ++ "/")⟩ : PLine) ::
      (givnPls p ++ surnPls p ++ sexPls p ++ eventPls "BIRT" p.birth
       ++ eventPls "DEAT" p.death ++ notePls p
       ++ families.flatMap (famsPls m p)), 0 < q.level := by
    intro q hq
    rcases List.mem_cons.mp hq with rfl | hq
    · exact Nat.one_pos
    rcases List.mem_append.mp hq with h6 | hf
    · rcases List.mem_append.mp h6 with h5 | hn
      · rcases List.mem_append.mp h5 with h4 | hd
        · rcases List.mem_append.mp h4 with h3 | hb
          · rcases List.mem_append.mp h3 with h2 | hx
            · rcases List.mem_append.mp h2 with hg | hs
              · rw [givnPls_lv p q hg]
                omega
              · rw [surnPls_lv p q hs]
                omega
            · rw [sexPls_lv p q hx]
              omega
          · exact SegOK_pos _ (eventPls_SegOK "BIRT" p.birth) q hb
        · exact SegOK_pos _ (eventPls_SegOK "DEAT" p.death) q hd
      · rw [notePls_lv p q hn]
        omega
    · rw [famsFlat_lv m p families q hf]
      omega
  rw [personPls, bf_block 0 _ _ rfl hA]
  have hshape : ((⟨1, none, "NAME",
      some (p.givenNames ++ " /" ++ p.surname ++ "/")⟩ : PLine) ::
      (givnPls p ++ surnPls p ++ sexPls p ++ eventPls "BIRT" p.birth
       ++ eventPls "DEAT" p.death ++ notePls p
       ++ families.flatMap (famsPls m p))) =
      ((⟨1, none, "NAME",
        some (p.givenNames ++ " /" ++ p.surname ++ "/")⟩ : PLine) ::
        (givnPls p ++ surnPls p)) ++
      (sexPls p ++ (eventPls "BIRT" p.birth ++ (eventPls "DEAT" p.death ++
        (notePls p ++ families.flatMap (famsPls m p))))) := by
    simp [List.append_assoc]
  rw [hshape]
  have hHf : headOK 1 (families.flatMap (famsPls m p)) :=
    headOK_of_forall_le 1 _
      (fun q hq => Nat.le_of_eq (famsFlat_lv m p families q hq))
  have hHn : headOK 1 (notePls p ++ families.flatMap (famsPls m p)) :=
    headOK_append 1 _ _ (headOK_of_SegOK 1 _ (notePls_SegOK p)) hHf
  have hHd : headOK 1 (eventPls "DEAT" p.death ++
      (notePls p ++ families.flatMap (famsPls m p))) :=
    headOK_append 1 _ _ (headOK_of_SegOK 1 _ (eventPls_SegOK "DEAT" p.death)) hHn
  have hHb : headOK 1 (eventPls "BIRT" p.birth ++ (eventPls "DEAT" p.death ++
      (notePls p ++ families.flatMap (famsPls m p)))) :=
    headOK_append 1 _ _ (headOK_of_SegOK 1 _ (eventPls_SegOK "BIRT" p.birth)) hHd
  have hHx : headOK 1 (sexPls p ++ (eventPls "BIRT" p.birth ++
      (eventPls "DEAT" p.death ++
        (notePls p ++ families.flatMap (famsPls m p))))) :=
    headOK_append 1 _ _ (headOK_of_SegOK 1 _ (sexPls_SegOK p)) hHb
  have hSegName : SegOK 1 ((⟨1, none, "NAME",
      some (p.givenNames ++ " /" ++ p.surname ++ "/")⟩ : PLine) ::
      (givnPls p ++ surnPls p)) := by
    refine Or.inr ⟨_, _, rfl, rfl, ?_⟩
    intro q hq
    rcases List.mem_append.mp hq with h1 | h2
    · rw [givnPls_lv p q h1]
      omega
    · rw [surnPls_lv p q h2]
      omega
  rw [bf_seg_append 1 _ _ hSegName hHx, nameSeg_forest p,
    bf_seg_append 1 _ _ (sexPls_SegOK p) hHb, sexPls_forest p,
    bf_seg_append 1 _ _ (eventPls_SegOK "BIRT" p.birth) hHd,
    eventPls_forest "BIRT" p.birth,
    bf_seg_append 1 _ _ (eventPls_SegOK "DEAT" p.death) hHn,
    eventPls_forest "DEAT" p.death,
    bf_seg_append 1 _ _ (notePls_SegOK p) hHf, notePls_forest p,
    famsFlat_forest m p families]
  simp [personG, List.append_assoc]

theorem famPls_forest (m : List (String × String)) (f : Family) :
    bf 0 (famPls m f) = [famG m f] := by
  have hA : ∀ q ∈ spousePls m f.spouse1Id "HUSB"
      ++ spousePls m f.spouse2Id "WIFE" ++ marrPls f ++ divPls f
      ++ chilPls m f, 0 < q.level := by
    intro q hq
    rcases List.mem_append.mp hq with h4 | hc
    · rcases List.mem_append.mp h4 with h3 | hv
      · rcases List.mem_append.mp h3 with h2 | hm
        · rcases List.mem_append.mp h2 with h1 | hw
          · rw [spousePls_lv m f.spouse1Id "HUSB" q h1]
            omega
          · rw [spousePls_lv m f.spouse2Id "WIFE" q hw]
            omega
        · exact SegOK_pos _ (marrPls_SegOK f) q hm
      · exact SegOK_pos _ (divPls_SegOK f) q hv
    · rw [chilPls_lv m f q hc]
      omega
  rw [famPls, bf_block 0 _ _ rfl hA]
  have hshape : (spousePls m f.spouse1Id "HUSB"
      ++ spousePls m f.spouse2Id "WIFE" ++ marrPls f ++ divPls f
      ++ chilPls m f) =
      spousePls m f.spouse1Id "HUSB" ++ (spousePls m f.spouse2Id "WIFE" ++
        (marrPls f ++ (divPls f ++ chilPls m f))) := by
    simp [List.append_assoc]
  rw [hshape]
  have hHc : headOK 1 (chilPls m f) :=
    headOK_of_forall_le 1 _ (fun q hq => Nat.le_of_eq (chilPls_lv m f q hq))
  have hHv : headOK 1 (divPls f ++ chilPls m f) :=
    headOK_append 1 _ _ (headOK_of_SegOK 1 _ (divPls_SegOK f)) hHc
  have hHm : headOK 1 (marrPls f ++ (divPls f ++ chilPls m f)) :=
    headOK_append 1 _ _ (headOK_of_SegOK 1 _ (marrPls_SegOK f)) hHv
  have hHw : headOK 1 (spousePls m f.spouse2Id "WIFE" ++
      (marrPls f ++ (divPls f ++ chilPls m f))) :=
    headOK_append 1 _ _
      (headOK_of_SegOK 1 _ (spousePls_SegOK m f.spouse2Id "WIFE")) hHm
  rw [bf_seg_append 1 _ _ (spousePls_SegOK m f.spouse1Id "HUSB") hHw,
    spousePls_forest m f.spouse1Id "HUSB",
    bf_seg_append 1 _ _ (spousePls_SegOK m f.spouse2Id "WIFE") hHm,
    spousePls_forest m f.spouse2Id "WIFE",
    bf_seg_append 1 _ _ (marrPls_SegOK f) hHv, marrPls_forest f,
    bf_seg_append 1 _ _ (divPls_SegOK f) hHc, divPls_forest f,
    chilPls_forest m f]
  simp [famG, List.append_assoc]

theorem hdrP_forest (clock : Nat) : bf 0 (hdrP clock) = [hdrG clock] := rfl

theorem export_forest (db : Db) :
    bf 0 (exportPls db) = hdrG db.clock ::
      ((db.persons.filter (fun p => !p.deleted)).map
        (personG (db.families.filter (fun f => !f.deleted))
          (idToPointerOf (db.persons.filter (fun p => !p.deleted))
            (db.families.filter (fun f => !f.deleted)))) ++
       ((db.families.filter (fun f => !f.deleted)).map
        (famG (idToPointerOf (db.persons.filter (fun p => !p.deleted))
            (db.families.filter (fun f => !f.deleted)))) ++ [trlrG])) := by
  have hSegHdr : SegOK 0 (hdrP db.clock) := by
    refine Or.inr ⟨_, _, rfl, rfl, ?_⟩
    intro q hq
    simp only [List.mem_cons, List.not_mem_nil, or_false] at hq
    rcases hq with rfl | rfl | rfl | rfl | rfl | rfl | rfl
    · exact Nat.one_pos
    · exact Nat.succ_pos 1
    · exact Nat.one_pos
    · exact Nat.succ_pos 1
    · exact Nat.succ_pos 1
    · exact Nat.one_pos
    · exact Nat.one_pos
  have hTrlr : headOK 0 ([(⟨0, none, "TRLR", none⟩ : PLine)]) :=
    headOK_of_forall_le 0 _ (by
      intro q hq
      have : q = ⟨0, none, "TRLR", none⟩ := by simpa using hq
      rw [this])
  have hPerSeg : ∀ p ∈ db.persons.filter (fun p => !p.deleted),
      SegOK 0 (personPls (db.families.filter (fun f => !f.deleted))
        (idToPointerOf (db.persons.filter (fun p => !p.deleted))
          (db.families.filter (fun f => !f.deleted))) p) := by
    intro p _
    rw [personPls]
    refine Or.inr ⟨_, _, rfl, rfl, ?_⟩
    intro q hq
    rcases List.mem_cons.mp hq with rfl | hq2
    · exact Nat.one_pos
    rcases List.mem_append.mp hq2 with h6 | hf
    · rcases List.mem_append.mp h6 with h5 | hn
      · rcases List.mem_append.mp h5 with h4 | hd
        · rcases List.mem_append.mp h4 with h3 | hb
          · rcases List.mem_append.mp h3 with h2 | hx
            · rcases List.mem_append.mp h2 with hg | hs
              · rw [givnPls_lv p q hg]
                omega
              · rw [surnPls_lv p q hs]
                omega
            · rw [sexPls_lv p q hx]
              omega
          · exact SegOK_pos _ (eventPls_SegOK "BIRT" p.birth) q hb
        · exact SegOK_pos _ (eventPls_SegOK "DEAT" p.death) q hd
      · rw [notePls_lv p q hn]
        omega
    · rw [famsFlat_lv _ p _ q hf]
      omega
  have hFamSeg : ∀ f ∈ db.families.filter (fun f => !f.deleted),
      SegOK 0 (famPls (idToPointerOf (db.persons.filter (fun p => !p.deleted))
          (db.families.filter (fun f => !f.deleted))) f) := by
    intro f _
    rw [famPls]
    refine Or.inr ⟨_, _, rfl, rfl, ?_⟩
    intro q hq
    rcases List.mem_append.mp hq with h4 | hc
    · rcases List.mem_append.mp h4 with h3 | hv
      · rcases List.mem_append.mp h3 with h2 | hm
        · rcases List.mem_append.mp h2 with h1 | hw
          · rw [spousePls_lv _ f.spouse1Id "HUSB" q h1]
            omega
          · rw [spousePls_lv _ f.spouse2Id "WIFE" q hw]
            omega
        · exact SegOK_pos _ (marrPls_SegOK f) q hm
      · exact SegOK_pos _ (divPls_SegOK f) q hv
    · rw [chilPls_lv _ f q hc]
      omega
  have hHf : headOK 0 ((db.families.filter (fun f => !f.deleted)).flatMap
      (famPls (idToPointerOf (db.persons.filter (fun p => !p.deleted))
        (db.families.filter (fun f => !f.deleted)))) ++
      [(⟨0, none, "TRLR", none⟩ : PLine)]) :=
    headOK_flatMap 0 _ _ _ hFamSeg hTrlr
  have hHp : headOK 0 ((db.persons.filter (fun p => !p.deleted)).flatMap
      (personPls (db.families.filter (fun f => !f.deleted))
        (idToPointerOf (db.persons.filter (fun p => !p.deleted))
          (db.families.filter (fun f => !f.deleted)))) ++
      ((db.families.filter (fun f => !f.deleted)).flatMap
        (famPls (idToPointerOf (db.persons.filter (fun p => !p.deleted))
          (db.families.filter (fun f => !f.deleted)))) ++
        [(⟨0, none, "TRLR", none⟩ : PLine)])) :=
    headOK_flatMap 0 _ _ _ hPerSeg hHf
  have hshape : exportPls db =
      hdrP db.clock ++
      ((db.persons.filter (fun p => !p.deleted)).flatMap
        (personPls (db.families.filter (fun f => !f.deleted))
          (idToPointerOf (db.persons.filter (fun p => !p.deleted))
            (db.families.filter (fun f => !f.deleted)))) ++
       ((db.families.filter (fun f => !f.deleted)).flatMap
        (famPls (idToPointerOf (db.persons.filter (fun p => !p.deleted))
          (db.families.filter (fun f => !f.deleted)))) ++
        [(⟨0, none, "TRLR", none⟩ : PLine)])) := by
    rw [exportPls]
    simp [List.append_assoc]
  rw [hshape,
    bf_seg_append 0 _ _ hSegHdr hHp, hdrP_forest,
    bf_flatMap 0 _ _ _ hPerSeg hHf,
    bf_flatMap 0 _ _ _ hFamSeg hTrlr,
    flatMap_eq_map_of_forall _ _ _
      (fun p _ => personPls_forest (db.families.filter (fun f => !f.deleted))
        (idToPointerOf (db.persons.filter (fun p => !p.deleted))
          (db.families.filter (fun f => !f.deleted))) p),
    flatMap_eq_map_of_forall _ _ _
      (fun f _ => famPls_forest
        (idToPointerOf (db.persons.filter (fun p => !p.deleted))
          (db.families.filter (fun f => !f.deleted))) f)]
  rfl

/-! ### Collecting the individual and family records -/

theorem depth2_append (A B : List GNode) (hA : Depth2 A) (hB : Depth2 B) :
    Depth2 (A ++ B) := by
  intro n hn
  rcases List.mem_append.mp hn with h | h
  · exact hA n h
  · exact hB n h

theorem depth2_ite_nil (c : Prop) [Decidable c] (A : List GNode)
    (h : Depth2 A) : Depth2 (if c then A else []) := by
  intro n hn
  obtain ⟨_, hn⟩ := mem_of_ite_nil _ _ _ hn
  exact h n hn

theorem depth2_flatMap (g : α → List GNode) (xs : List α)
    (h : ∀ x ∈ xs, Depth2 (g x)) : Depth2 (xs.flatMap g) := by
  intro n hn
  obtain ⟨x, hx, hn⟩ := List.mem_flatMap.mp hn
  exact h x hx n hn

theorem depth2_single (t : String) (ptr d : Option String)
    (kids : List GNode) (h1 : ¬ t = "INDI") (h2 : ¬ t = "FAM")
    (hk : ∀ g ∈ kids, ¬ g.tag = "INDI" ∧ ¬ g.tag = "FAM" ∧ g.children = []) :
    Depth2 [⟨t, ptr, d, kids⟩] := by
  intro n hn
  have : n = ⟨t, ptr, d, kids⟩ := by simpa using hn
  subst this
  exact ⟨h1, h2, hk⟩

theorem hdrG_depth2 (clock : Nat) : Depth2 (hdrG clock).children := by
  intro n hn
  simp only [hdrG, GNode.children, List.mem_cons, List.not_mem_nil,
    or_false] at hn
  rcases hn with rfl | rfl | rfl | rfl
  · refine ⟨by simp [personG, famG, hdrG, trlrG, GNode.tag], by simp [personG, famG, hdrG, trlrG, GNode.tag], ?_⟩
    intro g hg
    have : g = ⟨"VERS", none, some "1.0", []⟩ := by
      simpa [GNode.children] using hg
    subst this
    exact ⟨by simp [personG, famG, hdrG, trlrG, GNode.tag], by simp [personG, famG, hdrG, trlrG, GNode.tag], rfl⟩
  · refine ⟨by simp [personG, famG, hdrG, trlrG, GNode.tag], by simp [personG, famG, hdrG, trlrG, GNode.tag], ?_⟩
    intro g hg
    simp only [GNode.children, List.mem_cons, List.not_mem_nil,
      or_false] at hg
    rcases hg with rfl | rfl
    · exact ⟨by simp [personG, famG, hdrG, trlrG, GNode.tag], by simp [personG, famG, hdrG, trlrG, GNode.tag], rfl⟩
    · exact ⟨by simp [personG, famG, hdrG, trlrG, GNode.tag], by simp [personG, famG, hdrG, trlrG, GNode.tag], rfl⟩
  · exact ⟨by simp [personG, famG, hdrG, trlrG, GNode.tag], by simp [personG, famG, hdrG, trlrG, GNode.tag], fun g hg => absurd hg (List.not_mem_nil g)⟩
  · exact ⟨by simp [personG, famG, hdrG, trlrG, GNode.tag], by simp [personG, famG, hdrG, trlrG, GNode.tag], fun g hg => absurd hg (List.not_mem_nil g)⟩

theorem personG_depth2 (families : List Family) (m : List (String × String))
    (p : Person) : Depth2 (personG families m p).children := by
  intro n hn
  simp only [personG, GNode.children, List.mem_cons] at hn
  rcases hn with rfl | hn
  · refine ⟨by simp [nameNodeG, GNode.tag], by simp [nameNodeG, GNode.tag], ?_⟩
    intro g hg
    simp only [nameNodeG, GNode.children] at hg
    rcases List.mem_append.mp hg with h1 | h2
    · obtain ⟨_, h1⟩ := mem_of_ite_nil _ _ _ h1
      have : g = ⟨"GIVN", none, some p.givenNames, []⟩ := by simpa using h1
      subst this
      exact ⟨by simp [personG, famG, hdrG, trlrG, GNode.tag], by simp [personG, famG, hdrG, trlrG, GNode.tag], rfl⟩
    · obtain ⟨_, h2⟩ := mem_of_ite_nil _ _ _ h2
      have : g = ⟨"SURN", none, some p.surname, []⟩ := by simpa using h2
      subst this
      exact ⟨by simp [personG, famG, hdrG, trlrG, GNode.tag], by simp [personG, famG, hdrG, trlrG, GNode.tag], rfl⟩
  rcases List.mem_append.mp hn with h4 | hf
  · rcases List.mem_append.mp h4 with h3 | hnote
    · rcases List.mem_append.mp h3 with h2 | hdeat
      · rcases List.mem_append.mp h2 with hsex | hbirt
        · rw [sexNodes] at hsex
          by_cases hc : p.sex = .U
          · rw [if_pos hc] at hsex
            exact absurd hsex (List.not_mem_nil n)
          · rw [if_neg hc] at hsex
            have : n = ⟨"SEX", none, some (sexStr p.sex), []⟩ := by
              simpa using hsex
            subst this
            exact ⟨by simp [personG, famG, hdrG, trlrG, GNode.tag], by simp [personG, famG, hdrG, trlrG, GNode.tag],
              fun g hg => absurd hg (List.not_mem_nil g)⟩
        · rw [eventNodes] at hbirt
          obtain ⟨_, hbirt⟩ := mem_of_ite_nil _ _ _ hbirt
          have : n = ⟨"BIRT", none, none,
              (if truthy (p.birth.bind (·.date)) then
                [⟨"DATE", none, some ((p.birth.bind (·.date)).getD ""), []⟩]
               else [])
              ++ (if truthy (p.birth.bind (·.place)) then
                [⟨"PLAC", none, some ((p.birth.bind (·.place)).getD ""), []⟩]
               else [])⟩ := by simpa using hbirt
          subst this
          refine ⟨by simp [personG, famG, hdrG, trlrG, GNode.tag], by simp [personG, famG, hdrG, trlrG, GNode.tag], ?_⟩
          intro g hg
          rcases List.mem_append.mp hg with hg1 | hg2
          · obtain ⟨_, hg1⟩ := mem_of_ite_nil _ _ _ hg1
            have : g = ⟨"DATE", none,
                some ((p.birth.bind (·.date)).getD ""), []⟩ := by
              simpa using hg1
            subst this
            exact ⟨by simp [personG, famG, hdrG, trlrG, GNode.tag], by simp [personG, famG, hdrG, trlrG, GNode.tag], rfl⟩
          · obtain ⟨_, hg2⟩ := mem_of_ite_nil _ _ _ hg2
            have : g = ⟨"PLAC", none,
                some ((p.birth.bind (·.place)).getD ""), []⟩ := by
              simpa using hg2
            subst this
            exact ⟨by simp [personG, famG, hdrG, trlrG, GNode.tag], by simp [personG, famG, hdrG, trlrG, GNode.tag], rfl⟩
      · rw [eventNodes] at hdeat
        obtain ⟨_, hdeat⟩ := mem_of_ite_nil _ _ _ hdeat
        have : n = ⟨"DEAT", none, none,
            (if truthy (p.death.bind (·.date)) then
              [⟨"DATE", none, some ((p.death.bind (·.date)).getD ""), []⟩]
             else [])
            ++ (if truthy (p.death.bind (·.place)) then
              [⟨"PLAC", none, some ((p.death.bind (·.place)).getD ""), []⟩]
             else [])⟩ := by simpa using hdeat
        subst this
        refine ⟨by simp [personG, famG, hdrG, trlrG, GNode.tag], by simp [personG, famG, hdrG, trlrG, GNode.tag], ?_⟩
        intro g hg
        rcases List.mem_append.mp hg with hg1 | hg2
        · obtain ⟨_, hg1⟩ := mem_of_ite_nil _ _ _ hg1
          have : g = ⟨"DATE", none,
              some ((p.death.bind (·.date)).getD ""), []⟩ := by
            simpa using hg1
          subst this
          exact ⟨by simp [personG, famG, hdrG, trlrG, GNode.tag], by simp [personG, famG, hdrG, trlrG, GNode.tag], rfl⟩
        · obtain ⟨_, hg2⟩ := mem_of_ite_nil _ _ _ hg2
          have : g = ⟨"PLAC", none,
              some ((p.death.bind (·.place)).getD ""), []⟩ := by
            simpa using hg2
          subst this
          exact ⟨by simp [personG, famG, hdrG, trlrG, GNode.tag], by simp [personG, famG, hdrG, trlrG, GNode.tag], rfl⟩
    · rw [noteNodes] at hnote
      obtain ⟨_, hnote⟩ := mem_of_ite_nil _ _ _ hnote
      have : n = ⟨"NOTE", none, some (replaceNLs (p.notes.getD "")), []⟩ := by
        simpa using hnote
      subst this
      exact ⟨by simp [personG, famG, hdrG, trlrG, GNode.tag], by simp [personG, famG, hdrG, trlrG, GNode.tag], fun g hg => absurd hg (List.not_mem_nil g)⟩
  · obtain ⟨f, _, hf⟩ := List.mem_flatMap.mp hf
    rw [famsNodes] at hf
    rcases List.mem_append.mp hf with h1 | h2
    · obtain ⟨_, h1⟩ := mem_of_ite_nil _ _ _ h1
      have : n = ⟨"FAMS", none,
          mkData (some ((mapGetLast m f.id).getD "").data), []⟩ := by
        simpa using h1
      subst this
      exact ⟨by simp [personG, famG, hdrG, trlrG, GNode.tag], by simp [personG, famG, hdrG, trlrG, GNode.tag], fun g hg => absurd hg (List.not_mem_nil g)⟩
    · obtain ⟨_, h2⟩ := mem_of_ite_nil _ _ _ h2
      have : n = ⟨"FAMC", none,
          mkData (some ((mapGetLast m f.id).getD "").data), []⟩ := by
        simpa using h2
      subst this
      exact ⟨by simp [personG, famG, hdrG, trlrG, GNode.tag], by simp [personG, famG, hdrG, trlrG, GNode.tag], fun g hg => absurd hg (List.not_mem_nil g)⟩

theorem famG_depth2 (m : List (String × String)) (f : Family) :
    Depth2 (famG m f).children := by
  intro n hn
  simp only [famG, GNode.children] at hn
  rcases List.mem_append.mp hn with h4 | hc
  · rcases List.mem_append.mp h4 with h3 | hv
    · rcases List.mem_append.mp h3 with h2 | hm
      · rcases List.mem_append.mp h2 with h1 | hw
        · rw [spouseNodes] at h1
          obtain ⟨_, h1⟩ := mem_of_ite_nil _ _ _ h1
          have : n = ⟨"HUSB", none, mkData (some
              ((mapGetLast m (f.spouse1Id.getD "")).getD "").data), []⟩ := by
            simpa using h1
          subst this
          exact ⟨by simp [personG, famG, hdrG, trlrG, GNode.tag], by simp [personG, famG, hdrG, trlrG, GNode.tag],
            fun g hg => absurd hg (List.not_mem_nil g)⟩
        · rw [spouseNodes] at hw
          obtain ⟨_, hw⟩ := mem_of_ite_nil _ _ _ hw
          have : n = ⟨"WIFE", none, mkData (some
              ((mapGetLast m (f.spouse2Id.getD "")).getD "").data), []⟩ := by
            simpa using hw
          subst this
          exact ⟨by simp [personG, famG, hdrG, trlrG, GNode.tag], by simp [personG, famG, hdrG, trlrG, GNode.tag],
            fun g hg => absurd hg (List.not_mem_nil g)⟩
      · rw [marrNodes] at hm
        obtain ⟨_, hm⟩ := mem_of_ite_nil _ _ _ hm
        have : n = ⟨"MARR", none, none,
            (if truthy (f.marriageDate.bind (·.date)) then
              [⟨"DATE", none,
                some ((f.marriageDate.bind (·.date)).getD ""), []⟩] else [])
            ++ (if truthy (f.marriageDate.bind (·.place)) then
              [⟨"PLAC", none,
                some ((f.marriageDate.bind (·.place)).getD ""), []⟩]
             else [])⟩ := by simpa using hm
        subst this
        refine ⟨by simp [personG, famG, hdrG, trlrG, GNode.tag], by simp [personG, famG, hdrG, trlrG, GNode.tag], ?_⟩
        intro g hg
        rcases List.mem_append.mp hg with hg1 | hg2
        · obtain ⟨_, hg1⟩ := mem_of_ite_nil _ _ _ hg1
          have : g = ⟨"DATE", none,
              some ((f.marriageDate.bind (·.date)).getD ""), []⟩ := by
            simpa using hg1
          subst this
          exact ⟨by simp [personG, famG, hdrG, trlrG, GNode.tag], by simp [personG, famG, hdrG, trlrG, GNode.tag], rfl⟩
        · obtain ⟨_, hg2⟩ := mem_of_ite_nil _ _ _ hg2
          have : g = ⟨"PLAC", none,
              some ((f.marriageDate.bind (·.place)).getD ""), []⟩ := by
            simpa using hg2
          subst this
          exact ⟨by simp [personG, famG, hdrG, trlrG, GNode.tag], by simp [personG, famG, hdrG, trlrG, GNode.tag], rfl⟩
    · rw [divNodes] at hv
      obtain ⟨_, hv⟩ := mem_of_ite_nil _ _ _ hv
      have : n = ⟨"DIV", none, none,
          if truthy (f.divorceDate.bind (·.date)) then
            [⟨"DATE", none, some ((f.divorceDate.bind (·.date)).getD ""), []⟩]
          else []⟩ := by simpa using hv
      subst this
      refine ⟨by simp [personG, famG, hdrG, trlrG, GNode.tag], by simp [personG, famG, hdrG, trlrG, GNode.tag], ?_⟩
      intro g hg
      obtain ⟨_, hg⟩ := mem_of_ite_nil _ _ _ hg
      have : g = ⟨"DATE", none,
          some ((f.divorceDate.bind (·.date)).getD ""), []⟩ := by
        simpa using hg
      subst this
      exact ⟨by simp [personG, famG, hdrG, trlrG, GNode.tag], by simp [personG, famG, hdrG, trlrG, GNode.tag], rfl⟩
  · obtain ⟨c, _, hc⟩ := List.mem_flatMap.mp hc
    obtain ⟨_, hc⟩ := mem_of_ite_nil _ _ _ hc
    have : n = ⟨"CHIL", none,
        mkData (some ((mapGetLast m c).getD "").data), []⟩ := by simpa using hc
    subst this
    exact ⟨by simp [personG, famG, hdrG, trlrG, GNode.tag], by simp [personG, famG, hdrG, trlrG, GNode.tag], fun g hg => absurd hg (List.not_mem_nil g)⟩

theorem export_collect (fuel clock : Nat) (families0 : List Family)
    (m : List (String × String)) (P : List Person) (F : List Family)
    (hP : ∀ p ∈ P, ((mapGetLast m p.id).getD "") ≠ "")
    (hF : ∀ f ∈ F, ((mapGetLast m f.id).getD "") ≠ "") :
    collectRecords (fuel + 1)
      (hdrG clock :: (P.map (personG families0 m) ++ (F.map (famG m)
        ++ [trlrG]))) ([], []) =
      (P.map (personG families0 m), F.map (famG m)) := by
  rw [collect_plain_cons fuel _ _ _ (by simp [personG, famG, hdrG, trlrG, GNode.tag]) (by simp [personG, famG, hdrG, trlrG, GNode.tag]) (hdrG_depth2 clock)]
  rw [collect_indi_row fuel (P.map (personG families0 m)) _ ([], [])
    (by
      intro n hn
      obtain ⟨p, hp, rfl⟩ := List.mem_map.mp hn
      refine ⟨rfl, ?_, personG_depth2 families0 m p⟩
      show truthy (some ((mapGetLast m p.id).getD "")) = true
      simp [truthy, hP p hp])]
  rw [collect_fam_row fuel (F.map (famG m)) _ _
    (by
      intro n hn
      obtain ⟨f, hf, rfl⟩ := List.mem_map.mp hn
      refine ⟨rfl, by simp [personG, famG, hdrG, trlrG, GNode.tag], ?_, famG_depth2 m f⟩
      show truthy (some ((mapGetLast m f.id).getD "")) = true
      simp [truthy, hF f hf])]
  rw [collect_plain_cons fuel trlrG [] _ (by simp [trlrG, GNode.tag])
    (by simp [trlrG, GNode.tag])
    (fun n hn => absurd hn (List.not_mem_nil n))]
  rw [collect_nil]
  simp

/-! ### Re-parsing one exported person record -/

theorem getOrCreateId_found (ptr : String) (st : PState) (e : String × String)
    (h : st.1.find? (fun x => x.1 == ptr) = some e) :
    getOrCreateId ptr st = (e.2, st) := by
  rw [getOrCreateId, h]

theorem getOrCreateId_new (ptr : String) (st : PState)
    (h : st.1.find? (fun x => x.1 == ptr) = none) :
    getOrCreateId ptr st =
      (freshId st.2, (st.1 ++ [(ptr, freshId st.2)], st.2 + 1)) := by
  rw [getOrCreateId, h]

theorem find?_tag_none (t : String) (L : List GNode)
    (h : ∀ n ∈ L, ¬ n.tag = t) : L.find? (fun n => n.tag == t) = none :=
  List.find?_eq_none.mpr (fun n hn => by simp [h n hn])

theorem sexNodes_tag (p : Person) : ∀ n ∈ sexNodes p, n.tag = "SEX" := by
  intro n hn
  rw [sexNodes] at hn
  by_cases hc : p.sex = .U
  · rw [if_pos hc] at hn
    exact absurd hn (List.not_mem_nil n)
  · rw [if_neg hc] at hn
    have : n = ⟨"SEX", none, some (sexStr p.sex), []⟩ := by simpa using hn
    rw [this]
    rfl

theorem eventNodes_tag (tag : String) (e : Option DatePlace) :
    ∀ n ∈ eventNodes tag e, n.tag = tag := by
  intro n hn
  rw [eventNodes] at hn
  obtain ⟨_, hn⟩ := mem_of_ite_nil _ _ _ hn
  have : n = ⟨tag, none, none,
      (if truthy (e.bind (·.date)) then
        [⟨"DATE", none, some ((e.bind (·.date)).getD ""), []⟩] else [])
      ++ (if truthy (e.bind (·.place)) then
        [⟨"PLAC", none, some ((e.bind (·.place)).getD ""), []⟩] else [])⟩ := by
    simpa using hn
  rw [this]
  rfl

theorem noteNodes_tag (p : Person) : ∀ n ∈ noteNodes p, n.tag = "NOTE" := by
  intro n hn
  rw [noteNodes] at hn
  obtain ⟨_, hn⟩ := mem_of_ite_nil _ _ _ hn
  have : n = ⟨"NOTE", none, some (replaceNLs (p.notes.getD "")), []⟩ := by
    simpa using hn
  rw [this]
  rfl

theorem famsNodes_tag_or (m : List (String × String)) (p : Person)
    (families : List Family) :
    ∀ n ∈ families.flatMap (famsNodes m p),
      n.tag = "FAMS" ∨ n.tag = "FAMC" := by
  intro n hn
  obtain ⟨f, _, hn⟩ := List.mem_flatMap.mp hn
  rw [famsNodes] at hn
  rcases List.mem_append.mp hn with h1 | h2
  · obtain ⟨_, h1⟩ := mem_of_ite_nil _ _ _ h1
    have : n = ⟨"FAMS", none,
        mkData (some ((mapGetLast m f.id).getD "").data), []⟩ := by
      simpa using h1
    rw [this]
    exact Or.inl rfl
  · obtain ⟨_, h2⟩ := mem_of_ite_nil _ _ _ h2
    have : n = ⟨"FAMC", none,
        mkData (some ((mapGetLast m f.id).getD "").data), []⟩ := by
      simpa using h2
    rw [this]
    exact Or.inr rfl

theorem personG_find (families : List Family) (m : List (String × String))
    (p : Person) (t : String) (hname : ¬ "NAME" = t) (hfams : ¬ "FAMS" = t)
    (hfamc : ¬ "FAMC" = t) :
    (personG families m p).children.find? (fun n => n.tag == t) =
      ((sexNodes p).find? (fun n => n.tag == t)).or
      (((eventNodes "BIRT" p.birth).find? (fun n => n.tag == t)).or
       (((eventNodes "DEAT" p.death).find? (fun n => n.tag == t)).or
        ((noteNodes p).find? (fun n => n.tag == t)))) := by
  show (nameNodeG p :: _).find? _ = _
  rw [List.find?_cons_of_neg _ (by simp [nameNodeG, GNode.tag, hname]),
    List.find?_append, List.find?_append, List.find?_append, List.find?_append,
    find?_tag_none t (families.flatMap (famsNodes m p)) (fun n hn => by
      rcases famsNodes_tag_or m p families n hn with h | h
      · rw [h]; exact hfams
      · rw [h]; exact hfamc)]
  simp [Option.or_assoc]

theorem extractValue_eq_bind (r : GNode) (t : String) :
    extractValue r t =
      (r.children.find? (fun n => n.tag == t)).bind GNode.data := rfl

theorem extractNestedValue_eq_bind (r : GNode) (pt ct : String) :
    extractNestedValue r pt ct =
      (r.children.find? (fun n => n.tag == pt)).bind
        (fun parent => (parent.children.find? (fun n => n.tag == ct)).bind
          GNode.data) := by
  rw [extractNestedValue]
  cases r.children.find? (fun n => n.tag == pt) <;> rfl

theorem eventNodes_none (tag : String) : eventNodes tag none = [] := by
  simp [eventNodes, truthy]

theorem dp_truthy_or (dp : DatePlace) (h : truthy dp.date = true ∨
    truthy dp.place = true) : (truthy dp.date || truthy dp.place) = true := by
  rcases h with h | h <;> simp [h]

theorem eventNodes_some (tag : String) (dp : DatePlace)
    (h : truthy dp.date = true ∨ truthy dp.place = true) :
    eventNodes tag (some dp) = [⟨tag, none, none,
      (if truthy dp.date then [⟨"DATE", none, some (dp.date.getD ""), []⟩]
       else [])
      ++ (if truthy dp.place then [⟨"PLAC", none, some (dp.place.getD ""), []⟩]
       else [])⟩] := by
  simp only [eventNodes, Option.some_bind]
  rw [if_pos (dp_truthy_or dp h)]

theorem truthy_some_eq (o : Option String) (h : truthy o = true) :
    o = some (o.getD "") := by
  cases o with
  | none => simp [truthy] at h
  | some s => rfl

theorem fieldOK_not_truthy (o : Option String) (hOK : fieldOK o)
    (h : ¬ truthy o = true) : o = none := by
  cases o with
  | none => rfl
  | some s =>
    exfalso
    exact h (by simpa [truthy] using hOK.1)

theorem event_inner_date (dp : DatePlace) (hOK : fieldOK dp.date) :
    (((if truthy dp.date then
        [(⟨"DATE", none, some (dp.date.getD ""), []⟩ : GNode)] else [])
      ++ (if truthy dp.place then
        [(⟨"PLAC", none, some (dp.place.getD ""), []⟩ : GNode)] else
        [])).find? (fun n => n.tag == "DATE")).bind GNode.data = dp.date := by
  rw [List.find?_append]
  have hplac : ((if truthy dp.place then
      [(⟨"PLAC", none, some (dp.place.getD ""), []⟩ : GNode)]
      else []).find? (fun n => n.tag == "DATE")) = none := by
    refine find?_tag_none _ _ ?_
    intro n hn
    obtain ⟨_, hn⟩ := mem_of_ite_nil _ _ _ hn
    have : n = ⟨"PLAC", none, some (dp.place.getD ""), []⟩ := by simpa using hn
    rw [this]
    simp [GNode.tag]
  rw [hplac]
  by_cases hc : truthy dp.date = true
  · rw [if_pos hc, List.find?_cons_of_pos _ (by simp [GNode.tag])]
    show some (dp.date.getD "") = dp.date
    exact (truthy_some_eq dp.date hc).symm
  · rw [if_neg hc]
    show (none : Option String) = dp.date
    exact (fieldOK_not_truthy dp.date hOK hc).symm

theorem event_inner_place (dp : DatePlace) (hOK : fieldOK dp.place) :
    (((if truthy dp.date then
        [(⟨"DATE", none, some (dp.date.getD ""), []⟩ : GNode)] else [])
      ++ (if truthy dp.place then
        [(⟨"PLAC", none, some (dp.place.getD ""), []⟩ : GNode)] else
        [])).find? (fun n => n.tag == "PLAC")).bind GNode.data = dp.place := by
  rw [List.find?_append]
  have hdate : ((if truthy dp.date then
      [(⟨"DATE", none, some (dp.date.getD ""), []⟩ : GNode)]
      else []).find? (fun n => n.tag == "PLAC")) = none := by
    refine find?_tag_none _ _ ?_
    intro n hn
    obtain ⟨_, hn⟩ := mem_of_ite_nil _ _ _ hn
    have : n = ⟨"DATE", none, some (dp.date.getD ""), []⟩ := by simpa using hn
    rw [this]
    simp [GNode.tag]
  rw [hdate, Option.none_or]
  by_cases hc : truthy dp.place = true
  · rw [if_pos hc, List.find?_cons_of_pos _ (by simp [GNode.tag])]
    show some (dp.place.getD "") = dp.place
    exact (truthy_some_eq dp.place hc).symm
  · rw [if_neg hc]
    show (none : Option String) = dp.place
    exact (fieldOK_not_truthy dp.place hOK hc).symm

theorem dp_reconstruct (e : Option DatePlace) (he : dpOK e) :
    (if truthy (e.bind (·.date)) || truthy (e.bind (·.place)) then
       some (⟨e.bind (·.date), e.bind (·.place)⟩ : DatePlace)
     else none) = e := by
  cases e with
  | none => simp [truthy]
  | some dp =>
    simp only [Option.some_bind]
    rw [if_pos (dp_truthy_or dp he.1)]

theorem splitOnChar_length (sep : Char) :
    ∀ cs : List Char, (splitOnChar sep cs).length = cs.count sep + 1
  | [] => rfl
  | c :: cs => by
    have ih := splitOnChar_length sep cs
    simp only [splitOnChar]
    by_cases hc : c = sep
    · rw [if_pos hc]
      subst hc
      simp only [List.length_cons, List.count_cons, ih]
      simp
    · rw [if_neg hc]
      cases h : splitOnChar sep cs with
      | nil =>
        rw [h] at ih
        simp at ih
      | cons l ls =>
        rw [h] at ih
        show ((c :: l) :: ls).length = (c :: cs).count sep + 1
        simp only [List.length_cons] at ih ⊢
        simp only [List.count_cons, beq_iff_eq, if_neg hc]
        omega

theorem gedcomNameMatch_empty_surname (g : String) :
    (gedcomNameMatch (g.data ++ [' ', '/', '/']) =
      some (g.data ++ [' '], [])) ∨
    gedcomNameMatch (g.data ++ [' ', '/', '/']) = none := by
  by_cases hs : '/' ∈ g.data
  · refine Or.inr ?_
    have hcount : 1 ≤ (g.data).count '/' := by
      rcases Nat.eq_zero_or_pos ((g.data).count '/') with h0 | h1
      · exact absurd hs (by simpa using List.count_eq_zero.mp h0)
      · exact h1
    have hlen : (splitOnChar '/' (g.data ++ [' ', '/', '/'])).length =
        (g.data ++ [' ', '/', '/']).count '/' + 1 := splitOnChar_length '/' _
    have hc2 : (g.data ++ [' ', '/', '/']).count '/' = g.data.count '/' + 2 := by
      rw [List.count_append]
      rfl
    rw [hc2] at hlen
    rcases hsp : splitOnChar '/' (g.data ++ [' ', '/', '/']) with _ | ⟨a, t1⟩
    · rw [hsp] at hlen
      simp at hlen
    rcases t1 with _ | ⟨b, t2⟩
    · rw [hsp] at hlen
      simp at hlen
    rcases t2 with _ | ⟨c, t3⟩
    · rw [hsp] at hlen
      simp at hlen
    rcases t3 with _ | ⟨d, t4⟩
    · rw [hsp] at hlen
      simp at hlen
      omega
    rw [gedcomNameMatch, hsp]
  · refine Or.inl ?_
    have hshape : g.data ++ [' ', '/', '/'] =
        (g.data ++ [' ']) ++ '/' :: ['/'] := by
      simp
    have hnos : '/' ∉ g.data ++ [' '] := by
      intro h
      rcases List.mem_append.mp h with h1 | h2
      · exact hs h1
      · simp at h2
    rw [gedcomNameMatch, hshape, splitOnChar_append_sep '/' _ _ hnos]
    have h2 : splitOnChar '/' ['/'] = [[], []] := by decide
    rw [h2]
    rfl

theorem personG_birth_find (families : List Family)
    (m : List (String × String)) (p : Person) :
    (personG families m p).children.find? (fun n => n.tag == "BIRT") =
      (eventNodes "BIRT" p.birth).find? (fun n => n.tag == "BIRT") := by
  rw [personG_find families m p "BIRT" (by decide) (by decide) (by decide),
    find?_tag_none "BIRT" (sexNodes p)
      (fun n hn => by rw [sexNodes_tag p n hn]; decide),
    find?_tag_none "BIRT" (eventNodes "DEAT" p.death)
      (fun n hn => by rw [eventNodes_tag "DEAT" p.death n hn]; decide),
    find?_tag_none "BIRT" (noteNodes p)
      (fun n hn => by rw [noteNodes_tag p n hn]; decide)]
  simp

theorem personG_death_find (families : List Family)
    (m : List (String × String)) (p : Person) :
    (personG families m p).children.find? (fun n => n.tag == "DEAT") =
      (eventNodes "DEAT" p.death).find? (fun n => n.tag == "DEAT") := by
  rw [personG_find families m p "DEAT" (by decide) (by decide) (by decide),
    find?_tag_none "DEAT" (sexNodes p)
      (fun n hn => by rw [sexNodes_tag p n hn]; decide),
    find?_tag_none "DEAT" (eventNodes "BIRT" p.birth)
      (fun n hn => by rw [eventNodes_tag "BIRT" p.birth n hn]; decide),
    find?_tag_none "DEAT" (noteNodes p)
      (fun n hn => by rw [noteNodes_tag p n hn]; decide)]
  simp

theorem eventNodes_self_extract_date (tag : String) (e : Option DatePlace)
    (he : dpOK e) :
    ((eventNodes tag e).find? (fun n => n.tag == tag)).bind
      (fun parent => (parent.children.find? (fun n => n.tag == "DATE")).bind
        GNode.data) = e.bind (·.date) := by
  cases hb : e with
  | none =>
    rw [eventNodes_none]
    rfl
  | some dp =>
    have he2 : dpOK (some dp) := hb ▸ he
    rw [eventNodes_some tag dp he2.1,
      List.find?_cons_of_pos _ (by simp [GNode.tag]),
      Option.some_bind]
    show (((if truthy dp.date then
        [(⟨"DATE", none, some (dp.date.getD ""), []⟩ : GNode)] else [])
      ++ (if truthy dp.place then
        [(⟨"PLAC", none, some (dp.place.getD ""), []⟩ : GNode)] else
        [])).find? (fun n => n.tag == "DATE")).bind GNode.data =
      (some dp).bind (·.date)
    rw [event_inner_date dp he2.2.1]
    rfl

theorem eventNodes_self_extract_place (tag : String) (e : Option DatePlace)
    (he : dpOK e) :
    ((eventNodes tag e).find? (fun n => n.tag == tag)).bind
      (fun parent => (parent.children.find? (fun n => n.tag == "PLAC")).bind
        GNode.data) = e.bind (·.place) := by
  cases hb : e with
  | none =>
    rw [eventNodes_none]
    rfl
  | some dp =>
    have he2 : dpOK (some dp) := hb ▸ he
    rw [eventNodes_some tag dp he2.1,
      List.find?_cons_of_pos _ (by simp [GNode.tag]),
      Option.some_bind]
    show (((if truthy dp.date then
        [(⟨"DATE", none, some (dp.date.getD ""), []⟩ : GNode)] else [])
      ++ (if truthy dp.place then
        [(⟨"PLAC", none, some (dp.place.getD ""), []⟩ : GNode)] else
        [])).find? (fun n => n.tag == "PLAC")).bind GNode.data =
      (some dp).bind (·.place)
    rw [event_inner_place dp he2.2.2]
    rfl

theorem givnNodes_tag (p : Person) : ∀ n ∈ givnNodes p, n.tag = "GIVN" := by
  intro n hn
  rw [givnNodes] at hn
  obtain ⟨_, hn⟩ := mem_of_ite_nil _ _ _ hn
  have : n = ⟨"GIVN", none, some p.givenNames, []⟩ := by simpa using hn
  rw [this]
  rfl

theorem personG_sex_val (families : List Family)
    (m : List (String × String)) (p : Person) :
    parseSex (extractValue (personG families m p) "SEX") = p.sex := by
  rw [extractValue_eq_bind,
    personG_find families m p "SEX" (by decide) (by decide) (by decide),
    find?_tag_none "SEX" (eventNodes "BIRT" p.birth)
      (fun n hn => by rw [eventNodes_tag "BIRT" p.birth n hn]; decide),
    find?_tag_none "SEX" (eventNodes "DEAT" p.death)
      (fun n hn => by rw [eventNodes_tag "DEAT" p.death n hn]; decide),
    find?_tag_none "SEX" (noteNodes p)
      (fun n hn => by rw [noteNodes_tag p n hn]; decide)]
  simp only [Option.or_none, Option.none_or]
  rw [sexNodes]
  rcases hsx : p.sex with _ | _ | _
  · rw [if_neg (by decide : ¬ Sex.M = Sex.U)]
    decide
  · rw [if_neg (by decide : ¬ Sex.F = Sex.U)]
    decide
  · rw [if_pos (rfl : Sex.U = Sex.U)]
    rfl

theorem personG_note_val (families : List Family)
    (m : List (String × String)) (p : Person) (hnOK : fieldOK p.notes) :
    ((personG families m p).children.find? (fun n => n.tag == "NOTE")).bind
      GNode.data = p.notes := by
  rw [personG_find families m p "NOTE" (by decide) (by decide) (by decide),
    find?_tag_none "NOTE" (sexNodes p)
      (fun n hn => by rw [sexNodes_tag p n hn]; decide),
    find?_tag_none "NOTE" (eventNodes "BIRT" p.birth)
      (fun n hn => by rw [eventNodes_tag "BIRT" p.birth n hn]; decide),
    find?_tag_none "NOTE" (eventNodes "DEAT" p.death)
      (fun n hn => by rw [eventNodes_tag "DEAT" p.death n hn]; decide)]
  simp only [Option.none_or]
  rw [noteNodes]
  cases hn : p.notes with
  | none =>
    rw [if_neg (by decide : ¬ truthy none = true)]
    rfl
  | some s =>
    have hOK : fieldOK (some s) := hn ▸ hnOK
    have ht : truthy (some s) = true := by simpa [truthy] using hOK.1
    rw [if_pos ht, List.find?_cons_of_pos _ (by simp [GNode.tag]),
      Option.some_bind]
    show some (replaceNLs s) = some s
    rw [replaceNLs, replaceNL_of_no_nl _ hOK.2, string_mk_data]

theorem personG_name_find (families : List Family)
    (m : List (String × String)) (p : Person) :
    (personG families m p).children.find? (fun n => n.tag == "NAME") =
      some (nameNodeG p) := by
  show (nameNodeG p :: _).find? _ = _
  rw [List.find?_cons_of_pos _ (by simp [nameNodeG, GNode.tag])]

theorem nameNodeG_givn (p : Person) (hg : p.givenNames ≠ "") :
    ((nameNodeG p).children.find? (fun n => n.tag == "GIVN")).bind
      GNode.data = some p.givenNames := by
  have hgt : truthyS p.givenNames = true := by simp [truthyS, hg]
  show ((givnNodes p ++ surnNodes p).find? _).bind _ = _
  rw [List.find?_append, givnNodes, if_pos hgt,
    List.find?_cons_of_pos _ (by simp [GNode.tag])]
  rfl

theorem nameNodeG_surn_some (p : Person) (hs : p.surname ≠ "") :
    ((nameNodeG p).children.find? (fun n => n.tag == "SURN")).bind
      GNode.data = some p.surname := by
  have hst : truthyS p.surname = true := by simp [truthyS, hs]
  show ((givnNodes p ++ surnNodes p).find? _).bind _ = _
  rw [List.find?_append,
    find?_tag_none "SURN" (givnNodes p)
      (fun n hn => by rw [givnNodes_tag p n hn]; decide),
    Option.none_or, surnNodes, if_pos hst,
    List.find?_cons_of_pos _ (by simp [GNode.tag])]
  rfl

theorem nameNodeG_surn_none (p : Person) (hs : p.surname = "") :
    ((nameNodeG p).children.find? (fun n => n.tag == "SURN")).bind
      GNode.data = none := by
  have hst : ¬ truthyS p.surname = true := by simp [truthyS, hs]
  show ((givnNodes p ++ surnNodes p).find? _).bind _ = _
  rw [List.find?_append,
    find?_tag_none "SURN" (givnNodes p)
      (fun n hn => by rw [givnNodes_tag p n hn]; decide),
    Option.none_or, surnNodes, if_neg hst]
  rfl

/-- Re-parsing one exported person record restores its value fields and
mints a fresh id and revision. -/
theorem parseIndividual_personG (families : List Family)
    (m : List (String × String)) (p : Person) (clock : Nat) (st : PState)
    (hfresh : st.1.find? (fun e => e.1 == (mapGetLast m p.id).getD "") = none)
    (hg : p.givenNames ≠ "") (hbOK : dpOK p.birth) (hdOK : dpOK p.death)
    (hnOK : fieldOK p.notes) :
    parseIndividual (personG families m p) clock st =
      ({ id := freshId st.2, rev := freshId (st.2 + 1), createdAt := clock,
         updatedAt := clock, givenNames := p.givenNames,
         surname := p.surname, sex := p.sex, birth := p.birth,
         death := p.death, notes := p.notes },
       (st.1 ++ [((mapGetLast m p.id).getD "", freshId st.2)],
        st.2 + 2)) := by
  have hptr : (personG families m p).pointer.getD "" =
      (mapGetLast m p.id).getD "" := rfl
  have hnd : (nameNodeG p).data =
      some (p.givenNames ++ " /" ++ p.surname ++ "/") := rfl
  have hBD : extractNestedValue (personG families m p) "BIRT" "DATE" =
      p.birth.bind (·.date) := by
    rw [extractNestedValue_eq_bind, personG_birth_find]
    exact eventNodes_self_extract_date "BIRT" p.birth hbOK
  have hBP : extractNestedValue (personG families m p) "BIRT" "PLAC" =
      p.birth.bind (·.place) := by
    rw [extractNestedValue_eq_bind, personG_birth_find]
    exact eventNodes_self_extract_place "BIRT" p.birth hbOK
  have hDD : extractNestedValue (personG families m p) "DEAT" "DATE" =
      p.death.bind (·.date) := by
    rw [extractNestedValue_eq_bind, personG_death_find]
    exact eventNodes_self_extract_date "DEAT" p.death hdOK
  have hDP : extractNestedValue (personG families m p) "DEAT" "PLAC" =
      p.death.bind (·.place) := by
    rw [extractNestedValue_eq_bind, personG_death_find]
    exact eventNodes_self_extract_place "DEAT" p.death hdOK
  have hgif : (if p.givenNames = "" then "Unknown" else p.givenNames) =
      p.givenNames := if_neg hg
  by_cases hs : p.surname = ""
  · have hdata2 : (p.givenNames ++ " /" ++ p.surname ++ "/").data =
        p.givenNames.data ++ [' ', '/', '/'] := by
      rw [hs]
      simp [String.data_append]
    rcases gedcomNameMatch_empty_surname p.givenNames with hmatch | hmatch
    · simp only [parseIndividual, hptr, getOrCreateId_new _ _ hfresh,
        personG_name_find, nameNodeG_givn p hg, nameNodeG_surn_none p hs,
        hnd, hdata2, hmatch, hBD, hBP, hDD, hDP, personG_sex_val,
        personG_note_val families m p hnOK, hgif,
        dp_reconstruct p.birth hbOK, dp_reconstruct p.death hdOK]
      rw [hs]
      rfl
    · simp only [parseIndividual, hptr, getOrCreateId_new _ _ hfresh,
        personG_name_find, nameNodeG_givn p hg, nameNodeG_surn_none p hs,
        hnd, hdata2, hmatch, hBD, hBP, hDD, hDP, personG_sex_val,
        personG_note_val families m p hnOK, hgif,
        dp_reconstruct p.birth hbOK, dp_reconstruct p.death hdOK]
      rw [hs]
  · simp only [parseIndividual, hptr, getOrCreateId_new _ _ hfresh,
      personG_name_find, nameNodeG_givn p hg, nameNodeG_surn_some p hs,
      hnd, hBD, hBP, hDD, hDP, personG_sex_val,
      personG_note_val families m p hnOK, hgif,
      dp_reconstruct p.birth hbOK, dp_reconstruct p.death hdOK]

/-! ### Re-parsing one exported family record -/

theorem spouseNodes_tags (m : List (String × String)) (s : Option String)
    (tag : String) : ∀ n ∈ spouseNodes m s tag, n.tag = tag := by
  intro n hn
  rw [spouseNodes] at hn
  obtain ⟨_, hn⟩ := mem_of_ite_nil _ _ _ hn
  have : n = ⟨tag, none,
      mkData (some ((mapGetLast m (s.getD "")).getD "").data), []⟩ := by
    simpa using hn
  rw [this]
  rfl

theorem marrNodes_tags (f : Family) : ∀ n ∈ marrNodes f, n.tag = "MARR" := by
  intro n hn
  rw [marrNodes] at hn
  obtain ⟨_, hn⟩ := mem_of_ite_nil _ _ _ hn
  have : n = ⟨"MARR", none, none,
      (if truthy (f.marriageDate.bind (·.date)) then
        [⟨"DATE", none, some ((f.marriageDate.bind (·.date)).getD ""), []⟩]
       else [])
      ++ (if truthy (f.marriageDate.bind (·.place)) then
        [⟨"PLAC", none, some ((f.marriageDate.bind (·.place)).getD ""), []⟩]
       else [])⟩ := by simpa using hn
  rw [this]
  rfl

theorem divNodes_tags (f : Family) : ∀ n ∈ divNodes f, n.tag = "DIV" := by
  intro n hn
  rw [divNodes] at hn
  obtain ⟨_, hn⟩ := mem_of_ite_nil _ _ _ hn
  have : n = ⟨"DIV", none, none,
      if truthy (f.divorceDate.bind (·.date)) then
        [⟨"DATE", none, some ((f.divorceDate.bind (·.date)).getD ""), []⟩]
      else []⟩ := by simpa using hn
  rw [this]
  rfl

theorem chilNodes_tags (m : List (String × String)) (f : Family) :
    ∀ n ∈ chilNodes m f, n.tag = "CHIL" := by
  intro n hn
  obtain ⟨c, _, hn⟩ := List.mem_flatMap.mp hn
  obtain ⟨_, hn⟩ := mem_of_ite_nil _ _ _ hn
  have : n = ⟨"CHIL", none,
      mkData (some ((mapGetLast m c).getD "").data), []⟩ := by simpa using hn
  rw [this]
  rfl

theorem famG_find (m : List (String × String)) (f : Family) (t : String) :
    (famG m f).children.find? (fun n => n.tag == t) =
      ((spouseNodes m f.spouse1Id "HUSB").find? (fun n => n.tag == t)).or
      (((spouseNodes m f.spouse2Id "WIFE").find? (fun n => n.tag == t)).or
       (((marrNodes f).find? (fun n => n.tag == t)).or
        (((divNodes f).find? (fun n => n.tag == t)).or
         ((chilNodes m f).find? (fun n => n.tag == t))))) := by
  show (spouseNodes m f.spouse1Id "HUSB" ++ spouseNodes m f.spouse2Id "WIFE"
    ++ marrNodes f ++ divNodes f ++ chilNodes m f).find? _ = _
  rw [List.find?_append, List.find?_append, List.find?_append,
    List.find?_append]
  simp [Option.or_assoc]

theorem famG_filter_chil (m : List (String × String)) (f : Family) :
    (famG m f).children.filter (fun n => n.tag == "CHIL") = chilNodes m f := by
  show (spouseNodes m f.spouse1Id "HUSB" ++ spouseNodes m f.spouse2Id "WIFE"
    ++ marrNodes f ++ divNodes f ++ chilNodes m f).filter _ = _
  rw [List.filter_append, List.filter_append, List.filter_append,
    List.filter_append]
  have hh : ∀ (L : List GNode) (t : String), (∀ n ∈ L, n.tag = t) →
      ¬ t = "CHIL" → L.filter (fun n => n.tag == "CHIL") = [] := by
    intro L t hL ht
    rw [List.filter_eq_nil]
    intro n hn
    simp [hL n hn, ht]
  rw [hh _ "HUSB" (spouseNodes_tags m f.spouse1Id "HUSB") (by decide),
    hh _ "WIFE" (spouseNodes_tags m f.spouse2Id "WIFE") (by decide),
    hh _ "MARR" (marrNodes_tags f) (by decide),
    hh _ "DIV" (divNodes_tags f) (by decide),
    List.filter_eq_self.mpr (fun n hn => by simp [chilNodes_tags m f n hn])]
  rfl

theorem any_tag_false (t : String) (L : List GNode)
    (h : ∀ n ∈ L, ¬ n.tag = t) : L.any (fun n => n.tag == t) = false := by
  rw [List.any_eq_false]
  intro n hn
  simp [h n hn]

theorem famG_any_marr (m : List (String × String)) (f : Family) :
    (famG m f).children.any (fun n => n.tag == "MARR") =
      (f.type == .married || f.marriageDate.isSome) := by
  show (spouseNodes m f.spouse1Id "HUSB" ++ spouseNodes m f.spouse2Id "WIFE"
    ++ marrNodes f ++ divNodes f ++ chilNodes m f).any _ = _
  rw [List.any_append, List.any_append, List.any_append, List.any_append,
    any_tag_false "MARR" _ (fun n hn => by
      rw [spouseNodes_tags m f.spouse1Id "HUSB" n hn]; decide),
    any_tag_false "MARR" _ (fun n hn => by
      rw [spouseNodes_tags m f.spouse2Id "WIFE" n hn]; decide),
    any_tag_false "MARR" (divNodes f) (fun n hn => by
      rw [divNodes_tags f n hn]; decide),
    any_tag_false "MARR" (chilNodes m f) (fun n hn => by
      rw [chilNodes_tags m f n hn]; decide)]
  simp only [marrNodes]
  by_cases hc : (f.type == .married || f.marriageDate.isSome) = true
  · rw [if_pos hc]
    simp only [List.any_cons, List.any_nil]
    rw [hc]
    simp [GNode.tag]
  · rw [if_neg hc]
    simp only [List.any_nil, Bool.false_or, Bool.or_false]
    exact ((Bool.not_eq_true _).mp hc).symm

theorem map_getD_filter (ρ : String → Option String) :
    ∀ cs : List String, (∀ c ∈ cs, ∃ v, ρ c = some v ∧ v ≠ "") →
    (cs.map (fun c => (ρ c).getD "")).filter (fun s => s != "") =
      cs.filterMap ρ
  | [], _ => rfl
  | c :: cs, h => by
    obtain ⟨v, hv, hne⟩ := h c (List.mem_cons_self _ _)
    rw [List.map_cons, List.filter_cons, List.filterMap_cons, hv]
    simp only [Option.getD_some, Option.some.injEq]
    rw [if_pos (by simpa using hne)]
    rw [map_getD_filter ρ cs (fun y hy => h y (List.mem_cons_of_mem _ hy))]

/-- The child-pointer fold of `parseFamily` on a row of resolvable `CHIL`
nodes: every lookup hits, the state is unchanged and the ids come back in
order. -/
theorem chil_fold (m : List (String × String)) (ρ : String → Option String)
    (st2 : PState) :
    ∀ (cs : List String) (pre : List String),
    (∀ c ∈ cs, ∃ ptr v, mapGetLast m c = some ptr ∧
      st2.1.find? (fun e => e.1 == ptr) = some (ptr, v) ∧ ρ c = some v ∧
      v ≠ "" ∧ ptr ≠ "") →
    (cs.flatMap (fun c => if (mapGetLast m c).isSome then
        [(⟨"CHIL", none, mkData (some ((mapGetLast m c).getD "").data), []⟩ :
          GNode)] else [])).foldl
      (fun (acc : List String × PState) n =>
        match n.data with
        | some d => let r := getOrCreateId d acc.2; (acc.1 ++ [r.1], r.2)
        | none => (acc.1 ++ [""], acc.2))
      (pre, st2) =
      (pre ++ cs.map (fun c => (ρ c).getD ""), st2)
  | [], pre, _ => by simp
  | c :: cs, pre, h => by
    obtain ⟨ptr, v, hmg, hfind, hrho, hvne, hpne⟩ :=
      h c (List.mem_cons_self _ _)
    rw [List.flatMap_cons, if_pos (by rw [hmg]; rfl)]
    have hdata : (GNode.mk "CHIL" none
        (mkData (some ((mapGetLast m c).getD "").data)) []).data =
        some ptr := by
      rw [GNode.data, hmg]
      show mkData (some ptr.data) = some ptr
      rw [mkData_some ptr.data (data_ne_nil_of_ne_empty ptr hpne),
        string_mk_data]
    rw [List.singleton_append, List.foldl_cons, hdata]
    show (cs.flatMap _).foldl _
      (pre ++ [(getOrCreateId ptr (pre, st2).2).1],
       (getOrCreateId ptr (pre, st2).2).2) = _
    rw [show ((pre, st2) : List String × PState).2 = st2 from rfl,
      getOrCreateId_found ptr st2 (ptr, v) hfind]
    rw [chil_fold m ρ st2 cs (pre ++ [v])
      (fun y hy => h y (List.mem_cons_of_mem _ hy))]
    rw [List.map_cons, List.append_assoc]
    rw [hrho]
    rfl

theorem famG_marr_find (m : List (String × String)) (f : Family) :
    (famG m f).children.find? (fun n => n.tag == "MARR") =
      (marrNodes f).find? (fun n => n.tag == "MARR") := by
  rw [famG_find,
    find?_tag_none "MARR" (spouseNodes m f.spouse1Id "HUSB") (fun n hn => by
      rw [spouseNodes_tags m f.spouse1Id "HUSB" n hn]; decide),
    find?_tag_none "MARR" (spouseNodes m f.spouse2Id "WIFE") (fun n hn => by
      rw [spouseNodes_tags m f.spouse2Id "WIFE" n hn]; decide),
    find?_tag_none "MARR" (divNodes f) (fun n hn => by
      rw [divNodes_tags f n hn]; decide),
    find?_tag_none "MARR" (chilNodes m f) (fun n hn => by
      rw [chilNodes_tags m f n hn]; decide)]
  simp

theorem famG_div_find (m : List (String × String)) (f : Family) :
    (famG m f).children.find? (fun n => n.tag == "DIV") =
      (divNodes f).find? (fun n => n.tag == "DIV") := by
  rw [famG_find,
    find?_tag_none "DIV" (spouseNodes m f.spouse1Id "HUSB") (fun n hn => by
      rw [spouseNodes_tags m f.spouse1Id "HUSB" n hn]; decide),
    find?_tag_none "DIV" (spouseNodes m f.spouse2Id "WIFE") (fun n hn => by
      rw [spouseNodes_tags m f.spouse2Id "WIFE" n hn]; decide),
    find?_tag_none "DIV" (marrNodes f) (fun n hn => by
      rw [marrNodes_tags f n hn]; decide),
    find?_tag_none "DIV" (chilNodes m f) (fun n hn => by
      rw [chilNodes_tags m f n hn]; decide)]
  simp

theorem marrNodes_of_none (f : Family) (hmd : f.marriageDate = none) :
    marrNodes f = if f.type == FamilyType.married then
      [⟨"MARR", none, none, []⟩] else [] := by
  simp [marrNodes, hmd, truthy]

theorem famG_marr_date (m : List (String × String)) (f : Family)
    (hmOK : ∀ dp, f.marriageDate = some dp →
      (truthy dp.date = true ∨ truthy dp.place = true) ∧
      fieldOK dp.date ∧ fieldOK dp.place) :
    extractNestedValue (famG m f) "MARR" "DATE" =
      f.marriageDate.bind (·.date) := by
  rw [extractNestedValue_eq_bind, famG_marr_find]
  cases hmd : f.marriageDate with
  | none =>
    rw [marrNodes_of_none f hmd]
    by_cases hc : f.type == FamilyType.married
    · rw [if_pos hc, List.find?_cons_of_pos _ (by simp [GNode.tag]),
        Option.some_bind]
      rfl
    · rw [if_neg hc]
      rfl
  | some dp =>
    have h2 := hmOK dp hmd
    simp only [marrNodes, hmd, Option.some_bind]
    rw [if_pos (by simp)]
    rw [List.find?_cons_of_pos _ (by simp [GNode.tag]), Option.some_bind]
    show (((if truthy dp.date then
        [(⟨"DATE", none, some (dp.date.getD ""), []⟩ : GNode)] else [])
      ++ (if truthy dp.place then
        [(⟨"PLAC", none, some (dp.place.getD ""), []⟩ : GNode)] else
        [])).find? (fun n => n.tag == "DATE")).bind GNode.data = dp.date
    rw [event_inner_date dp h2.2.1]

theorem famG_marr_place (m : List (String × String)) (f : Family)
    (hmOK : ∀ dp, f.marriageDate = some dp →
      (truthy dp.date = true ∨ truthy dp.place = true) ∧
      fieldOK dp.date ∧ fieldOK dp.place) :
    extractNestedValue (famG m f) "MARR" "PLAC" =
      f.marriageDate.bind (·.place) := by
  rw [extractNestedValue_eq_bind, famG_marr_find]
  cases hmd : f.marriageDate with
  | none =>
    rw [marrNodes_of_none f hmd]
    by_cases hc : f.type == FamilyType.married
    · rw [if_pos hc, List.find?_cons_of_pos _ (by simp [GNode.tag]),
        Option.some_bind]
      rfl
    · rw [if_neg hc]
      rfl
  | some dp =>
    have h2 := hmOK dp hmd
    simp only [marrNodes, hmd, Option.some_bind]
    rw [if_pos (by simp)]
    rw [List.find?_cons_of_pos _ (by simp [GNode.tag]), Option.some_bind]
    show (((if truthy dp.date then
        [(⟨"DATE", none, some (dp.date.getD ""), []⟩ : GNode)] else [])
      ++ (if truthy dp.place then
        [(⟨"PLAC", none, some (dp.place.getD ""), []⟩ : GNode)] else
        [])).find? (fun n => n.tag == "PLAC")).bind GNode.data = dp.place
    rw [event_inner_place dp h2.2.2]

theorem famG_div_date (m : List (String × String)) (f : Family)
    (hdv : ∀ dp, f.divorceDate = some dp →
      (∃ d, dp.date = some d ∧ d ≠ "" ∧ '\n' ∉ d.data) ∧ dp.place = none) :
    extractNestedValue (famG m f) "DIV" "DATE" =
      f.divorceDate.bind (·.date) := by
  rw [extractNestedValue_eq_bind, famG_div_find]
  cases hdd : f.divorceDate with
  | none =>
    have h0 : divNodes f = [] := by simp [divNodes, hdd]
    rw [h0]
    rfl
  | some dp =>
    obtain ⟨⟨d, hd1, hd2, _⟩, _⟩ := hdv dp hdd
    have htd : truthy dp.date = true := by
      rw [hd1]
      simpa [truthy] using hd2
    simp only [divNodes, hdd, Option.some_bind]
    rw [if_pos (by simp), if_pos htd,
      List.find?_cons_of_pos _ (by simp [GNode.tag]), Option.some_bind]
    show ([(⟨"DATE", none, some (dp.date.getD ""), []⟩ : GNode)].find?
      (fun n => n.tag == "DATE")).bind GNode.data = dp.date
    rw [List.find?_cons_of_pos _ (by simp [GNode.tag]), Option.some_bind]
    show some (dp.date.getD "") = dp.date
    exact (truthy_some_eq dp.date htd).symm

theorem famG_husb_val (m : List (String × String)) (f : Family)
    (s ptr : String) (hs1 : f.spouse1Id = some s) (hsne : s ≠ "")
    (hmg : mapGetLast m s = some ptr) (hpne : ptr ≠ "") :
    ((famG m f).children.find? (fun n => n.tag == "HUSB")).bind GNode.data =
      some ptr := by
  rw [famG_find,
    find?_tag_none "HUSB" (spouseNodes m f.spouse2Id "WIFE") (fun n hn => by
      rw [spouseNodes_tags m f.spouse2Id "WIFE" n hn]; decide),
    find?_tag_none "HUSB" (marrNodes f) (fun n hn => by
      rw [marrNodes_tags f n hn]; decide),
    find?_tag_none "HUSB" (divNodes f) (fun n hn => by
      rw [divNodes_tags f n hn]; decide),
    find?_tag_none "HUSB" (chilNodes m f) (fun n hn => by
      rw [chilNodes_tags m f n hn]; decide)]
  simp only [Option.or_none]
  rw [spouseNodes]
  rw [if_pos (by rw [hs1]; simp [truthy, hsne, hmg])]
  rw [List.find?_cons_of_pos _ (by simp [GNode.tag]), Option.some_bind]
  show mkData (some ((mapGetLast m (f.spouse1Id.getD "")).getD "").data) =
    some ptr
  rw [hs1]
  show mkData (some ((mapGetLast m s).getD "").data) = some ptr
  rw [hmg]
  show mkData (some ptr.data) = some ptr
  rw [mkData_some ptr.data (data_ne_nil_of_ne_empty ptr hpne), string_mk_data]

theorem famG_husb_none (m : List (String × String)) (f : Family)
    (hs1 : f.spouse1Id = none) :
    ((famG m f).children.find? (fun n => n.tag == "HUSB")).bind GNode.data =
      none := by
  rw [famG_find,
    find?_tag_none "HUSB" (spouseNodes m f.spouse2Id "WIFE") (fun n hn => by
      rw [spouseNodes_tags m f.spouse2Id "WIFE" n hn]; decide),
    find?_tag_none "HUSB" (marrNodes f) (fun n hn => by
      rw [marrNodes_tags f n hn]; decide),
    find?_tag_none "HUSB" (divNodes f) (fun n hn => by
      rw [divNodes_tags f n hn]; decide),
    find?_tag_none "HUSB" (chilNodes m f) (fun n hn => by
      rw [chilNodes_tags m f n hn]; decide)]
  simp only [Option.or_none]
  have h0 : spouseNodes m f.spouse1Id "HUSB" = [] := by
    simp [spouseNodes, hs1, truthy]
  rw [h0]
  rfl

theorem famG_wife_val (m : List (String × String)) (f : Family)
    (s ptr : String) (hs2 : f.spouse2Id = some s) (hsne : s ≠ "")
    (hmg : mapGetLast m s = some ptr) (hpne : ptr ≠ "") :
    ((famG m f).children.find? (fun n => n.tag == "WIFE")).bind GNode.data =
      some ptr := by
  rw [famG_find,
    find?_tag_none "WIFE" (spouseNodes m f.spouse1Id "HUSB") (fun n hn => by
      rw [spouseNodes_tags m f.spouse1Id "HUSB" n hn]; decide),
    find?_tag_none "WIFE" (marrNodes f) (fun n hn => by
      rw [marrNodes_tags f n hn]; decide),
    find?_tag_none "WIFE" (divNodes f) (fun n hn => by
      rw [divNodes_tags f n hn]; decide),
    find?_tag_none "WIFE" (chilNodes m f) (fun n hn => by
      rw [chilNodes_tags m f n hn]; decide)]
  simp only [Option.or_none, Option.none_or]
  rw [spouseNodes]
  rw [if_pos (by rw [hs2]; simp [truthy, hsne, hmg])]
  rw [List.find?_cons_of_pos _ (by simp [GNode.tag]), Option.some_bind]
  show mkData (some ((mapGetLast m (f.spouse2Id.getD "")).getD "").data) =
    some ptr
  rw [hs2]
  show mkData (some ((mapGetLast m s).getD "").data) = some ptr
  rw [hmg]
  show mkData (some ptr.data) = some ptr
  rw [mkData_some ptr.data (data_ne_nil_of_ne_empty ptr hpne), string_mk_data]

theorem famG_wife_none (m : List (String × String)) (f : Family)
    (hs2 : f.spouse2Id = none) :
    ((famG m f).children.find? (fun n => n.tag == "WIFE")).bind GNode.data =
      none := by
  rw [famG_find,
    find?_tag_none "WIFE" (spouseNodes m f.spouse1Id "HUSB") (fun n hn => by
      rw [spouseNodes_tags m f.spouse1Id "HUSB" n hn]; decide),
    find?_tag_none "WIFE" (marrNodes f) (fun n hn => by
      rw [marrNodes_tags f n hn]; decide),
    find?_tag_none "WIFE" (divNodes f) (fun n hn => by
      rw [divNodes_tags f n hn]; decide),
    find?_tag_none "WIFE" (chilNodes m f) (fun n hn => by
      rw [chilNodes_tags m f n hn]; decide)]
  simp only [Option.or_none, Option.none_or]
  have h0 : spouseNodes m f.spouse2Id "WIFE" = [] := by
    simp [spouseNodes, hs2, truthy]
  rw [h0]
  rfl

/-- Re-parsing one exported family record restores its value fields with
person links pushed through the renaming `ρ`, and mints a fresh id and
revision. -/
theorem parseFamily_famG (m : List (String × String)) (f : Family)
    (clock : Nat) (st : PState) (ρ : String → Option String)
    (hfresh : st.1.find? (fun e => e.1 == (mapGetLast m f.id).getD "") = none)
    (hres : ∀ s, (f.spouse1Id = some s ∨ f.spouse2Id = some s ∨
        s ∈ f.childIds) →
      ∃ ptr v, mapGetLast m s = some ptr ∧
        st.1.find? (fun e => e.1 == ptr) = some (ptr, v) ∧ ρ s = some v ∧
        v ≠ "" ∧ ptr ≠ "" ∧ s ≠ "")
    (hmOK : ∀ dp, f.marriageDate = some dp → f.type = .married ∧
      (truthy dp.date = true ∨ truthy dp.place = true) ∧
      fieldOK dp.date ∧ fieldOK dp.place)
    (hdv : ∀ dp, f.divorceDate = some dp →
      (∃ d, dp.date = some d ∧ d ≠ "" ∧ '\n' ∉ d.data) ∧ dp.place = none)
    (htyOK : f.type = .married ∨ f.type = .unknown) :
    parseFamily (famG m f) clock st =
      ({ id := freshId st.2, rev := freshId (st.2 + 1), createdAt := clock,
         updatedAt := clock, spouse1Id := f.spouse1Id.bind ρ,
         spouse2Id := f.spouse2Id.bind ρ,
         childIds := f.childIds.filterMap ρ,
         marriageDate := f.marriageDate, divorceDate := f.divorceDate,
         type := f.type },
       (st.1 ++ [((mapGetLast m f.id).getD "", freshId st.2)],
        st.2 + 2)) := by
  have hptr : (famG m f).pointer.getD "" = (mapGetLast m f.id).getD "" := rfl
  have hfind1 : ∀ ptr v, st.1.find? (fun e => e.1 == ptr) = some (ptr, v) →
      ((st.1 ++ [((mapGetLast m f.id).getD "", freshId st.2)], st.2 + 1) :
        PState).1.find? (fun e => e.1 == ptr) = some (ptr, v) := by
    intro ptr v h
    show (st.1 ++ _).find? _ = _
    rw [List.find?_append, h]
    rfl
  have hmdp : dpOK f.marriageDate := by
    cases hmd : f.marriageDate with
    | none => trivial
    | some dp =>
      obtain ⟨_, h1, h2, h3⟩ := hmOK dp hmd
      exact ⟨h1, h2, h3⟩
  have hmrec := dp_reconstruct f.marriageDate hmdp
  have hft : (if (f.type == FamilyType.married ||
      f.marriageDate.isSome) = true then FamilyType.married
      else FamilyType.unknown) = f.type := by
    rcases htyOK with hty | hty
    · rw [if_pos (by rw [hty]; simp), hty]
    · have hmd : f.marriageDate = none := by
        cases hmd2 : f.marriageDate with
        | none => rfl
        | some dp =>
          have := (hmOK dp hmd2).1
          rw [this] at hty
          exact absurd hty (by decide)
      rw [if_neg (by rw [hty, hmd]; decide), hty]
  have hdrec : (if truthy (f.divorceDate.bind (·.date)) then
      some (⟨f.divorceDate.bind (·.date), none⟩ : DatePlace)
      else none) = f.divorceDate := by
    cases hdd : f.divorceDate with
    | none => simp [truthy]
    | some dp =>
      obtain ⟨⟨d, hd1, hd2, _⟩, hdpl⟩ := hdv dp hdd
      simp only [Option.some_bind]
      rw [if_pos (by rw [hd1]; simpa [truthy] using hd2)]
      rw [show (⟨dp.date, none⟩ : DatePlace) = dp from by
        rw [← hdpl]]
  have hchil : ∀ c ∈ f.childIds, ∃ ptr v, mapGetLast m c = some ptr ∧
      ((st.1 ++ [((mapGetLast m f.id).getD "", freshId st.2)], st.2 + 1) :
        PState).1.find? (fun e => e.1 == ptr) = some (ptr, v) ∧
      ρ c = some v ∧ v ≠ "" ∧ ptr ≠ "" := by
    intro c hc
    obtain ⟨ptr, v, hmg, hfd, hrho, hvne, hpne, _⟩ :=
      hres c (Or.inr (Or.inr hc))
    exact ⟨ptr, v, hmg, hfind1 ptr v hfd, hrho, hvne, hpne⟩
  have hfold := chil_fold m ρ
    ((st.1 ++ [((mapGetLast m f.id).getD "", freshId st.2)], st.2 + 1) :
      PState) f.childIds [] hchil
  have hfilter := map_getD_filter ρ f.childIds (fun c hc =>
    (fun h => ⟨h.choose_spec.choose, h.choose_spec.choose_spec.2.2.1,
      h.choose_spec.choose_spec.2.2.2.1⟩)
    (hres c (Or.inr (Or.inr hc))))
  cases hs1 : f.spouse1Id with
  | none =>
    cases hs2 : f.spouse2Id with
    | none =>
      simp only [parseFamily, hptr, getOrCreateId_new _ _ hfresh,
        famG_husb_none m f hs1, famG_wife_none m f hs2, famG_filter_chil,
        chilNodes, hfold, famG_any_marr, hft,
        famG_marr_date m f (fun dp h => (hmOK dp h).2),
        famG_marr_place m f (fun dp h => (hmOK dp h).2), hmrec,
        famG_div_date m f hdv, hdrec, List.nil_append, hfilter, hs1, hs2,
        Option.none_bind]
    | some s2 =>
      obtain ⟨ptr2, v2, hmg2, hfd2, hrho2, hvne2, hpne2, hsne2⟩ :=
        hres s2 (Or.inr (Or.inl hs2))
      have hgoc2 : getOrCreateId ptr2
          ((st.1 ++ [((mapGetLast m f.id).getD "", freshId st.2)],
            st.2 + 1) : PState) =
          (v2, ((st.1 ++ [((mapGetLast m f.id).getD "", freshId st.2)],
            st.2 + 1) : PState)) :=
        getOrCreateId_found _ _ (ptr2, v2) (hfind1 ptr2 v2 hfd2)
      simp only [parseFamily, hptr, getOrCreateId_new _ _ hfresh,
        famG_husb_none m f hs1, famG_wife_val m f s2 ptr2 hs2 hsne2 hmg2 hpne2,
        hgoc2, famG_filter_chil, chilNodes, hfold, famG_any_marr, hft,
        famG_marr_date m f (fun dp h => (hmOK dp h).2),
        famG_marr_place m f (fun dp h => (hmOK dp h).2), hmrec,
        famG_div_date m f hdv, hdrec, List.nil_append, hfilter, hs1, hs2,
        Option.none_bind, Option.some_bind, hrho2]
  | some s1 =>
    obtain ⟨ptr1, v1, hmg1, hfd1, hrho1, hvne1, hpne1, hsne1⟩ :=
      hres s1 (Or.inl hs1)
    have hgoc1 : getOrCreateId ptr1
        ((st.1 ++ [((mapGetLast m f.id).getD "", freshId st.2)],
          st.2 + 1) : PState) =
        (v1, ((st.1 ++ [((mapGetLast m f.id).getD "", freshId st.2)],
          st.2 + 1) : PState)) :=
      getOrCreateId_found _ _ (ptr1, v1) (hfind1 ptr1 v1 hfd1)
    cases hs2 : f.spouse2Id with
    | none =>
      simp only [parseFamily, hptr, getOrCreateId_new _ _ hfresh,
        famG_husb_val m f s1 ptr1 hs1 hsne1 hmg1 hpne1,
        famG_wife_none m f hs2, hgoc1, famG_filter_chil, chilNodes, hfold,
        famG_any_marr, hft,
        famG_marr_date m f (fun dp h => (hmOK dp h).2),
        famG_marr_place m f (fun dp h => (hmOK dp h).2), hmrec,
        famG_div_date m f hdv, hdrec, List.nil_append, hfilter, hs1, hs2,
        Option.none_bind, Option.some_bind, hrho1]
    | some s2 =>
      obtain ⟨ptr2, v2, hmg2, hfd2, hrho2, hvne2, hpne2, hsne2⟩ :=
        hres s2 (Or.inr (Or.inl hs2))
      have hgoc2 : getOrCreateId ptr2
          ((st.1 ++ [((mapGetLast m f.id).getD "", freshId st.2)],
            st.2 + 1) : PState) =
          (v2, ((st.1 ++ [((mapGetLast m f.id).getD "", freshId st.2)],
            st.2 + 1) : PState)) :=
        getOrCreateId_found _ _ (ptr2, v2) (hfind1 ptr2 v2 hfd2)
      simp only [parseFamily, hptr, getOrCreateId_new _ _ hfresh,
        famG_husb_val m f s1 ptr1 hs1 hsne1 hmg1 hpne1,
        famG_wife_val m f s2 ptr2 hs2 hsne2 hmg2 hpne2, hgoc1, hgoc2,
        famG_filter_chil, chilNodes, hfold, famG_any_marr, hft,
        famG_marr_date m f (fun dp h => (hmOK dp h).2),
        famG_marr_place m f (fun dp h => (hmOK dp h).2), hmrec,
        famG_div_date m f hdv, hdrec, List.nil_append, hfilter, hs1, hs2,
        Option.none_bind, Option.some_bind, hrho1, hrho2]

/-! ### The pointer-map trajectory of a whole re-import -/

/-- The pointer map after the first `k` persons of a re-import that
started with counter `c0`. -/
def pMapUpTo (c0 k : Nat) : List (String × String) :=
  (List.range k).map (fun i => (ptrI i, freshId (c0 + 2 * i)))

/-- The family-pointer entries after the first `k` families of a
re-import of `n` persons that started with counter `c0`. -/
def fMapFrom (c0 n k : Nat) : List (String × String) :=
  (List.range k).map (fun i => (ptrF i, freshId (c0 + 2 * n + 2 * i)))

/-- The re-imported image of the `i`-th exported person. -/
def reVal (clock c0 i : Nat) (p : Person) : Person :=
  { id := freshId (c0 + 2 * i), rev := freshId (c0 + 2 * i + 1),
    createdAt := clock, updatedAt := clock, givenNames := p.givenNames,
    surname := p.surname, sex := p.sex, birth := p.birth, death := p.death,
    notes := p.notes }

/-- The re-imported image of the `i`-th exported family, with person
links renamed by `ρ`. -/
def reFam (ρ : String → Option String) (clock cF i : Nat) (f : Family) :
    Family :=
  { id := freshId (cF + 2 * i), rev := freshId (cF + 2 * i + 1),
    createdAt := clock, updatedAt := clock,
    spouse1Id := f.spouse1Id.bind ρ, spouse2Id := f.spouse2Id.bind ρ,
    childIds := f.childIds.filterMap ρ, marriageDate := f.marriageDate,
    divorceDate := f.divorceDate, type := f.type }

theorem pMap_find_none (c0 k : Nat) :
    (pMapUpTo c0 k).find? (fun e => e.1 == ptrI k) = none := by
  refine List.find?_eq_none.mpr ?_
  intro e he
  obtain ⟨i, hi, rfl⟩ := List.mem_map.mp he
  have hik : i < k := List.mem_range.mp hi
  simp only [beq_iff_eq]
  intro h
  exact absurd (ptrI_inj i k h) (by omega)

theorem pMap_find_lt (c0 : Nat) : ∀ (k j : Nat), j < k →
    (pMapUpTo c0 k).find? (fun e => e.1 == ptrI j) =
      some (ptrI j, freshId (c0 + 2 * j))
  | 0, j, h => absurd h (Nat.not_lt_zero j)
  | k + 1, j, h => by
    rw [pMapUpTo, List.range_succ, List.map_append, List.find?_append]
    by_cases hjk : j < k
    · rw [show (List.range k).map
          (fun i => (ptrI i, freshId (c0 + 2 * i))) = pMapUpTo c0 k from rfl,
        pMap_find_lt c0 k j hjk]
      rfl
    · have hj : j = k := by omega
      subst hj
      rw [show (List.range j).map
          (fun i => (ptrI i, freshId (c0 + 2 * i))) = pMapUpTo c0 j from rfl,
        pMap_find_none c0 j]
      simp

theorem pMap_find_F (c0 k j : Nat) :
    (pMapUpTo c0 k).find? (fun e => e.1 == ptrF j) = none := by
  refine List.find?_eq_none.mpr ?_
  intro e he
  obtain ⟨i, _, rfl⟩ := List.mem_map.mp he
  simp only [beq_iff_eq]
  exact ptrI_ne_ptrF i j

theorem fMap_find_none (c0 n k : Nat) :
    (fMapFrom c0 n k).find? (fun e => e.1 == ptrF k) = none := by
  refine List.find?_eq_none.mpr ?_
  intro e he
  obtain ⟨i, hi, rfl⟩ := List.mem_map.mp he
  have hik : i < k := List.mem_range.mp hi
  simp only [beq_iff_eq]
  intro h
  exact absurd (ptrF_inj i k h) (by omega)

theorem famPtr_fresh (c0 n j : Nat) :
    (pMapUpTo c0 n ++ fMapFrom c0 n j).find?
      (fun e => e.1 == ptrF j) = none := by
  rw [List.find?_append, pMap_find_F, fMap_find_none]
  rfl

/-- Running `parseIndividuals` over the exported person records from any
position in the trajectory. -/
theorem persons_phase (families0 : List Family)
    (m : List (String × String)) (clock c0 : Nat) :
    ∀ (ps : List Person) (j : Nat),
    (∀ (i : Nat) (h : i < ps.length),
      mapGetLast m (ps.get ⟨i, h⟩).id = some (ptrI (j + i))) →
    (∀ p ∈ ps, PersonExportable p) →
    parseIndividuals clock (ps.map (personG families0 m))
      (pMapUpTo c0 j, c0 + 2 * j) =
      ((ps.enumFrom j).map (fun e => reVal clock c0 e.1 e.2),
       (pMapUpTo c0 (j + ps.length), c0 + 2 * (j + ps.length)))
  | [], j, _, _ => by
    simp [parseIndividuals]
  | p :: ps, j, hlook, hex => by
    obtain ⟨_, _, hg, _, _, hb, hd, hn⟩ := hex p (List.mem_cons_self _ _)
    have hl0 : mapGetLast m p.id = some (ptrI j) := by
      have := hlook 0 (by simp)
      simpa using this
    have hgetD : (mapGetLast m p.id).getD "" = ptrI j := by
      rw [hl0]
      rfl
    have hfresh : ((pMapUpTo c0 j, c0 + 2 * j) : PState).1.find?
        (fun e => e.1 == (mapGetLast m p.id).getD "") = none := by
      show (pMapUpTo c0 j).find? _ = none
      rw [hgetD]
      exact pMap_find_none c0 j
    have hstep := parseIndividual_personG families0 m p clock
      (pMapUpTo c0 j, c0 + 2 * j) hfresh hg hb hd hn
    have hmap : pMapUpTo c0 j ++
        [((mapGetLast m p.id).getD "", freshId (c0 + 2 * j))] =
        pMapUpTo c0 (j + 1) := by
      rw [hgetD]
      simp only [pMapUpTo]
      rw [List.range_succ, List.map_append]
      rfl
    have hlook2 : ∀ (i : Nat) (h : i < ps.length),
        mapGetLast m (ps.get ⟨i, h⟩).id = some (ptrI (j + 1 + i)) := by
      intro i h
      have := hlook (i + 1) (by simp; omega)
      have harith : j + (i + 1) = j + 1 + i := by omega
      rw [harith] at this
      exact this
    have hrec := persons_phase families0 m clock c0 ps (j + 1) hlook2
      (fun q hq => hex q (List.mem_cons_of_mem _ hq))
    simp only [List.map_cons, parseIndividuals, hstep]
    rw [hmap, show c0 + 2 * j + 2 = c0 + 2 * (j + 1) from by omega, hrec]
    have harith2 : j + 1 + ps.length = j + (ps.length + 1) := by omega
    rw [harith2]
    simp only [List.enumFrom_cons, List.map_cons, List.length_cons]
    rfl

/-- Running `parseFamilies` over the exported family records from any
position in the trajectory. -/
theorem families_phase (m : List (String × String)) (clock c0 n : Nat)
    (ρ : String → Option String) :
    ∀ (fs : List Family) (j : Nat),
    (∀ (i : Nat) (h : i < fs.length),
      mapGetLast m (fs.get ⟨i, h⟩).id = some (ptrF (j + i))) →
    (∀ f ∈ fs, ∀ s, (f.spouse1Id = some s ∨ f.spouse2Id = some s ∨
        s ∈ f.childIds) →
      ∃ ptr v, mapGetLast m s = some ptr ∧
        (pMapUpTo c0 n).find? (fun e => e.1 == ptr) = some (ptr, v) ∧
        ρ s = some v ∧ v ≠ "" ∧ ptr ≠ "" ∧ s ≠ "") →
    (∀ f ∈ fs,
      (∀ dp, f.marriageDate = some dp → f.type = .married ∧
        (truthy dp.date = true ∨ truthy dp.place = true) ∧
        fieldOK dp.date ∧ fieldOK dp.place) ∧
      (∀ dp, f.divorceDate = some dp →
        (∃ d, dp.date = some d ∧ d ≠ "" ∧ '\n' ∉ d.data) ∧
        dp.place = none) ∧
      (f.type = .married ∨ f.type = .unknown)) →
    parseFamilies clock (fs.map (famG m))
      (pMapUpTo c0 n ++ fMapFrom c0 n j, c0 + 2 * n + 2 * j) =
      ((fs.enumFrom j).map (fun e => reFam ρ clock (c0 + 2 * n) e.1 e.2),
       (pMapUpTo c0 n ++ fMapFrom c0 n (j + fs.length),
        c0 + 2 * n + 2 * (j + fs.length)))
  | [], j, _, _, _ => by
    simp [parseFamilies]
  | f :: fs, j, hlook, hres, hOKs => by
    obtain ⟨hm, hd, hty⟩ := hOKs f (List.mem_cons_self _ _)
    have hl0 : mapGetLast m f.id = some (ptrF j) := by
      have := hlook 0 (by simp)
      simpa using this
    have hgetD : (mapGetLast m f.id).getD "" = ptrF j := by
      rw [hl0]
      rfl
    have hfresh : ((pMapUpTo c0 n ++ fMapFrom c0 n j,
        c0 + 2 * n + 2 * j) : PState).1.find?
        (fun e => e.1 == (mapGetLast m f.id).getD "") = none := by
      show (pMapUpTo c0 n ++ fMapFrom c0 n j).find? _ = none
      rw [hgetD]
      exact famPtr_fresh c0 n j
    have hres2 : ∀ s, (f.spouse1Id = some s ∨ f.spouse2Id = some s ∨
        s ∈ f.childIds) →
      ∃ ptr v, mapGetLast m s = some ptr ∧
        ((pMapUpTo c0 n ++ fMapFrom c0 n j,
          c0 + 2 * n + 2 * j) : PState).1.find?
          (fun e => e.1 == ptr) = some (ptr, v) ∧ ρ s = some v ∧
        v ≠ "" ∧ ptr ≠ "" ∧ s ≠ "" := by
      intro s hs
      obtain ⟨ptr, v, hmg, hfd, hrho, hvne, hpne, hsne⟩ :=
        hres f (List.mem_cons_self _ _) s hs
      refine ⟨ptr, v, hmg, ?_, hrho, hvne, hpne, hsne⟩
      show (pMapUpTo c0 n ++ fMapFrom c0 n j).find? _ = _
      rw [List.find?_append, hfd]
      rfl
    have hstep := parseFamily_famG m f clock
      (pMapUpTo c0 n ++ fMapFrom c0 n j, c0 + 2 * n + 2 * j) ρ
      hfresh hres2 hm hd hty
    have hmap : (pMapUpTo c0 n ++ fMapFrom c0 n j) ++
        [((mapGetLast m f.id).getD "",
          freshId (c0 + 2 * n + 2 * j))] =
        pMapUpTo c0 n ++ fMapFrom c0 n (j + 1) := by
      rw [hgetD, List.append_assoc]
      simp only [fMapFrom]
      rw [List.range_succ, List.map_append]
      rfl
    have hlook2 : ∀ (i : Nat) (h : i < fs.length),
        mapGetLast m (fs.get ⟨i, h⟩).id = some (ptrF (j + 1 + i)) := by
      intro i h
      have := hlook (i + 1) (by simp; omega)
      have harith : j + (i + 1) = j + 1 + i := by omega
      rw [harith] at this
      exact this
    have hrec := families_phase m clock c0 n ρ fs (j + 1) hlook2
      (fun q hq => hres q (List.mem_cons_of_mem _ hq))
      (fun q hq => hOKs q (List.mem_cons_of_mem _ hq))
    simp only [List.map_cons, parseFamilies, hstep]
    rw [hmap, show c0 + 2 * n + 2 * j + 2 = c0 + 2 * n + 2 * (j + 1)
      from by omega, hrec]
    have harith2 : j + 1 + fs.length = j + (fs.length + 1) := by omega
    rw [harith2]
    simp only [List.enumFrom_cons, List.map_cons, List.length_cons]
    rfl

/-! ### The renaming and the final store -/

theorem freshId_ne_empty (n : Nat) : freshId n ≠ "" := by
  intro h
  have := congrArg String.data h
  simp [freshId] at this

theorem zip_find_lookup (clock c0 : Nat) :
    ∀ (ps : List Person) (j i : Nat) (h : i < ps.length),
    (ps.map Person.id).Nodup →
    ((ps.zip ((ps.enumFrom j).map (fun e => reVal clock c0 e.1 e.2))).find?
      (fun pq => pq.1.id == (ps.get ⟨i, h⟩).id)) =
      some (ps.get ⟨i, h⟩, reVal clock c0 (j + i) (ps.get ⟨i, h⟩))
  | [], _, i, h, _ => absurd h (by simp)
  | p :: ps, j, 0, h, hnd => by
    simp only [List.enumFrom_cons, List.map_cons, List.zip_cons_cons,
      List.get]
    rw [List.find?_cons_of_pos _ (by simp)]
    rw [show j + 0 = j from by omega]
  | p :: ps, j, i + 1, h, hnd => by
    simp only [List.enumFrom_cons, List.map_cons, List.zip_cons_cons,
      List.get]
    have hi : i < ps.length := by
      simp only [List.length_cons] at h
      omega
    have hne : ¬ p.id = (ps.get ⟨i, hi⟩).id := by
      simp only [List.map_cons, List.nodup_cons] at hnd
      intro he
      exact hnd.1 (he ▸ List.mem_map.mpr
        ⟨ps.get ⟨i, hi⟩, List.get_mem ps i hi, rfl⟩)
    rw [List.find?_cons_of_neg _ (by simp only [beq_iff_eq]; exact hne)]
    have ih := zip_find_lookup clock c0 ps (j + 1) i hi
      (by simp only [List.map_cons, List.nodup_cons] at hnd; exact hnd.2)
    rw [ih, show j + 1 + i = j + (i + 1) from by omega]

theorem renamePid_get (clock c0 : Nat) (P : List Person) (i : Nat)
    (h : i < P.length) (hnd : (P.map Person.id).Nodup) :
    renamePid P ((P.enumFrom 0).map (fun e => reVal clock c0 e.1 e.2))
      (P.get ⟨i, h⟩).id = some (freshId (c0 + 2 * i)) := by
  rw [renamePid, zip_find_lookup clock c0 P 0 i h hnd]
  simp [reVal]

theorem foldPutP_new : ∀ (P : List Person) (acc : List Person),
    (∀ p ∈ P, ∀ q ∈ acc, ¬ q.id = p.id) → (P.map Person.id).Nodup →
    P.foldl (fun acc2 p => putPerson p acc2) acc = acc ++ P
  | [], acc, _, _ => by simp
  | p :: P, acc, hdis, hnd => by
    have hany : acc.any (fun q => q.id == p.id) = false := by
      rw [List.any_eq_false]
      intro q hq
      simp [hdis p (List.mem_cons_self _ _) q hq]
    rw [List.foldl_cons]
    show P.foldl _ (putPerson p acc) = _
    rw [putPerson, if_neg (by rw [hany]; exact Bool.false_ne_true)]
    have hpid : p.id ∉ P.map Person.id := by
      simp only [List.map_cons, List.nodup_cons] at hnd
      exact hnd.1
    rw [foldPutP_new P (acc ++ [p])
      (by
        intro x hx q hq
        rcases List.mem_append.mp hq with h1 | h2
        · exact hdis x (List.mem_cons_of_mem _ hx) q h1
        · have : q = p := by simpa using h2
          subst this
          intro he
          exact hpid (he ▸ List.mem_map.mpr ⟨x, hx, rfl⟩))
      (by simp only [List.map_cons, List.nodup_cons] at hnd; exact hnd.2)]
    simp

theorem foldPutF_new : ∀ (F : List Family) (acc : List Family),
    (∀ f ∈ F, ∀ g ∈ acc, ¬ g.id = f.id) → (F.map Family.id).Nodup →
    F.foldl (fun acc2 f => putFamily f acc2) acc = acc ++ F
  | [], acc, _, _ => by simp
  | f :: F, acc, hdis, hnd => by
    have hany : acc.any (fun g => g.id == f.id) = false := by
      rw [List.any_eq_false]
      intro g hg
      simp [hdis f (List.mem_cons_self _ _) g hg]
    rw [List.foldl_cons]
    show F.foldl _ (putFamily f acc) = _
    rw [putFamily, if_neg (by rw [hany]; exact Bool.false_ne_true)]
    have hfid : f.id ∉ F.map Family.id := by
      simp only [List.map_cons, List.nodup_cons] at hnd
      exact hnd.1
    rw [foldPutF_new F (acc ++ [f])
      (by
        intro x hx g hg
        rcases List.mem_append.mp hg with h1 | h2
        · exact hdis x (List.mem_cons_of_mem _ hx) g h1
        · have : g = f := by simpa using h2
          subst this
          intro he
          exact hfid (he ▸ List.mem_map.mpr ⟨x, hx, rfl⟩))
      (by simp only [List.map_cons, List.nodup_cons] at hnd; exact hnd.2)]
    simp

theorem newP_ids (clock c0 j : Nat) (P : List Person) :
    ((P.enumFrom j).map (fun e => reVal clock c0 e.1 e.2)).map Person.id =
      (List.range' j P.length).map (fun i => freshId (c0 + 2 * i)) := by
  rw [List.map_map]
  have h1 : (Person.id ∘ fun e : Nat × Person => reVal clock c0 e.1 e.2) =
      ((fun i => freshId (c0 + 2 * i)) ∘ Prod.fst) := rfl
  rw [h1, ← List.map_map, List.enumFrom_map_fst]

theorem newF_ids (ρ : String → Option String) (clock cF j : Nat)
    (F : List Family) :
    ((F.enumFrom j).map (fun e => reFam ρ clock cF e.1 e.2)).map Family.id =
      (List.range' j F.length).map (fun i => freshId (cF + 2 * i)) := by
  rw [List.map_map]
  have h1 : (Family.id ∘ fun e : Nat × Family => reFam ρ clock cF e.1 e.2) =
      ((fun i => freshId (cF + 2 * i)) ∘ Prod.fst) := rfl
  rw [h1, ← List.map_map, List.enumFrom_map_fst]

theorem freshRange_nodup (c0 j n : Nat) :
    ((List.range' j n).map (fun i => freshId (c0 + 2 * i))).Nodup := by
  refine List.Nodup.map ?_ (List.nodup_range' j n 1 (by omega))
  intro a b h
  have := freshId_inj _ _ h
  omega

/-- Importing the export of an exportable store into a fresh store:
the complete description of the result. -/
theorem import_export (db : Db) (hdb : DbExportable db) :
    importGedcom (exportGedcom db) {} =
      ((db.persons.length, db.families.length),
       { persons := (db.persons.enumFrom 0).map
           (fun e => reVal 0 0 e.1 e.2),
         families := (db.families.enumFrom 0).map (fun e =>
           reFam (renamePid db.persons
             ((db.persons.enumFrom 0).map (fun e => reVal 0 0 e.1 e.2)))
             0 (2 * db.persons.length) e.1 e.2),
         trees := [],
         counter := 2 * db.persons.length + 2 * db.families.length,
         clock := 0 }) := by
  obtain ⟨hper, hfam, hnd⟩ := hdb
  have hPfil : db.persons.filter (fun p => !p.deleted) = db.persons :=
    List.filter_eq_self.mpr (fun p hp => by rw [(hper p hp).1]; rfl)
  have hFfil : db.families.filter (fun f => !f.deleted) = db.families :=
    List.filter_eq_self.mpr (fun f hf => by rw [(hfam f hf).1]; rfl)
  have hsplit := export_split_parse db ⟨hper, hfam, hnd⟩
  have hforest := export_forest db
  rw [hPfil, hFfil] at hforest
  have hPne : ∀ p ∈ db.persons,
      ((mapGetLast (idToPointerOf db.persons db.families) p.id).getD "")
        ≠ "" := by
    intro p hp
    obtain ⟨v, hv, _, _, _, hvne⟩ := pointer_facts db.persons db.families p.id
      (List.mem_append.mpr (Or.inl (List.mem_map.mpr ⟨p, hp, rfl⟩)))
    rw [hv]
    exact hvne
  have hFne : ∀ f ∈ db.families,
      ((mapGetLast (idToPointerOf db.persons db.families) f.id).getD "")
        ≠ "" := by
    intro f hf
    obtain ⟨v, hv, _, _, _, hvne⟩ := pointer_facts db.persons db.families f.id
      (List.mem_append.mpr (Or.inr (List.mem_map.mpr ⟨f, hf, rfl⟩)))
    rw [hv]
    exact hvne
  have hcol := export_collect (exportPls db).length db.clock db.families
    (idToPointerOf db.persons db.families) db.persons db.families hPne hFne
  have hlookP : ∀ (i : Nat) (h : i < db.persons.length),
      mapGetLast (idToPointerOf db.persons db.families)
        (db.persons.get ⟨i, h⟩).id = some (ptrI (0 + i)) := by
    intro i h
    rw [Nat.zero_add]
    exact idToPointer_person db.persons db.families hnd i h
  have hphase1 := persons_phase db.families
    (idToPointerOf db.persons db.families) 0 0 db.persons 0 hlookP hper
  rw [show ((pMapUpTo 0 0, 0 + 2 * 0) : PState) = (([], 0) : PState)
    from rfl] at hphase1
  simp only [Nat.zero_add] at hphase1
  have hndP : (db.persons.map Person.id).Nodup :=
    (List.nodup_append.mp hnd).1
  have hlookF : ∀ (i : Nat) (h : i < db.families.length),
      mapGetLast (idToPointerOf db.persons db.families)
        (db.families.get ⟨i, h⟩).id = some (ptrF (0 + i)) := by
    intro i h
    rw [Nat.zero_add]
    exact idToPointer_family db.persons db.families hnd i h
  have hresF : ∀ f ∈ db.families, ∀ s,
      (f.spouse1Id = some s ∨ f.spouse2Id = some s ∨ s ∈ f.childIds) →
      ∃ ptr v, mapGetLast (idToPointerOf db.persons db.families) s =
          some ptr ∧
        (pMapUpTo 0 db.persons.length).find? (fun e => e.1 == ptr) =
          some (ptr, v) ∧
        renamePid db.persons ((db.persons.enumFrom 0).map
          (fun e => reVal 0 0 e.1 e.2)) s = some v ∧
        v ≠ "" ∧ ptr ≠ "" ∧ s ≠ "" := by
    intro f hf s hs
    obtain ⟨_, hsp1, hsp2, hchi, _, _, _⟩ := hfam f hf
    have hmain : s ≠ "" ∧ ∃ q ∈ db.persons, q.id = s := by
      rcases hs with h1 | h2 | h3
      · exact hsp1 s h1
      · exact hsp2 s h2
      · obtain ⟨q, hq, hqid⟩ := hchi s h3
        refine ⟨?_, q, hq, hqid⟩
        rw [← hqid]
        exact (hper q hq).2.1
    obtain ⟨hse, q, hq, hqid⟩ := hmain
    obtain ⟨⟨i, hlt⟩, hgi⟩ := List.mem_iff_get.mp hq
    refine ⟨ptrI i, freshId (0 + 2 * i), ?_, ?_, ?_,
      freshId_ne_empty _, ne_empty_of_head_at _ (ptrI_head i), hse⟩
    · rw [← hqid, ← hgi]
      exact idToPointer_person db.persons db.families hnd i hlt
    · exact pMap_find_lt 0 db.persons.length i hlt
    · rw [← hqid, ← hgi]
      have := renamePid_get 0 0 db.persons i hlt hndP
      rw [this]
  have hOKsF : ∀ f ∈ db.families,
      (∀ dp, f.marriageDate = some dp → f.type = .married ∧
        (truthy dp.date = true ∨ truthy dp.place = true) ∧
        fieldOK dp.date ∧ fieldOK dp.place) ∧
      (∀ dp, f.divorceDate = some dp →
        (∃ d, dp.date = some d ∧ d ≠ "" ∧ '\n' ∉ d.data) ∧
        dp.place = none) ∧
      (f.type = .married ∨ f.type = .unknown) := by
    intro f hf
    obtain ⟨_, _, _, _, hmd, hdd, hty⟩ := hfam f hf
    exact ⟨hmd, hdd, hty⟩
  have hphase2 := families_phase (idToPointerOf db.persons db.families)
    0 0 db.persons.length
    (renamePid db.persons ((db.persons.enumFrom 0).map
      (fun e => reVal 0 0 e.1 e.2)))
    db.families 0 hlookF hresF hOKsF
  rw [show fMapFrom 0 db.persons.length 0 = [] from rfl,
    List.append_nil] at hphase2
  simp only [Nat.zero_add, Nat.mul_zero, Nat.add_zero] at hphase2
  have hndNewP : (((db.persons.enumFrom 0).map
      (fun e => reVal 0 0 e.1 e.2)).map Person.id).Nodup := by
    rw [newP_ids]
    exact freshRange_nodup 0 0 db.persons.length
  have hndNewF : (((db.families.enumFrom 0).map (fun e =>
      reFam (renamePid db.persons ((db.persons.enumFrom 0).map
        (fun e => reVal 0 0 e.1 e.2))) 0 (2 * db.persons.length)
        e.1 e.2)).map Family.id).Nodup := by
    rw [newF_ids]
    exact freshRange_nodup (2 * db.persons.length) 0 db.families.length
  have hfoldP := foldPutP_new ((db.persons.enumFrom 0).map
      (fun e => reVal 0 0 e.1 e.2)) []
    (fun p _ q hq => absurd hq (List.not_mem_nil q)) hndNewP
  have hfoldF := foldPutF_new ((db.families.enumFrom 0).map (fun e =>
      reFam (renamePid db.persons ((db.persons.enumFrom 0).map
        (fun e => reVal 0 0 e.1 e.2))) 0 (2 * db.persons.length)
        e.1 e.2)) []
    (fun f _ g hg => absurd hg (List.not_mem_nil g)) hndNewF
  rw [List.nil_append] at hfoldP hfoldF
  have hne2 : db.persons.map (personG db.families
      (idToPointerOf db.persons db.families)) ++
      (db.families.map (famG (idToPointerOf db.persons db.families)) ++
        [trlrG]) ≠ [] := by
    intro h
    have := congrArg List.length h
    simp at this
  obtain ⟨x, t2, hxt⟩ := List.exists_cons_of_ne_nil hne2
  have hbf : buildForest (exportPls db).length 0 (exportPls db) =
      bf 0 (exportPls db) := rfl
  simp only [importGedcom, hsplit, hbf, hforest, hxt]
  rw [← hxt]
  rw [hcol]
  simp only [hphase1, hphase2, hfoldP, hfoldF]
  simp only [List.length_map, List.enumFrom_length]


/-! ### C1 — the round-trip claim -/

/-- The witness person: one exportable person record. -/
def wP : Person :=
  { id := "a", givenNames := "Ada", surname := "Lovelace", sex := .F,
    birth := some { date := some "1815" }, notes := some "note" }

/-- The witness family: one exportable married family. -/
def wF : Family :=
  { id := "fam1", spouse1Id := some "a",
    marriageDate := some { date := some "1840" }, type := .married }

/-- The witness store: one person, one family. -/
def wDb : Db :=
  { persons := [wP], families := [wF], counter := 5, clock := 7 }

/-- C1 (amended): the GEDCOM round-trip holds for every store of the
shape the importer itself produces (`DbExportable`: no deleted
entities, non-empty ids and given names, newline-free single-line
fields, resolvable non-empty spouse and child references, marriage
data only on `married` families, divorce data date-only, union type
`married` or `unknown`, globally distinct ids).  Re-importing the
export of such a store into a fresh store reports the original person
and family counts, produces exactly as many persons and families,
reproduces every person's value fields (names, sex, birth, death,
notes) in order, reproduces every family's value fields (spouse links,
child list, marriage and divorce data, union type) up to the positional
renaming of internal person ids, and mints pairwise-distinct fresh ids.
The unamended claim — for every document containing only recognized
tags — fails: `gedcom_roundtrip_counterexample` imports a family whose
dangling `HUSB` pointer is resolved to a freshly minted person id, and
the export drops the unresolvable spouse reference, so the spouse link
does not survive the second import. -/
theorem gedcom_roundtrip (db : Db) (hdb : DbExportable db) :
    (importGedcom (exportGedcom db) {}).1 =
        (db.persons.length, db.families.length) ∧
    (importGedcom (exportGedcom db) {}).2.persons.length =
        db.persons.length ∧
    (importGedcom (exportGedcom db) {}).2.families.length =
        db.families.length ∧
    (importGedcom (exportGedcom db) {}).2.persons.map personVals =
        db.persons.map personVals ∧
    (importGedcom (exportGedcom db) {}).2.families.map familyVals =
        db.families.map (familyRename (renamePid db.persons
          (importGedcom (exportGedcom db) {}).2.persons)) ∧
    (((importGedcom (exportGedcom db) {}).2.persons.map Person.id) ++
      ((importGedcom (exportGedcom db) {}).2.families.map
        Family.id)).Nodup := by
  rw [import_export db hdb]
  refine ⟨rfl, ?_, ?_, ?_, ?_, ?_⟩
  · show ((db.persons.enumFrom 0).map
        (fun e => reVal 0 0 e.1 e.2)).length = db.persons.length
    rw [List.length_map, List.enumFrom_length]
  · show ((db.families.enumFrom 0).map (fun e =>
        reFam (renamePid db.persons ((db.persons.enumFrom 0).map
          (fun e => reVal 0 0 e.1 e.2))) 0 (2 * db.persons.length)
          e.1 e.2)).length = db.families.length
    rw [List.length_map, List.enumFrom_length]
  · show ((db.persons.enumFrom 0).map
        (fun e => reVal 0 0 e.1 e.2)).map personVals =
      db.persons.map personVals
    rw [List.map_map]
    have h1 : (personVals ∘ fun e : Nat × Person => reVal 0 0 e.1 e.2) =
        (personVals ∘ Prod.snd) := rfl
    rw [h1, ← List.map_map, List.enumFrom_map_snd]
  · show ((db.families.enumFrom 0).map (fun e =>
        reFam (renamePid db.persons ((db.persons.enumFrom 0).map
          (fun e => reVal 0 0 e.1 e.2))) 0 (2 * db.persons.length)
          e.1 e.2)).map familyVals =
      db.families.map (familyRename (renamePid db.persons
        ((db.persons.enumFrom 0).map (fun e => reVal 0 0 e.1 e.2))))
    rw [List.map_map]
    have h2 : (familyVals ∘ fun e : Nat × Family =>
        reFam (renamePid db.persons ((db.persons.enumFrom 0).map
          (fun e => reVal 0 0 e.1 e.2))) 0 (2 * db.persons.length)
          e.1 e.2) =
        ((familyRename (renamePid db.persons ((db.persons.enumFrom 0).map
          (fun e => reVal 0 0 e.1 e.2)))) ∘ Prod.snd) := rfl
    rw [h2, ← List.map_map, List.enumFrom_map_snd]
  · show ((((db.persons.enumFrom 0).map
          (fun e => reVal 0 0 e.1 e.2)).map Person.id) ++
      (((db.families.enumFrom 0).map (fun e =>
          reFam (renamePid db.persons ((db.persons.enumFrom 0).map
            (fun e => reVal 0 0 e.1 e.2))) 0 (2 * db.persons.length)
            e.1 e.2)).map Family.id)).Nodup
    rw [newP_ids, newF_ids]
    refine List.nodup_append.mpr
      ⟨freshRange_nodup 0 0 _, freshRange_nodup (2 * db.persons.length) 0 _,
       ?_⟩
    intro a ha hb
    obtain ⟨i, hi, rfl⟩ := List.mem_map.mp ha
    obtain ⟨i2, _, he⟩ := List.mem_map.mp hb
    have hii := freshId_inj _ _ he
    have hi2 : i < 0 + db.persons.length := (List.mem_range'_1.mp hi).2
    omega

/-- Witness for the amended round-trip: the one-person, one-family
store `wDb` is exportable, and its re-import reproduces counts, person
values, family values up to id renaming, and distinct fresh ids. -/
theorem gedcom_roundtrip_witness :
    DbExportable wDb ∧
    ((importGedcom (exportGedcom wDb) {}).1 =
        (wDb.persons.length, wDb.families.length) ∧
     (importGedcom (exportGedcom wDb) {}).2.persons.length =
        wDb.persons.length ∧
     (importGedcom (exportGedcom wDb) {}).2.families.length =
        wDb.families.length ∧
     (importGedcom (exportGedcom wDb) {}).2.persons.map personVals =
        wDb.persons.map personVals ∧
     (importGedcom (exportGedcom wDb) {}).2.families.map familyVals =
        wDb.families.map (familyRename (renamePid wDb.persons
          (importGedcom (exportGedcom wDb) {}).2.persons)) ∧
     (((importGedcom (exportGedcom wDb) {}).2.persons.map Person.id) ++
       ((importGedcom (exportGedcom wDb) {}).2.families.map
         Family.id)).Nodup) := by
  have hex : DbExportable wDb := by
    refine ⟨?_, ?_, by decide⟩
    · intro p hp
      have hp1 : p = wP := by simpa [wDb] using hp
      subst hp1
      exact ⟨rfl, by decide, by decide, by decide, by decide,
        ⟨Or.inl (by decide), ⟨by decide, by decide⟩, trivial⟩, trivial,
        ⟨by decide, by decide⟩⟩
    · intro f hf
      have hf1 : f = wF := by simpa [wDb] using hf
      subst hf1
      refine ⟨rfl, ?_, ?_, ?_, ?_, ?_, Or.inl rfl⟩
      · intro s hs
        have hs2 : some "a" = some s := hs
        injection hs2 with hs3
        subst hs3
        exact ⟨by decide, wP, by simp [wDb], rfl⟩
      · intro s hs
        exact Option.noConfusion hs
      · intro c hc
        exact absurd hc (List.not_mem_nil c)
      · intro dp hdp
        have hdp2 : some { date := some "1840" : DatePlace } = some dp := hdp
        injection hdp2 with hdp3
        subst hdp3
        exact ⟨rfl, Or.inl (by decide), ⟨by decide, by decide⟩, trivial⟩
      · intro dp hdp
        exact Option.noConfusion hdp
  exact ⟨hex, gedcom_roundtrip wDb hex⟩

end KinMap
